import Mathlib

/-!
# SPS/CATRiNA event builder: decoder, stream merger, coincidence loop and analyzer

A shallow embedding of `src/evb/CompassFile.cpp` (the binary hit decoder), from
`src/evb/CompassRun.cpp` of `CompassRun::GetHitsFromFiles` (the k-way merge of the decoders),
`CompassRun::GetBinaryFiles` (the opening of the data files) and the loops of `Convert2RawRoot`
and `Convert2SortedRoot`, and of `src/evb/SFPAnalyzer.cpp` (the analysis of a coincidence event)
over the records of `src/spsdict/DataStructs.h`, followed by theorems about them.

Conventions of the embedding

* A file is a list of bytes; `std::ifstream` is the record `IFStream` (content, position,
  `eofbit`, `failbit`, `gcount`) with the standard behaviour of `read`, `seekg`, `tellg`.
* Pointers into `m_hitBuffer` are byte offsets (`Option Nat`, `none` is `nullptr`).
* `earliestHit` is the index of the pointed element of `m_datafiles`.
* Undefined behaviour of the C++ program (reading outside `m_hitBuffer`, dereferencing a null
  `earliestHit`, dividing by a zero record size, decoding a `new char[]` block a short read did
  not fill, handing `delete[]` a pointer that was moved off the start of its block) is an
  explicit `Fault`.
* Multi-byte fields are decoded little-endian, as on the x86 machines the program runs on.
* `CompassFile.h`, `CompassHit.h` and `ShiftMap.h` are not among the sources: the hit record,
  the header flag masks and the shift table are modelled from the specification, and the
  integer members `m_size`, `m_nHits`, `m_hitsize`, `m_buffersize` are unbounded integers.
* `SlowSort.h` and `SlowSort.cpp` are not among the sources either: the coincidence builder
  that `Convert2SortedRoot` drives is modelled from the specification.
* Loops that need not end take a number of iterations `fuel` and yield `none` when it runs out.
* A `double` of the analyzer is an exact number of a linearly ordered field; `std::atan` and
  `TMath::Pi()` are parameters; the element access `v[0]` of an empty vector is a `Fault`; the
  histograms of `MyFill` are left out.
-/

namespace EventBuilder

/-- One byte of a file or of the hit buffer. -/
abbrev Byte := Fin 256

/-- Undefined behaviour the C++ code can run into. -/
inductive Fault where
  | nullDeref
  | bufferOverrun
  | divByZero
  | uninitRead
  | invalidDelete
  deriving DecidableEq, Repr

/-- Modelled from the spec: the hit record of `CompassHit.h` (not among the sources), with the
fields `ParseNextHit` assigns; every field starts at 0. -/
structure CompassHit where
  board : Nat := 0
  channel : Nat := 0
  timestamp : Nat := 0
  energy : Nat := 0
  energyCalibrated : Nat := 0
  energyShort : Nat := 0
  flags : Nat := 0
  waveCode : Nat := 0
  Ns : Nat := 0
  deriving DecidableEq, Repr

/-- Modelled from the spec: the table of `ShiftMap.h` (not among the sources), pairs of a global
channel id and an integer timestamp offset. -/
structure ShiftMap where
  m_map : List (Int × Int)
  deriving DecidableEq, Repr

/-- Modelled from the spec: `ShiftMap::GetShift`, the offset of a global channel, 0 for a channel
without an entry. -/
def ShiftMap.GetShift (s : ShiftMap) (gchan_id : Int) : Int :=
  match s.m_map.lookup gchan_id with
  | some v => v
  | none => 0

/-- Modelled from the spec: header bit of the long-energy field (`CompassFile.h` is not among the
sources); the spec lists the bits in the order long energy, calibrated energy, short energy,
waveform. -/
def headerEnergy : Nat := 0x0001

/-- Modelled from the spec: header bit of the calibrated-energy field. -/
def headerEnergyCalibrated : Nat := 0x0002

/-- Modelled from the spec: header bit of the short-energy field. -/
def headerEnergyShort : Nat := 0x0004

/-- Modelled from the spec: header bit announcing waveform samples. -/
def headerWaves : Nat := 0x0008

/-- Little-endian value of a run of bytes. -/
def leDecode : List Byte → Nat
  | [] => 0
  | b :: bs => b.val + 256 * leDecode bs

/-! ## `std::ifstream` -/

/-- The state of a `std::ifstream` over a file. -/
structure IFStream where
  content : List Byte := []
  is_open : Bool := false
  pos : Nat := 0
  eofbit : Bool := false
  failbit : Bool := false
  gcount : Nat := 0
  deriving DecidableEq, Repr

namespace IFStream

/-- Stream call `open(name, binary | in)`: `none` is a path that cannot be opened. Opening fails, setting
`failbit`, on such a path and on a stream that is open already; success clears the state
flags. -/
def openFile (s : IFStream) (file : Option (List Byte)) : IFStream :=
  if s.is_open then { s with failbit := true }
  else
    match file with
    | some bytes =>
      { s with content := bytes, is_open := true, pos := 0, eofbit := false, failbit := false }
    | none => { s with failbit := true }

/-- Stream call `seekg(0, end)`: clears `eofbit`, then moves to the end unless the stream has failed. -/
def seekgEnd (s : IFStream) : IFStream :=
  if s.failbit then { s with eofbit := false }
  else { s with eofbit := false, pos := s.content.length }

/-- Stream call `seekg(0, beg)`: clears `eofbit`, then moves to the start unless the stream has failed. -/
def seekgBeg (s : IFStream) : IFStream :=
  if s.failbit then { s with eofbit := false }
  else { s with eofbit := false, pos := 0 }

/-- Stream call `tellg()`: the position, or -1 when the stream has failed. -/
def tellg (s : IFStream) : Int :=
  if s.failbit then -1 else (s.pos : Int)

/-- Stream call `eof()`. -/
def eof (s : IFStream) : Bool := s.eofbit

/-- Stream call `read(buf, n)`: the bytes extracted and the new stream state. On a stream that is not good
nothing is extracted and `failbit` is set; when fewer than `n` bytes remain, those are extracted
and `eofbit` and `failbit` are set. -/
def read (s : IFStream) (n : Nat) : IFStream × List Byte :=
  if s.eofbit || s.failbit then ({ s with failbit := true, gcount := 0 }, [])
  else
    let got := (s.content.drop s.pos).take n
    if got.length < n then
      ({ s with pos := s.pos + got.length, gcount := got.length, eofbit := true, failbit := true },
        got)
    else ({ s with pos := s.pos + got.length, gcount := got.length }, got)

end IFStream

/-! ## `CompassFile` -/

/-- The members of `CompassFile` (the file name apart). -/
structure CompassFile where
  m_hitBuffer : List Byte := []
  m_bufferIter : Option Nat := none
  m_bufferEnd : Option Nat := none
  m_smap : Option ShiftMap := none
  m_hitUsedFlag : Bool := true
  m_bufsize : Nat := 0
  m_hitsize : Nat := 0
  m_header : Nat := 0
  m_buffersize : Nat := 0
  m_currentHit : CompassHit := {}
  m_file : IFStream := {}
  m_eofFlag : Bool := false
  m_size : Int := 0
  m_nHits : Int := 0
  deriving DecidableEq, Repr

namespace CompassFile

/-- Method `IsOpen()`. -/
def IsOpen (f : CompassFile) : Bool := f.m_file.is_open

/-- Method `IsEOF()`. -/
def IsEOF (f : CompassFile) : Bool := f.m_eofFlag

/-- Method `IsEnergy()`. -/
def IsEnergy (f : CompassFile) : Bool := f.m_header &&& headerEnergy != 0

/-- Method `IsEnergyCalibrated()`. -/
def IsEnergyCalibrated (f : CompassFile) : Bool := f.m_header &&& headerEnergyCalibrated != 0

/-- Method `IsEnergyShort()`. -/
def IsEnergyShort (f : CompassFile) : Bool := f.m_header &&& headerEnergyShort != 0

/-- Method `IsWaves()`. -/
def IsWaves (f : CompassFile) : Bool := f.m_header &&& headerWaves != 0

/-- Method `CheckHitHasBeenUsed()`. -/
def CheckHitHasBeenUsed (f : CompassFile) : Bool := f.m_hitUsedFlag

/-- Method `SetHitHasBeenUsed()`. -/
def SetHitHasBeenUsed (f : CompassFile) : CompassFile := { f with m_hitUsedFlag := true }

/-- Method `GetCurrentHit()`. -/
def GetCurrentHit (f : CompassFile) : CompassHit := f.m_currentHit

/-- Method `GetNumberOfHits()`. -/
def GetNumberOfHits (f : CompassFile) : Int := f.m_nHits

/-- Method `AttachShiftMap(map)`. -/
def AttachShiftMap (f : CompassFile) (map : ShiftMap) : CompassFile := { f with m_smap := some map }

/-- Method `ReadHeader()` (lines 79-111): the flag word and the record size it implies. With the
waveform flag the method reads the fixed part of the first record into the block `firstHit`,
moves `firstHit` to the sample count at the end of the block (line 102) and hands the moved
pointer to `delete[]` (line 107). -/
def ReadHeader (f : CompassFile) : Except Fault CompassFile :=
  if !f.IsOpen then .ok f
  else
    let r := f.m_file.read 2
    if r.2.length < 2 then .error .uninitRead
    else
      let f := { f with m_file := r.1, m_header := leDecode r.2, m_hitsize := 16 }
      let f := if f.IsEnergy then { f with m_hitsize := f.m_hitsize + 2 } else f
      let f := if f.IsEnergyCalibrated then { f with m_hitsize := f.m_hitsize + 8 } else f
      let f := if f.IsEnergyShort then { f with m_hitsize := f.m_hitsize + 2 } else f
      if f.IsWaves then
        let f := { f with m_hitsize := f.m_hitsize + 5 }
        let r1 := f.m_file.read f.m_hitsize
        if r1.2.length < f.m_hitsize then .error .uninitRead
        else .error .invalidDelete
      else .ok f

/-- Method `Open(filename)` (lines 45-67) on the file found at that path, `none` when it cannot be
opened. -/
def Open (f : CompassFile) (file : Option (List Byte)) : Except Fault CompassFile :=
  let f : CompassFile := { f with m_eofFlag := false, m_hitUsedFlag := true, m_nHits := 0 }
  let f : CompassFile := { f with m_file := (f.m_file.openFile file).seekgEnd }
  let f : CompassFile := { f with m_size := f.m_file.tellg }
  if f.m_size = 2 then .ok { f with m_eofFlag := true }
  else
    match ReadHeader { f with m_file := f.m_file.seekgBeg } with
    | .error e => .error e
    | .ok f =>
      if f.m_hitsize = 0 then .error .divByZero
      else
        let f : CompassFile := { f with m_nHits := Int.tdiv f.m_size (f.m_hitsize : Int) }
        let f : CompassFile := { f with m_buffersize := f.m_hitsize * f.m_bufsize }
        .ok { f with m_hitBuffer := f.m_hitBuffer.take f.m_buffersize ++
                List.replicate (f.m_buffersize - f.m_hitBuffer.length) 0 }

/-- The constructor `CompassFile(filename, bsize)` (lines 31-36); the one-argument constructor
is the same with the default `m_bufsize` of the class declaration. -/
def create (file : Option (List Byte)) (bsize : Nat) : Except Fault CompassFile :=
  Open { m_bufsize := bsize } file

/-- Method `GetNextBuffer()` (lines 141-152): the next batch of the file, read over the start of the
buffer. -/
def GetNextBuffer (f : CompassFile) : CompassFile :=
  if f.m_file.eof then { f with m_eofFlag := true }
  else
    let r := f.m_file.read f.m_hitBuffer.length
    { f with m_file := r.1
             m_hitBuffer := r.2 ++ f.m_hitBuffer.drop r.2.length
             m_bufferIter := some 0
             m_bufferEnd := some (0 + r.1.gcount) }

/-- The value `*((uintW_t*) p)` of `width` bytes at offset `off` of the buffer. -/
def readAt (buf : List Byte) (off width : Nat) : Except Fault Nat :=
  if off + width ≤ buf.length then .ok (leDecode ((buf.drop off).take width))
  else .error .bufferOverrun

/-- The body of `ParseNextHit()` (lines 157-199) with the cursor at offset `p`: the decoded hit
and the offset behind the record. The product `2 * m_currentHit.Ns` that skips the samples is
formed in 32 bits, `Ns` being the 32-bit sample count of the specification. -/
def decodeHit (f : CompassFile) (p : Nat) : Except Fault (CompassHit × Nat) := do
  let buf := f.m_hitBuffer
  let board ← readAt buf p 2
  let p := p + 2
  let channel ← readAt buf p 2
  let p := p + 2
  let timestamp ← readAt buf p 8
  let p := p + 8
  let hit := { f.m_currentHit with board := board, channel := channel, timestamp := timestamp }
  let (hit, p) ←
    if f.IsEnergy then do
      let v ← readAt buf p 2
      pure ({ hit with energy := v }, p + 2)
    else pure (hit, p)
  let (hit, p) ←
    if f.IsEnergyCalibrated then do
      let v ← readAt buf p 8
      pure ({ hit with energyCalibrated := v }, p + 8)
    else pure (hit, p)
  let (hit, p) ←
    if f.IsEnergyShort then do
      let v ← readAt buf p 2
      pure ({ hit with energyShort := v }, p + 2)
    else pure (hit, p)
  let flags ← readAt buf p 4
  let hit := { hit with flags := flags }
  let p := p + 4
  let (hit, p) ←
    if f.IsWaves then do
      let wc ← readAt buf p 1
      let ns ← readAt buf (p + 1) 4
      pure ({ hit with waveCode := wc, Ns := ns }, p + 1 + 4 + (2 * ns) % 2 ^ 32)
    else pure (hit, p)
  let hit :=
    match f.m_smap with
    | some smap =>
      let gchan : Int := (hit.channel : Int) + (hit.board : Int) * 16
      { hit with timestamp := (((hit.timestamp : Int) + smap.GetShift gchan) % 2 ^ 64).toNat }
    | none => hit
  pure (hit, p)

/-- Method `ParseNextHit()` (lines 155-200): decodes the record under the cursor into the current hit
and moves the cursor behind it. -/
def ParseNextHit (f : CompassFile) : Except Fault CompassFile :=
  match f.m_bufferIter with
  | none => .error .nullDeref
  | some p =>
    match f.decodeHit p with
    | .error e => .error e
    | .ok (hit, p) => .ok { f with m_currentHit := hit, m_bufferIter := some p }

/-- Method `GetNextHit()` (lines 118-135): the new state and the returned end-of-file flag. -/
def GetNextHit (f : CompassFile) : Except Fault (CompassFile × Bool) :=
  if !f.IsOpen then .ok (f, true)
  else
    let f :=
      if (f.m_bufferIter == none || f.m_bufferIter == f.m_bufferEnd) && !f.IsEOF then
        f.GetNextBuffer
      else f
    if !f.IsEOF then
      match f.ParseNextHit with
      | .error e => .error e
      | .ok f => .ok ({ f with m_hitUsedFlag := false }, f.m_eofFlag)
    else .ok (f, f.m_eofFlag)

/-- The number of bytes `ParseNextHit` reads for a record without waveform samples: the 16 fixed
bytes and the optional fields of the header. -/
def recordWidth (f : CompassFile) : Nat :=
  16 + (if f.IsEnergy then 2 else 0) + (if f.IsEnergyCalibrated then 8 else 0)
    + (if f.IsEnergyShort then 2 else 0)

/-- The timestamp of the current hit. -/
def ts (f : CompassFile) : Nat := f.GetCurrentHit.timestamp

/-- The loop of `ReadScalerData` (`CompassRun.cpp`, lines 124-130), which reads a file to its
end with `GetNextHit(); if (IsEOF()) break;`, here collecting the hits it counts: `none` when a
call faults or the end of file is not reached within `fuel` calls. -/
def drain : Nat → CompassFile → Option (List CompassHit)
  | 0, _ => none
  | fuel + 1, f =>
    match f.GetNextHit with
    | .error _ => none
    | .ok (f, _) =>
      if f.IsEOF then some []
      else
        match drain fuel f with
        | none => none
        | some hits => some (f.GetCurrentHit :: hits)

/-- A decoder whose current hit counts as used, as `Open` leaves it, and which read to its end
delivers exactly the hits `hits`. -/
def Delivers (f : CompassFile) (hits : List CompassHit) : Prop :=
  f.CheckHitHasBeenUsed = true ∧ ∃ fuel, f.drain fuel = some hits

/-- The hits a decoder in the middle of a merge still owes: none at end of file; what reading it
to its end delivers when its current hit has been used; its current hit first when that hit has
not been used yet. -/
def Pending (f : CompassFile) (hits : List CompassHit) : Prop :=
  (f.IsEOF = true ∧ hits = []) ∨
  (f.IsEOF = false ∧ f.CheckHitHasBeenUsed = true ∧ ∃ fuel, f.drain fuel = some hits) ∨
  (f.IsEOF = false ∧ f.CheckHitHasBeenUsed = false ∧
    ∃ fuel rest, f.drain fuel = some rest ∧ hits = f.GetCurrentHit :: rest)

/-- The hits owed by a decoder the scan has gone over: none at end of file, else its current
hit, which is unused, followed by what reading it to its end delivers. -/
def Held (f : CompassFile) (hits : List CompassHit) : Prop :=
  (f.IsEOF = true ∧ hits = []) ∨
  (f.IsEOF = false ∧ f.CheckHitHasBeenUsed = false ∧
    ∃ fuel rest, f.drain fuel = some rest ∧ hits = f.GetCurrentHit :: rest)

/-- The returned flag and the current hit after each of `k` successive calls of `GetNextHit`,
with the state they leave. -/
def callsGetNextHit : Nat → CompassFile → Except Fault (List (Bool × CompassHit) × CompassFile)
  | 0, f => .ok ([], f)
  | k + 1, f =>
    match f.GetNextHit with
    | .error e => .error e
    | .ok (f, eof) =>
      match callsGetNextHit k f with
      | .error e => .error e
      | .ok (rest, last) => .ok ((eof, f.GetCurrentHit) :: rest, last)

end CompassFile

/-! ## `CompassRun` -/

/-- The members of `CompassRun` that `GetHitsFromFiles` works on. -/
structure CompassRun where
  m_datafiles : List CompassFile := []
  startIndex : Nat := 0
  m_hit : CompassHit := {}
  deriving DecidableEq, Repr

namespace CompassRun

/-- Lines 151-152 of `GetHitsFromFiles`: a stream whose hit has been used is advanced. -/
def advanceIfUsed (f : CompassFile) : Except Fault CompassFile :=
  if f.CheckHitHasBeenUsed then
    match f.GetNextHit with
    | .error e => .error e
    | .ok r => .ok r.1
  else .ok f

/-- The `for` loop of `GetHitsFromFiles` (lines 148-167) from index `i` on, for at most `n`
iterations, on the data files, `startIndex` and `earliestHit`. -/
def scan : Nat → Nat → List CompassFile → Nat → Option Nat →
    Except Fault (List CompassFile × Nat × Option Nat)
  | 0, _, datafiles, startIndex, earliestHit => .ok (datafiles, startIndex, earliestHit)
  | n + 1, i, datafiles, startIndex, earliestHit =>
    match datafiles[i]? with
    | none => .ok (datafiles, startIndex, earliestHit)
    | some f =>
      match advanceIfUsed f with
      | .error e => .error e
      | .ok f =>
        let datafiles := datafiles.set i f
        if f.IsEOF then
          if i = startIndex then scan n (i + 1) datafiles (startIndex + 1) earliestHit
          else scan n (i + 1) datafiles startIndex earliestHit
        else if i = startIndex then scan n (i + 1) datafiles startIndex (some i)
        else
          match earliestHit with
          | none => .error .nullDeref
          | some e =>
            match datafiles[e]? with
            | none => .error .nullDeref
            | some g =>
              if f.GetCurrentHit.timestamp < g.GetCurrentHit.timestamp then
                scan n (i + 1) datafiles startIndex (some i)
              else scan n (i + 1) datafiles startIndex earliestHit

/-- Method `GetHitsFromFiles()` (lines 142-179): the new state and the returned flag. -/
def GetHitsFromFiles (run : CompassRun) : Except Fault (CompassRun × Bool) :=
  match scan run.m_datafiles.length run.startIndex run.m_datafiles run.startIndex none with
  | .error e => .error e
  | .ok (datafiles, startIndex, earliestHit) =>
    match earliestHit with
    | none => .ok ({ run with m_datafiles := datafiles, startIndex := startIndex }, false)
    | some e =>
      match datafiles[e]? with
      | none => .error .nullDeref
      | some g =>
        .ok ({ m_datafiles := datafiles.set e g.SetHitHasBeenUsed
               startIndex := startIndex
               m_hit := g.GetCurrentHit }, true)

/-- The loop of `Convert2RawRoot` (lines 214-227): the hits filled into the output tree by at
most `fuel` calls of `GetHitsFromFiles`, up to the call that returns false; `none` when a call
faults or the fuel runs out before that. -/
def fillLoop : Nat → CompassRun → Option (List CompassHit × CompassRun)
  | 0, _ => none
  | fuel + 1, run =>
    match run.GetHitsFromFiles with
    | .error _ => none
    | .ok (run, false) => some ([], run)
    | .ok (run, true) =>
      match fillLoop fuel run with
      | none => none
      | some (hits, last) => some (run.m_hit :: hits, last)

/-- The state of the scan of `GetHitsFromFiles` before it examines index `i`, in a call entered
with `startIndex = s0`: the streams from `s0` up to the present `startIndex = s` are at end of
file; `earliestHit` is null as long as `s = i`, and from then on it is the first of the streams
of `[s, i)` not at end of file whose current hit has the least timestamp. -/
def ScanInv (s0 : Nat) (fs : List CompassFile) (s i : Nat) (e : Option Nat) : Prop :=
  s0 ≤ s ∧ s ≤ i ∧
  (∀ j f, s0 ≤ j → j < s → fs[j]? = some f → f.IsEOF = true) ∧
  (s = i → e = none) ∧
  (s < i → ∃ j g, e = some j ∧ s ≤ j ∧ j < i ∧ fs[j]? = some g ∧ g.IsEOF = false ∧
    ∀ k f, s ≤ k → k < i → fs[k]? = some f → f.IsEOF = false →
      g.ts ≤ f.ts ∧ (k < j → g.ts < f.ts))

/-- The state of a merge under way: stream `j` still owes the hits `Rs[j]`, and the streams
below `startIndex` are at end of file. -/
def MergeInv (run : CompassRun) (Rs : List (List CompassHit)) : Prop :=
  run.m_datafiles.length = Rs.length ∧
  (∀ (j : Nat) f R, run.m_datafiles[j]? = some f → Rs[j]? = some R →
    CompassFile.Pending f R) ∧
  (∀ (j : Nat) f, j < run.startIndex → run.m_datafiles[j]? = some f → f.IsEOF = true)

end CompassRun

/-- The list `out` is an interleaving of the lists `Rs`: it is built by taking, again and again,
the head of one of them, until all are empty. -/
inductive Interleaving : List CompassHit → List (List CompassHit) → Prop where
  | done (Rs : List (List CompassHit)) : (∀ R ∈ Rs, R = []) → Interleaving [] Rs
  | take (j : Nat) (h : CompassHit) (T out : List CompassHit) (Rs : List (List CompassHit)) :
      Rs[j]? = some (h :: T) → Interleaving out (Rs.set j T) → Interleaving (h :: out) Rs

/-! ## Opening the data files -/

namespace CompassRun

end CompassRun

/-! ## The coincidence builder -/

/-- Modelled from the spec: the event `SlowSort::GetEvent` hands out (`SlowSort.h` and
`SlowSort.cpp` are not among the sources), the spec's CoincidenceEvent: the hits that arrived
while the event was open, in arrival order. -/
structure CoincidenceEvent where
  hits : List CompassHit := []
  deriving DecidableEq, Repr

/-- Modelled from the spec: the role bucket of an event, the hits of the event whose global
channel the channel map assigns to `role`, in arrival order (the channel map file is not among
the sources). -/
def CoincidenceEvent.bucket (event : CoincidenceEvent) (channelMap : List (Int × Nat))
    (role : Nat) : List CompassHit :=
  event.hits.filter fun h =>
    channelMap.lookup ((h.channel : Int) + (h.board : Int) * 16) == some role

/-- Modelled from the spec: the class `SlowSort` (`SlowSort.h` and `SlowSort.cpp` are not among
the sources), the spec's CoincidenceBuilder: the window width, the channel map, the open event
with its anchor timestamp (`none` when no event is open) and the sealed event awaiting
retrieval. The builder is Idle when neither is there, Accumulating when an event is open,
Sealed when an event awaits retrieval. -/
structure SlowSort where
  coincWindow : Int
  channelMap : List (Int × Nat) := []
  current : Option (Nat × List CompassHit) := none
  sealed : Option CoincidenceEvent := none
  deriving DecidableEq, Repr

namespace SlowSort

/-- Modelled from the spec: `SlowSort::AddHitToEvent`. A hit arriving with no event open opens
one and is its anchor; a hit with `timestamp - anchor ≤ window` joins the open event; a hit with
`timestamp - anchor > window` seals the open event and becomes the anchor of a fresh one. -/
def AddHitToEvent (c : SlowSort) (h : CompassHit) : SlowSort :=
  match c.current with
  | none => { c with current := some (h.timestamp, [h]) }
  | some (anchor, hits) =>
    if (h.timestamp : Int) - (anchor : Int) ≤ c.coincWindow then
      { c with current := some (anchor, hits ++ [h]) }
    else { c with sealed := some { hits := hits }, current := some (h.timestamp, [h]) }

/-- Modelled from the spec: `SlowSort::FlushHitsToEvent`, which seals the open event, and does
nothing when no event is open. -/
def FlushHitsToEvent (c : SlowSort) : SlowSort :=
  match c.current with
  | none => c
  | some (_, hits) => { c with sealed := some { hits := hits }, current := none }

/-- Modelled from the spec: `SlowSort::IsEventReady`, whether a sealed event awaits retrieval. -/
def IsEventReady (c : SlowSort) : Bool := c.sealed.isSome

/-- Modelled from the spec: `SlowSort::GetEvent`, the sealed event and the builder without it
(an empty event when none is sealed). -/
def GetEvent (c : SlowSort) : CoincidenceEvent × SlowSort :=
  (c.sealed.getD {}, { c with sealed := none })

/-- The body of the loop of `Convert2SortedRoot` (lines 276-289) for each hit of `hits` in turn,
as it runs while `GetHitsFromFiles` returns true: the hit is added, and an event that is ready
is retrieved and filled into the output tree. The events filled and the builder left. -/
def feedHits : SlowSort → List CompassHit → List CoincidenceEvent × SlowSort
  | c, [] => ([], c)
  | c, h :: hits =>
    let c := c.AddHitToEvent h
    if c.IsEventReady then
      let r := feedHits c.GetEvent.2 hits
      (c.GetEvent.1 :: r.1, r.2)
    else feedHits c hits

end SlowSort

namespace CompassRun

/-- The loop of `Convert2SortedRoot` (lines 265-290) with the builder `coincidizer` and the flag
`killFlag`: the events filled into the output tree up to the `break`, with the state left;
`none` when a call faults or the `break` is not reached within `fuel` iterations. -/
def sortedLoop : Nat → CompassRun → SlowSort → Bool →
    Option (List CoincidenceEvent × CompassRun × SlowSort)
  | 0, _, _, _ => none
  | fuel + 1, run, coincidizer, killFlag =>
    match run.GetHitsFromFiles with
    | .error _ => none
    | .ok (run, got) =>
      let coincidizer :=
        if !got then coincidizer.FlushHitsToEvent else coincidizer.AddHitToEvent run.m_hit
      let killFlag := if !got then true else killFlag
      if coincidizer.IsEventReady then
        let event := coincidizer.GetEvent.1
        let coincidizer := coincidizer.GetEvent.2
        if killFlag then some ([event], run, coincidizer)
        else
          match sortedLoop fuel run coincidizer killFlag with
          | none => none
          | some (events, last) => some (event :: events, last)
      else sortedLoop fuel run coincidizer killFlag

end CompassRun

/-! ## Observations and the reference merge -/

namespace CompassFile

/-- A decoder object `f0` opened on a file, with the ShiftMap attached, and then asked `k` times
for its next hit: the end-of-file result and the current hit after each `GetNextHit` call. -/
def observe (f0 : CompassFile) (file : Option (List Byte)) (smap : ShiftMap) (k : Nat) :
    Except Fault (List (Bool × CompassHit)) :=
  match f0.Open file with
  | .error e => .error e
  | .ok f =>
    match (f.AttachShiftMap smap).callsGetNextHit k with
    | .error e => .error e
    | .ok r => .ok r.1

end CompassFile

namespace CompassRun

/-- The state of the run after `k` successive calls of `GetHitsFromFiles`. -/
def callsGetHitsFromFiles : Nat → CompassRun → Except Fault CompassRun
  | 0, run => .ok run
  | k + 1, run =>
    match run.GetHitsFromFiles with
    | .error e => .error e
    | .ok r => callsGetHitsFromFiles k r.1

/-- The returned flag and the hit `m_hit` of each of `k` successive `GetHitsFromFiles` calls. -/
def mergeCalls : Nat → CompassRun → Except Fault (List (Bool × CompassHit))
  | 0, _ => .ok []
  | k + 1, run =>
    match run.GetHitsFromFiles with
    | .error e => .error e
    | .ok r =>
      match mergeCalls k r.1 with
      | .error e => .error e
      | .ok rest => .ok ((r.2, r.1.m_hit) :: rest)

/-- The first step of the reference merge: every stream, from index 0 on, whose current hit has
been used is advanced by one hit. -/
def advanceAll : List CompassFile → Except Fault (List CompassFile)
  | [] => .ok []
  | f :: fs =>
    match advanceIfUsed f with
    | .error e => .error e
    | .ok f1 =>
      match advanceAll fs with
      | .error e => .error e
      | .ok fs1 => .ok (f1 :: fs1)

/-- The selection of the reference merge among the streams `fs`, numbered from `i` on: the
stream of lowest index, among those not at end of file, whose current hit has the minimum
timestamp; `none` when every stream is at end of file. -/
def earliestFrom : Nat → List CompassFile → Option (Nat × CompassFile)
  | _, [] => none
  | i, f :: fs =>
    match earliestFrom (i + 1) fs with
    | none => if f.IsEOF then none else some (i, f)
    | some (j, g) =>
      if f.IsEOF then some (j, g)
      else if f.GetCurrentHit.timestamp ≤ g.GetCurrentHit.timestamp then some (i, f)
      else some (j, g)

/-- The reference merge of the specification, without a low-water mark: it rescans all streams
from index 0, advancing those whose hit has been used, selects the lowest-index stream not at
end of file that holds the minimum current timestamp, returns its hit and marks it used. -/
def referenceMerge (run : CompassRun) : Except Fault (CompassRun × Bool) :=
  match advanceAll run.m_datafiles with
  | .error e => .error e
  | .ok datafiles =>
    match earliestFrom 0 datafiles with
    | none => .ok ({ run with m_datafiles := datafiles }, false)
    | some (e, g) =>
      .ok ({ run with m_datafiles := datafiles.set e g.SetHitHasBeenUsed
                      m_hit := g.GetCurrentHit }, true)

end CompassRun

namespace CompassFile

/-- A decoder object as the initialiser list of the constructor `CompassFile(filename, bsize)`
(lines 31-33) leaves it before the constructor body calls `Open`: null cursors, no ShiftMap, the
used flag set, the given batch size, sizes of 0, a stream that is not open, the end-of-file flag
clear, and the default-constructed hit buffer and current hit. The members the list does not
name, `m_header`, `m_size` and `m_nHits`, hold whatever the storage held. -/
def Fresh (f : CompassFile) (bsize : Nat) : Prop :=
  f.m_bufferIter = none ∧ f.m_bufferEnd = none ∧ f.m_smap = none ∧ f.m_hitUsedFlag = true ∧
  f.m_bufsize = bsize ∧ f.m_hitsize = 0 ∧ f.m_buffersize = 0 ∧ f.m_file = {} ∧
  f.m_eofFlag = false ∧ f.m_hitBuffer = [] ∧ f.m_currentHit = {}

end CompassFile

/-! ## `SFPAnalyzer`

A `double` is taken as an exact number: an element of a linearly ordered field `K`, such as the
rationals or the reals. Rounding is not modelled. The histograms that `MyFill` fills live in
`rootObj` alone, which no other statement reads, and are left out. -/

/-- Struct `DetectorHit` of `DataStructs.h`. -/
structure DetectorHit (K : Type) [LinearOrderedField K] where
  Long : K := -1
  Short : K := -1
  Time : K := -1
  Ch : Int := -1

/-- Struct `CATRINADetector` of `DataStructs.h`. -/
structure CATRINADetector (K : Type) [LinearOrderedField K] where
  catr : List (DetectorHit K) := []

/-- Struct `SabreDetector` of `DataStructs.h`. -/
structure SabreDetector (K : Type) [LinearOrderedField K] where
  rings : List (DetectorHit K) := []
  wedges : List (DetectorHit K) := []

/-- Struct `FPDetector` of `DataStructs.h`: the hit lists of the focal-plane roles. -/
structure FPDetector (K : Type) [LinearOrderedField K] where
  delayFL : List (DetectorHit K) := []
  delayFR : List (DetectorHit K) := []
  delayBL : List (DetectorHit K) := []
  delayBR : List (DetectorHit K) := []
  anodeF : List (DetectorHit K) := []
  anodeB : List (DetectorHit K) := []
  scintL : List (DetectorHit K) := []
  scintR : List (DetectorHit K) := []
  cathode : List (DetectorHit K) := []
  monitor : List (DetectorHit K) := []

/-- Struct `CoincEvent` of `DataStructs.h`. -/
structure CoincEvent (K : Type) [LinearOrderedField K] where
  focalPlane : FPDetector K := {}
  sabreArray : Fin 5 → SabreDetector K := fun _ => {}
  catrinaArray : Fin 7 → CATRINADetector K := fun _ => {}

/-- Struct `ProcessedEvent` of `DataStructs.h`, with the default member initialisers declared
there. -/
structure ProcessedEvent (K : Type) [LinearOrderedField K] where
  fp1_tdiff : K := -1000000
  fp2_tdiff : K := -1000000
  fp1_tsum : K := -1
  fp2_tsum : K := -1
  fp1_tcheck : K := -1
  fp2_tcheck : K := -1
  fp1FL_tdiff_anodeFront : K := -1000000
  fp1FR_tdiff_anodeFront : K := -1000000
  fp2BL_tdiff_anodeBack : K := -1000000
  fp2BR_tdiff_anodeBack : K := -1000000
  fp1FL_tdiff_tilde : K := -1000000
  fp1FR_tdiff_tilde : K := -1000000
  fp2BL_tdiff_tilde : K := -1000000
  fp2BR_tdiff_tilde : K := -1000000
  fp1_tsum_FL : K := -1
  fp1_tsum_FR : K := -1
  fp2_tsum_BL : K := -1
  fp2_tsum_BR : K := -1
  fp1_tsumA : K := -1
  fp2_tsumB : K := -1
  fp1_y : K := -1
  fp2_y : K := -1
  anodeFront : K := -1
  anodeBack : K := -1
  scintRight : K := -1
  scintLeft : K := -1
  scintRightShort : K := -1
  scintLeftShort : K := -1
  cathode : K := -1
  xavg : K := -1000000
  x1 : K := -1000000
  x2 : K := -1000000
  x1_sum : K := -1000000
  x2_sum : K := -1000000
  x1_sumA : K := -(1 / 1000000)
  x2_sumB : K := -(1 / 1000000)
  x1FL : K := -1000000
  x1FR : K := -1000000
  x2BL : K := -1000000
  x2BR : K := -1000000
  x1FL_sum : K := -1000000
  x1FR_sum : K := -1000000
  x2BL_sum : K := -1000000
  x2BR_sum : K := -1000000
  x1tilde_FL : K := -1000000
  x1tilde_FR : K := -1000000
  x2tilde_BL : K := -1000000
  x2tilde_BR : K := -1000000
  xavg_tildeFRBL : K := -1000000
  xavg_tildeFLBR : K := -1000000
  xavg_tildeFRBR : K := -1000000
  xavg_tildeFLBL : K := -1000000
  sabreRingE : Fin 5 → K := fun _ => -1
  sabreWedgeE : Fin 5 → K := fun _ => -1
  sabreRingChannel : Fin 5 → K := fun _ => -1
  sabreWedgeChannel : Fin 5 → K := fun _ => -1
  sabreRingTime : Fin 5 → K := fun _ => -1
  sabreWedgeTime : Fin 5 → K := fun _ => -1
  theta : K := -1000000
  delayFrontRightE : K := -1
  delayFrontLeftE : K := -1
  delayBackRightE : K := -1
  delayBackLeftE : K := -1
  delayFrontRightShort : K := -1
  delayFrontLeftShort : K := -1
  delayBackRightShort : K := -1
  delayBackLeftShort : K := -1
  anodeFrontTime : K := -1
  anodeBackTime : K := -1
  scintRightTime : K := -1
  scintLeftTime : K := -1
  delayFrontMaxTime : K := -1
  delayBackMaxTime : K := -1
  delayFrontLeftTime : K := -1
  delayFrontRightTime : K := -1
  delayBackLeftTime : K := -1
  delayBackRightTime : K := -1
  cathodeTime : K := -1
  monitorE : K := -1
  monitorShort : K := -1
  monitorTime : K := -1
  catrinaE : Fin 7 → K := fun _ => -1
  catrinaChannel : Fin 7 → K := fun _ => -1
  catrinaTime : Fin 7 → K := fun _ => -1
  catrinaE0 : K := -1
  catrinaE1 : K := -1
  catrinaE2 : K := -1
  catrinaE3 : K := -1
  catrinaE4 : K := -1
  catrinaE5 : K := -1
  catrinaE6 : K := -1
  catrinaChannel0 : K := -1
  catrinaChannel1 : K := -1
  catrinaChannel2 : K := -1
  catrinaChannel3 : K := -1
  catrinaChannel4 : K := -1
  catrinaChannel5 : K := -1
  catrinaChannel6 : K := -1
  catrinaTime0 : K := -1
  catrinaTime1 : K := -1
  catrinaTime2 : K := -1
  catrinaTime3 : K := -1
  catrinaTime4 : K := -1
  catrinaTime5 : K := -1
  catrinaTime6 : K := -1
  sabreArray : Fin 5 → SabreDetector K := fun _ => {}
  catrinaArray : Fin 7 → CATRINADetector K := fun _ => {}

/-- Function `Wire_Dist()` of `FP_kinematics.cpp` (line 133): 4.28625 cm. -/
def Wire_Dist {K : Type} [LinearOrderedField K] : K := 428625 / 100000

/-- The library values `AnalyzeEvent` calls for, `std::atan` and `TMath::Pi()`, which an ordered
field does not provide. -/
structure Libm (K : Type) [LinearOrderedField K] where
  atan : K → K
  Pi : K

/-- The members of `SFPAnalyzer` that `SFPAnalyzer.cpp` works on (`event_address` and the
histogram table `rootObj` apart). -/
structure SFPAnalyzer (K : Type) [LinearOrderedField K] where
  zfp : K
  w1 : K := 0
  w2 : K := 0
  pevent : ProcessedEvent K := {}
  blank : ProcessedEvent K := {}

/-- One statement of the body of `AnalyzeEvent`, acting on the event and on `pevent`. -/
abbrev Statement (K : Type) [LinearOrderedField K] :=
  CoincEvent K → ProcessedEvent K → Except Fault (ProcessedEvent K)

namespace SFPAnalyzer

/-- The element access `v[0]` of a `std::vector`, which lies outside the vector when the vector
is empty. -/
def at0 {K : Type} [LinearOrderedField K]
    (v : List (DetectorHit K)) : Except Fault (DetectorHit K) :=
  match v with
  | [] => .error .bufferOverrun
  | hit :: _ => .ok hit

/-- Method `Reset()` (lines 44-47). -/
def Reset {K : Type} [LinearOrderedField K]
    (a : SFPAnalyzer K) : SFPAnalyzer K := { a with pevent := a.blank }

/-- Method `GetWeights()` (lines 54-59). -/
def GetWeights {K : Type} [LinearOrderedField K] (a : SFPAnalyzer K) : SFPAnalyzer K :=
  let a := { a with w1 := (Wire_Dist / 2 - a.zfp) / Wire_Dist }
  { a with w2 := 1 - a.w1 }

/-- The constructor (lines 24-36), given the focal-plane shift `zfp` that `Delta_Z` returns. -/
def construct {K : Type} [LinearOrderedField K] (zfp : K) : SFPAnalyzer K :=
  GetWeights { zfp := zfp }

/-- Lines 97-101 of `AnalyzeEvent`: the front anode. -/
def stAnodeF {K : Type} [LinearOrderedField K] : Statement K := fun event pevent =>
  if !event.focalPlane.anodeF.isEmpty then do
    let pevent := { pevent with anodeFront := (← at0 event.focalPlane.anodeF).Long }
    let pevent := { pevent with anodeFrontTime := (← at0 event.focalPlane.anodeF).Time }
    pure pevent
  else pure pevent

/-- Lines 102-106: the back anode. -/
def stAnodeB {K : Type} [LinearOrderedField K] : Statement K := fun event pevent =>
  if !event.focalPlane.anodeB.isEmpty then do
    let pevent := { pevent with anodeBack := (← at0 event.focalPlane.anodeB).Long }
    let pevent := { pevent with anodeBackTime := (← at0 event.focalPlane.anodeB).Time }
    pure pevent
  else pure pevent

/-- Lines 109-114: the left scintillator. -/
def stScintL {K : Type} [LinearOrderedField K] : Statement K := fun event pevent =>
  if !event.focalPlane.scintL.isEmpty then do
    let pevent := { pevent with scintLeft := (← at0 event.focalPlane.scintL).Long }
    let pevent := { pevent with scintLeftShort := (← at0 event.focalPlane.scintL).Short }
    let pevent := { pevent with scintLeftTime := (← at0 event.focalPlane.scintL).Time }
    pure pevent
  else pure pevent

/-- Lines 115-120: the right scintillator. -/
def stScintR {K : Type} [LinearOrderedField K] : Statement K := fun event pevent =>
  if !event.focalPlane.scintR.isEmpty then do
    let pevent := { pevent with scintRight := (← at0 event.focalPlane.scintR).Long }
    let pevent := { pevent with scintRightShort := (← at0 event.focalPlane.scintR).Short }
    let pevent := { pevent with scintRightTime := (← at0 event.focalPlane.scintR).Time }
    pure pevent
  else pure pevent

/-- Lines 123-127: the cathode. -/
def stCathode {K : Type} [LinearOrderedField K] : Statement K := fun event pevent =>
  if !event.focalPlane.cathode.isEmpty then do
    let pevent := { pevent with cathode := (← at0 event.focalPlane.cathode).Long }
    let pevent := { pevent with cathodeTime := (← at0 event.focalPlane.cathode).Time }
    pure pevent
  else pure pevent

/-- Lines 128-133: the monitor. -/
def stMonitor {K : Type} [LinearOrderedField K] : Statement K := fun event pevent =>
  if !event.focalPlane.monitor.isEmpty then do
    let pevent := { pevent with monitorE := (← at0 event.focalPlane.monitor).Long }
    let pevent := { pevent with monitorShort := (← at0 event.focalPlane.monitor).Short }
    let pevent := { pevent with monitorTime := (← at0 event.focalPlane.monitor).Time }
    pure pevent
  else pure pevent

/-- Lines 136-141: the front right delay line. -/
def stDelayFR {K : Type} [LinearOrderedField K] : Statement K := fun event pevent =>
  if !event.focalPlane.delayFR.isEmpty then do
    let pevent := { pevent with delayFrontRightE := (← at0 event.focalPlane.delayFR).Long }
    let pevent := { pevent with delayFrontRightTime := (← at0 event.focalPlane.delayFR).Time }
    let pevent := { pevent with delayFrontRightShort := (← at0 event.focalPlane.delayFR).Short }
    pure pevent
  else pure pevent

/-- Lines 142-147: the front left delay line. -/
def stDelayFL {K : Type} [LinearOrderedField K] : Statement K := fun event pevent =>
  if !event.focalPlane.delayFL.isEmpty then do
    let pevent := { pevent with delayFrontLeftE := (← at0 event.focalPlane.delayFL).Long }
    let pevent := { pevent with delayFrontLeftTime := (← at0 event.focalPlane.delayFL).Time }
    let pevent := { pevent with delayFrontLeftShort := (← at0 event.focalPlane.delayFL).Short }
    pure pevent
  else pure pevent

/-- Lines 148-153: the back right delay line. -/
def stDelayBR {K : Type} [LinearOrderedField K] : Statement K := fun event pevent =>
  if !event.focalPlane.delayBR.isEmpty then do
    let pevent := { pevent with delayBackRightE := (← at0 event.focalPlane.delayBR).Long }
    let pevent := { pevent with delayBackRightTime := (← at0 event.focalPlane.delayBR).Time }
    let pevent := { pevent with delayBackRightShort := (← at0 event.focalPlane.delayBR).Short }
    pure pevent
  else pure pevent

/-- Lines 154-159: the back left delay line. -/
def stDelayBL {K : Type} [LinearOrderedField K] : Statement K := fun event pevent =>
  if !event.focalPlane.delayBL.isEmpty then do
    let pevent := { pevent with delayBackLeftE := (← at0 event.focalPlane.delayBL).Long }
    let pevent := { pevent with delayBackLeftTime := (← at0 event.focalPlane.delayBL).Time }
    let pevent := { pevent with delayBackLeftShort := (← at0 event.focalPlane.delayBL).Short }
    pure pevent
  else pure pevent

/-- Lines 165-181: X1 from the front delay-line times. -/
def stX1 {K : Type} [LinearOrderedField K] : Statement K := fun event pevent =>
  if !event.focalPlane.delayFL.isEmpty && !event.focalPlane.delayFR.isEmpty then do
    let pevent := { pevent with fp1_tdiff :=
      ((← at0 event.focalPlane.delayFL).Time - (← at0 event.focalPlane.delayFR).Time) * (1 / 2) }
    let pevent := { pevent with fp1_tsum :=
      ((← at0 event.focalPlane.delayFL).Time + (← at0 event.focalPlane.delayFR).Time)
        - 2 * (← at0 event.focalPlane.scintL).Time }
    let pevent := { pevent with fp1_tcheck := pevent.fp1_tsum / 2 - pevent.anodeFrontTime }
    let pevent := { pevent with delayFrontMaxTime :=
      (max (← at0 event.focalPlane.delayFL).Time (← at0 event.focalPlane.delayFR).Time) }
    let pevent := { pevent with x1 := pevent.fp1_tdiff * 1 / (21 / 10) }
    let pevent := { pevent with x1_sum := pevent.fp1_tsum }
    pure pevent
  else pure pevent

/-- Lines 184-200: X2 from the back delay-line times. -/
def stX2 {K : Type} [LinearOrderedField K] : Statement K := fun event pevent =>
  if !event.focalPlane.delayBL.isEmpty && !event.focalPlane.delayBR.isEmpty then do
    let pevent := { pevent with fp2_tdiff :=
      ((← at0 event.focalPlane.delayBL).Time - (← at0 event.focalPlane.delayBR).Time) * (1 / 2) }
    let pevent := { pevent with fp2_tsum :=
      ((← at0 event.focalPlane.delayBL).Time + (← at0 event.focalPlane.delayBR).Time)
        - 2 * (← at0 event.focalPlane.scintL).Time }
    let pevent := { pevent with fp2_tcheck := pevent.fp2_tsum / 2 - pevent.anodeBackTime }
    let pevent := { pevent with delayBackMaxTime :=
      (max (← at0 event.focalPlane.delayBL).Time (← at0 event.focalPlane.delayBR).Time) }
    let pevent := { pevent with x2 := pevent.fp2_tdiff * 1 / (198 / 100) }
    let pevent := { pevent with x2_sum := pevent.fp2_tsum }
    pure pevent
  else pure pevent

/-- Lines 204-220: the body of the loop `for(int j=0; j<5; j++)` over the SABRE detectors, for one `j`. -/
def stSabre {K : Type} [LinearOrderedField K] (j : Fin 5) : Statement K := fun event pevent => do
  let pevent ←
    if !(event.sabreArray j).rings.isEmpty then do
      let pevent := { pevent with sabreRingE :=
        (Function.update pevent.sabreRingE j (← at0 (event.sabreArray j).rings).Long) }
      let pevent := { pevent with sabreRingChannel :=
        (Function.update pevent.sabreRingChannel j ((← at0 (event.sabreArray j).rings).Ch : K)) }
      let pevent := { pevent with sabreRingTime :=
        (Function.update pevent.sabreRingTime j (← at0 (event.sabreArray j).rings).Time) }
      pure pevent
    else pure pevent
  let pevent ←
    if !(event.sabreArray j).wedges.isEmpty then do
      let pevent := { pevent with sabreWedgeE :=
        (Function.update pevent.sabreWedgeE j (← at0 (event.sabreArray j).wedges).Long) }
      let pevent := { pevent with sabreWedgeChannel :=
        (Function.update pevent.sabreWedgeChannel j ((← at0 (event.sabreArray j).wedges).Ch : K)) }
      let pevent := { pevent with sabreWedgeTime :=
        (Function.update pevent.sabreWedgeTime j (← at0 (event.sabreArray j).wedges).Time) }
      pure pevent
    else pure pevent
  pure { pevent with sabreArray := Function.update pevent.sabreArray j (event.sabreArray j) }

/-- Lines 353-368: xavg and theta. -/
def stXavg {K : Type} [LinearOrderedField K]
    (w1 w2 : K) (m : Libm K) : Statement K := fun _ pevent =>
  if pevent.x1 ≠ -1000000 ∧ pevent.x2 ≠ -1000000 then
    let pevent := { pevent with xavg := pevent.x1 * w1 + pevent.x2 * w2 }
    if pevent.x2 - pevent.x1 > 0 then
      pure { pevent with theta := m.atan ((pevent.x2 - pevent.x1) / 36) }
    else if pevent.x2 - pevent.x1 < 0 then
      pure { pevent with theta := m.Pi + m.atan ((pevent.x2 - pevent.x1) / 36) }
    else
      pure { pevent with theta := m.Pi / 2 }
  else pure pevent

/-- Lines 373-387: X1 from the front left delay line and the front anode. -/
def stX1FL {K : Type} [LinearOrderedField K] : Statement K := fun event pevent =>
  if !event.focalPlane.delayFL.isEmpty && !event.focalPlane.anodeF.isEmpty then do
    let pevent := { pevent with fp1FL_tdiff_anodeFront :=
      (← at0 event.focalPlane.delayFL).Time - pevent.anodeFrontTime }
    let pevent := { pevent with fp1_tsum_FL :=
      ((← at0 event.focalPlane.delayFL).Time + pevent.anodeFrontTime)
        - 2 * (← at0 event.focalPlane.scintL).Time }
    let pevent := { pevent with x1FL := pevent.fp1FL_tdiff_anodeFront * 1 / (21 / 10) }
    let pevent := { pevent with x1FL_sum := pevent.fp1_tsum_FL }
    pure pevent
  else pure pevent

/-- Lines 390-404: X1 from the front right delay line and the front anode. -/
def stX1FR {K : Type} [LinearOrderedField K] : Statement K := fun event pevent =>
  if !event.focalPlane.delayFR.isEmpty && !event.focalPlane.anodeF.isEmpty then do
    let pevent := { pevent with fp1FR_tdiff_anodeFront :=
      (← at0 event.focalPlane.delayFR).Time - pevent.anodeFrontTime }
    let pevent := { pevent with x1FR := pevent.fp1FR_tdiff_anodeFront * 1 / (21 / 10) }
    let pevent := { pevent with fp1_tsum_FR :=
      ((← at0 event.focalPlane.delayFR).Time + pevent.anodeFrontTime)
        - 2 * (← at0 event.focalPlane.scintL).Time }
    let pevent := { pevent with x1FR_sum := pevent.fp1_tsum_FR }
    pure pevent
  else pure pevent

/-- Lines 408-414: the time sum of the front delay lines relative to the front anode. -/
def stTsumA {K : Type} [LinearOrderedField K] : Statement K := fun event pevent =>
  if !event.focalPlane.delayFL.isEmpty && !event.focalPlane.delayFR.isEmpty
      && !event.focalPlane.anodeF.isEmpty then
    let pevent := { pevent with fp1_tsumA :=
      pevent.fp1FL_tdiff_anodeFront + pevent.fp1FR_tdiff_anodeFront }
    let pevent := { pevent with x1_sumA := pevent.fp1_tsumA }
    pure pevent
  else pure pevent

/-- Lines 418-434: X2 from the back left delay line and the back anode. -/
def stX2BL {K : Type} [LinearOrderedField K] : Statement K := fun event pevent =>
  if !event.focalPlane.delayBL.isEmpty && !event.focalPlane.anodeB.isEmpty then do
    let pevent := { pevent with fp2BL_tdiff_anodeBack :=
      (← at0 event.focalPlane.delayBL).Time - pevent.anodeBackTime }
    let pevent := { pevent with x2BL := pevent.fp2BL_tdiff_anodeBack * 1 / (198 / 100) }
    let pevent := { pevent with fp2_tsum_BL :=
      ((← at0 event.focalPlane.delayBL).Time + pevent.anodeBackTime)
        - 2 * (← at0 event.focalPlane.scintL).Time }
    let pevent := { pevent with x2BL_sum := pevent.fp2_tsum_BL }
    pure pevent
  else pure pevent

/-- Lines 437-453: X2 from the back right delay line and the back anode. -/
def stX2BR {K : Type} [LinearOrderedField K] : Statement K := fun event pevent =>
  if !event.focalPlane.delayBR.isEmpty && !event.focalPlane.anodeB.isEmpty then do
    let pevent := { pevent with fp2BR_tdiff_anodeBack :=
      (← at0 event.focalPlane.delayBR).Time - pevent.anodeBackTime }
    let pevent := { pevent with x2BR := pevent.fp2BR_tdiff_anodeBack * 1 / (198 / 100) }
    let pevent := { pevent with fp2_tsum_BR :=
      ((← at0 event.focalPlane.delayBR).Time + pevent.anodeBackTime)
        - 2 * (← at0 event.focalPlane.scintL).Time }
    let pevent := { pevent with x2BR_sum := pevent.fp2_tsum_BR }
    pure pevent
  else pure pevent

/-- Lines 456-462: the time sum of the back delay lines relative to the back anode. -/
def stTsumB {K : Type} [LinearOrderedField K] : Statement K := fun event pevent =>
  if !event.focalPlane.delayBL.isEmpty && !event.focalPlane.delayBR.isEmpty
      && !event.focalPlane.anodeB.isEmpty then
    let pevent := { pevent with fp2_tsumB :=
      pevent.fp2BL_tdiff_anodeBack + pevent.fp2BR_tdiff_anodeBack }
    let pevent := { pevent with x2_sumB := pevent.fp2_tsumB }
    pure pevent
  else pure pevent

/-- Lines 470-476: X1 from half the delay-line time, left side. -/
def stTildeFL {K : Type} [LinearOrderedField K] : Statement K := fun event pevent =>
  if !event.focalPlane.delayFL.isEmpty && !event.focalPlane.anodeF.isEmpty then
    let pevent := { pevent with fp1FL_tdiff_tilde := pevent.fp1FL_tdiff_anodeFront - 1200 / 2 }
    let pevent := { pevent with x1tilde_FL := pevent.fp1FL_tdiff_tilde * 1 / (21 / 10) }
    pure pevent
  else pure pevent

/-- Lines 479-485: X1 from half the delay-line time, right side. -/
def stTildeFR {K : Type} [LinearOrderedField K] : Statement K := fun event pevent =>
  if !event.focalPlane.delayFR.isEmpty && !event.focalPlane.anodeF.isEmpty then
    let pevent := { pevent with fp1FR_tdiff_tilde := 1200 / 2 - pevent.fp1FR_tdiff_anodeFront }
    let pevent := { pevent with x1tilde_FR := pevent.fp1FR_tdiff_tilde * 1 / (21 / 10) }
    pure pevent
  else pure pevent

/-- Lines 488-494: X2 from half the delay-line time, left side. -/
def stTildeBL {K : Type} [LinearOrderedField K] : Statement K := fun event pevent =>
  if !event.focalPlane.delayBL.isEmpty && !event.focalPlane.anodeB.isEmpty then
    let pevent := { pevent with fp2BL_tdiff_tilde := pevent.fp2BL_tdiff_anodeBack - 1154 / 2 }
    let pevent := { pevent with x2tilde_BL := pevent.fp2BL_tdiff_tilde * 1 / (198 / 100) }
    pure pevent
  else pure pevent

/-- Lines 497-503: X2 from half the delay-line time, right side. -/
def stTildeBR {K : Type} [LinearOrderedField K] : Statement K := fun event pevent =>
  if !event.focalPlane.delayBR.isEmpty && !event.focalPlane.anodeB.isEmpty then
    let pevent := { pevent with fp2BR_tdiff_tilde := 1154 / 2 - pevent.fp2BR_tdiff_anodeBack }
    let pevent := { pevent with x2tilde_BR := pevent.fp2BR_tdiff_tilde * 1 / (198 / 100) }
    pure pevent
  else pure pevent

/-- Lines 511-516: xavg from the tilde positions FR and BL. -/
def stXavgTildeFRBL {K : Type} [LinearOrderedField K] (w1 w2 : K) : Statement K := fun _ pevent =>
  if pevent.x1tilde_FR ≠ -1000000 ∧ pevent.x2tilde_BL ≠ -1000000 then
    pure { pevent with xavg_tildeFRBL := pevent.x1tilde_FR * w1 + pevent.x2tilde_BL * w2 }
  else pure pevent

/-- Lines 519-524: xavg from the tilde positions FL and BR. -/
def stXavgTildeFLBR {K : Type} [LinearOrderedField K] (w1 w2 : K) : Statement K := fun _ pevent =>
  if pevent.x1tilde_FL ≠ -1000000 ∧ pevent.x2tilde_BR ≠ -1000000 then
    pure { pevent with xavg_tildeFLBR := pevent.x1tilde_FL * w1 + pevent.x2tilde_BR * w2 }
  else pure pevent

/-- Lines 527-532: xavg from the tilde positions FL and BL. -/
def stXavgTildeFLBL {K : Type} [LinearOrderedField K] (w1 w2 : K) : Statement K := fun _ pevent =>
  if pevent.x1tilde_FL ≠ -1000000 ∧ pevent.x2tilde_BL ≠ -1000000 then
    pure { pevent with xavg_tildeFLBL := pevent.x1tilde_FL * w1 + pevent.x2tilde_BL * w2 }
  else pure pevent

/-- Lines 535-540: xavg from the tilde positions FR and BR. -/
def stXavgTildeFRBR {K : Type} [LinearOrderedField K] (w1 w2 : K) : Statement K := fun _ pevent =>
  if pevent.x1tilde_FR ≠ -1000000 ∧ pevent.x2tilde_BR ≠ -1000000 then
    pure { pevent with xavg_tildeFRBR := pevent.x1tilde_FR * w1 + pevent.x2tilde_BR * w2 }
  else pure pevent

/-- Lines 558-559: the vertical position at the front wire. -/
def stFp1Y {K : Type} [LinearOrderedField K] : Statement K := fun _ pevent =>
  if pevent.anodeFrontTime ≠ -1 ∧ pevent.scintRightTime ≠ -1 then
    pure { pevent with fp1_y := pevent.anodeFrontTime - pevent.scintRightTime }
  else pure pevent

/-- Lines 561-562: the vertical position at the back wire. -/
def stFp2Y {K : Type} [LinearOrderedField K] : Statement K := fun _ pevent =>
  if pevent.anodeBackTime ≠ -1 ∧ pevent.scintRightTime ≠ -1 then
    pure { pevent with fp2_y := pevent.anodeBackTime - pevent.scintRightTime }
  else pure pevent

/-- Lines 97-159: the statements that copy the energies and times of the ten focal-plane
roles. -/
def roleStatements {K : Type} [LinearOrderedField K] : List (Statement K) :=
  [stAnodeF, stAnodeB, stScintL, stScintR, stCathode, stMonitor,
   stDelayFR, stDelayFL, stDelayBR, stDelayBL]

/-- Lines 204-220: the loop `for(int j=0; j<5; j++)` over the SABRE detectors, its body at
j = 0, ..., 4. -/
def sabreLoop {K : Type} [LinearOrderedField K] : List (Statement K) :=
  [stSabre 0, stSabre 1, stSabre 2, stSabre 3, stSabre 4]

/-- Lines 373-562: the statements behind the one for xavg and theta. -/
def anodeStatements {K : Type} [LinearOrderedField K] (w1 w2 : K) : List (Statement K) :=
  [stX1FL, stX1FR, stTsumA, stX2BL, stX2BR, stTsumB,
   stTildeFL, stTildeFR, stTildeBL, stTildeBR,
   stXavgTildeFRBL w1 w2, stXavgTildeFLBR w1 w2, stXavgTildeFLBL w1 w2, stXavgTildeFRBR w1 w2,
   stFp1Y, stFp2Y]

/-- The statements of `AnalyzeEvent` behind the `Reset()` call, in the order of the source. The
CATRiNA block (lines 223-346) is commented out in the source. -/
def statements {K : Type} [LinearOrderedField K] (w1 w2 : K) (m : Libm K) : List (Statement K) :=
  roleStatements ++ [stX1, stX2] ++ sabreLoop ++ [stXavg w1 w2 m] ++ anodeStatements w1 w2

/-- Statements run one after the other on `pevent`; a fault ends the run. -/
def runStatements {K : Type} [LinearOrderedField K]
    : List (Statement K) → CoincEvent K → ProcessedEvent K →
    Except Fault (ProcessedEvent K)
  | [], _, pevent => .ok pevent
  | st :: rest, event, pevent =>
    match st event pevent with
    | .error x => .error x
    | .ok pevent => runStatements rest event pevent

/-- Method `AnalyzeEvent(event)` (lines 90-565). -/
def AnalyzeEvent {K : Type} [LinearOrderedField K]
    (a : SFPAnalyzer K) (m : Libm K) (event : CoincEvent K) :
    Except Fault (SFPAnalyzer K) :=
  let a := a.Reset
  match runStatements (statements a.w1 a.w2 m) event a.pevent with
  | .error x => .error x
  | .ok pevent => .ok { a with pevent := pevent }

/-- Method `GetProcessedEvent(event)` (lines 567-571): the returned event and the new state. -/
def GetProcessedEvent {K : Type} [LinearOrderedField K]
    (a : SFPAnalyzer K) (m : Libm K) (event : CoincEvent K) :
    Except Fault (ProcessedEvent K × SFPAnalyzer K) :=
  match a.AnalyzeEvent m event with
  | .error x => .error x
  | .ok a => .ok (a.pevent, a)

/-- Successive `GetProcessedEvent` calls on the events of a list: the analyzer they leave. -/
def analyzeAll {K : Type} [LinearOrderedField K]
    (a : SFPAnalyzer K) (m : Libm K) : List (CoincEvent K) →
    Except Fault (SFPAnalyzer K)
  | [] => .ok a
  | event :: rest =>
    match a.GetProcessedEvent m event with
    | .error x => .error x
    | .ok r => analyzeAll r.2 m rest

/-- Some statement of `AnalyzeEvent` that reads `scintL[0]` is entered: the guards of lines 165,
184, 373, 390, 418 and 437. -/
def readsScintL {K : Type} [LinearOrderedField K] (event : CoincEvent K) : Bool :=
  (!event.focalPlane.delayFL.isEmpty && !event.focalPlane.delayFR.isEmpty) ||
  (!event.focalPlane.delayBL.isEmpty && !event.focalPlane.delayBR.isEmpty) ||
  (!event.focalPlane.delayFL.isEmpty && !event.focalPlane.anodeF.isEmpty) ||
  (!event.focalPlane.delayFR.isEmpty && !event.focalPlane.anodeF.isEmpty) ||
  (!event.focalPlane.delayBL.isEmpty && !event.focalPlane.anodeB.isEmpty) ||
  (!event.focalPlane.delayBR.isEmpty && !event.focalPlane.anodeB.isEmpty)

/-- The event `pevent` with its SABRE members replaced by those of `s`: what is left of `pevent`
are the members that are not SABRE members. -/
def withSabreOf {K : Type} [LinearOrderedField K]
    (s pevent : ProcessedEvent K) : ProcessedEvent K :=
  { pevent with
    sabreRingE := s.sabreRingE
    sabreWedgeE := s.sabreWedgeE
    sabreRingChannel := s.sabreRingChannel
    sabreWedgeChannel := s.sabreWedgeChannel
    sabreRingTime := s.sabreRingTime
    sabreWedgeTime := s.sabreWedgeTime
    sabreArray := s.sabreArray }

/-- Two events agree, for each focal-plane role, on whether the hit list of the role is empty
and on its first hit. -/
def FirstHitsAgree {K : Type} [LinearOrderedField K] (e e' : CoincEvent K) : Prop :=
  e.focalPlane.delayFL.head? = e'.focalPlane.delayFL.head? ∧
  e.focalPlane.delayFR.head? = e'.focalPlane.delayFR.head? ∧
  e.focalPlane.delayBL.head? = e'.focalPlane.delayBL.head? ∧
  e.focalPlane.delayBR.head? = e'.focalPlane.delayBR.head? ∧
  e.focalPlane.anodeF.head? = e'.focalPlane.anodeF.head? ∧
  e.focalPlane.anodeB.head? = e'.focalPlane.anodeB.head? ∧
  e.focalPlane.scintL.head? = e'.focalPlane.scintL.head? ∧
  e.focalPlane.scintR.head? = e'.focalPlane.scintR.head? ∧
  e.focalPlane.cathode.head? = e'.focalPlane.cathode.head? ∧
  e.focalPlane.monitor.head? = e'.focalPlane.monitor.head?

end SFPAnalyzer

/-- Reference from the claim's words: the x-coordinate at depth `z` of the straight line through
the points `(z1, x1)` and `(z2, x2)`. -/
def lineThrough {K : Type} [LinearOrderedField K] (z1 x1 z2 x2 z : K) : K :=
  x1 + (x2 - x1) * (z - z1) / (z2 - z1)

/-! ## Test files -/

/-- A file without optional fields holding two records of channel 1, timestamps 10 and 200. -/
def fileA : List Byte :=
  [0, 0,
   0, 0, 1, 0, 10, 0, 0, 0, 0, 0, 0, 0, 0, 0, 0, 0,
   0, 0, 1, 0, 200, 0, 0, 0, 0, 0, 0, 0, 0, 0, 0, 0]

/-- A file without optional fields holding two records of channel 2, timestamps 15 and 20. -/
def fileB : List Byte :=
  [0, 0,
   0, 0, 2, 0, 15, 0, 0, 0, 0, 0, 0, 0, 0, 0, 0, 0,
   0, 0, 2, 0, 20, 0, 0, 0, 0, 0, 0, 0, 0, 0, 0, 0]

/-- A file without optional fields holding one record. -/
def fileOne : List Byte :=
  [0, 0,
   0, 0, 1, 0, 10, 0, 0, 0, 0, 0, 0, 0, 0, 0, 0, 0]

/-- A file without optional fields holding one record followed by 14 bytes of a second one. -/
def fileTrailing : List Byte :=
  [0, 0,
   0, 0, 1, 0, 10, 0, 0, 0, 0, 0, 0, 0, 0, 0, 0, 0,
   0, 0, 1, 0, 200, 0, 0, 0, 0, 0, 0, 0, 0, 0]

/-- The decoder `CompassFile(fileA, 3)` as its constructor leaves it. -/
def streamA : CompassFile :=
  { m_hitBuffer := List.replicate 48 0, m_bufsize := 3, m_hitsize := 16, m_buffersize := 48
    m_file := { content := fileA, is_open := true, pos := 2, gcount := 2 }
    m_size := 34, m_nHits := 2 }

/-- The decoder `CompassFile(fileB, 3)` as its constructor leaves it. -/
def streamB : CompassFile :=
  { m_hitBuffer := List.replicate 48 0, m_bufsize := 3, m_hitsize := 16, m_buffersize := 48
    m_file := { content := fileB, is_open := true, pos := 2, gcount := 2 }
    m_size := 34, m_nHits := 2 }

/-- A file without optional fields holding two records of channel 3 out of order, timestamps
44 and 5. -/
def fileC : List Byte :=
  [0, 0,
   0, 0, 3, 0, 44, 0, 0, 0, 0, 0, 0, 0, 0, 0, 0, 0,
   0, 0, 3, 0, 5, 0, 0, 0, 0, 0, 0, 0, 0, 0, 0, 0]

/-- A file without optional fields holding two records of channel 4, timestamps 10 and 50. -/
def fileD : List Byte :=
  [0, 0,
   0, 0, 4, 0, 10, 0, 0, 0, 0, 0, 0, 0, 0, 0, 0, 0,
   0, 0, 4, 0, 50, 0, 0, 0, 0, 0, 0, 0, 0, 0, 0, 0]

/-- The decoder `CompassFile(fileC, 3)` as its constructor leaves it. -/
def streamC : CompassFile :=
  { m_hitBuffer := List.replicate 48 0, m_bufsize := 3, m_hitsize := 16, m_buffersize := 48
    m_file := { content := fileC, is_open := true, pos := 2, gcount := 2 }
    m_size := 34, m_nHits := 2 }

/-- The decoder `CompassFile(fileD, 3)` as its constructor leaves it. -/
def streamD : CompassFile :=
  { m_hitBuffer := List.replicate 48 0, m_bufsize := 3, m_hitsize := 16, m_buffersize := 48
    m_file := { content := fileD, is_open := true, pos := 2, gcount := 2 }
    m_size := 34, m_nHits := 2 }

/-- The run over `streamA` and `streamB` after its first `GetHitsFromFiles` call: the hit of
`streamA` has been handed out, the first hit of `streamB` is decoded and not yet used. -/
def runAfterFirstHit : CompassRun :=
  match CompassRun.GetHitsFromFiles { m_datafiles := [streamA, streamB] } with
  | .ok (run, _) => run
  | .error _ => {}

/-- A decoder with a ShiftMap giving global channel 18 the offset 5, its cursor on a record of
board 1, channel 2 and raw timestamp 2^64 - 1. -/
def shiftedDecoder : CompassFile :=
  { m_hitBuffer := [1, 0, 2, 0, 255, 255, 255, 255, 255, 255, 255, 255, 0, 0, 0, 0]
    m_bufferIter := some 0
    m_smap := some { m_map := [(18, 5)] } }

/-- A file with the waveform flag alone in its header and one record: board 0, channel 1,
timestamp 10, flags 0, waveform code 0 and 2 samples of 2 bytes. -/
def fileWaves : List Byte :=
  [8, 0,
   0, 0, 1, 0, 10, 0, 0, 0, 0, 0, 0, 0, 0, 0, 0, 0, 0, 2, 0, 0, 0,
   7, 0, 9, 0]

/-- The hit of timestamp `t` on channel 0. -/
def hitAt (t : Nat) : CompassHit := { timestamp := t }

/-- The decoder `CompassFile(file, 3)` on a file that holds the 2 header bytes alone. -/
def streamEmpty : CompassFile :=
  { m_bufsize := 3, m_eofFlag := true, m_size := 2
    m_file := { content := [0, 0], is_open := true, pos := 2 } }

/-- The run over a header-only file, `streamA` and `streamB` after two `GetHitsFromFiles` calls:
the hits of timestamps 10 and 15 have been handed out. -/
def runPastEmpty : CompassRun :=
  match CompassRun.callsGetHitsFromFiles 2 { m_datafiles := [streamEmpty, streamA, streamB] } with
  | .ok run => run
  | .error _ => {}

/-- A file without optional fields holding three records of channel 1, timestamps 10, 20
and 30. -/
def fileThree : List Byte :=
  [0, 0,
   0, 0, 1, 0, 10, 0, 0, 0, 0, 0, 0, 0, 0, 0, 0, 0,
   0, 0, 1, 0, 20, 0, 0, 0, 0, 0, 0, 0, 0, 0, 0, 0,
   0, 0, 1, 0, 30, 0, 0, 0, 0, 0, 0, 0, 0, 0, 0, 0]

/-- The decoder `CompassFile(fileThree, 3)` as its constructor leaves it. -/
def streamThree : CompassFile :=
  { m_hitBuffer := List.replicate 48 0, m_bufsize := 3, m_hitsize := 16, m_buffersize := 48
    m_file := { content := fileThree, is_open := true, pos := 2, gcount := 2 }
    m_size := 50, m_nHits := 3 }

/-- The decoder `CompassFile(fileOne, 1)` as its constructor leaves it. -/
def streamOne : CompassFile :=
  { m_hitBuffer := List.replicate 16 0, m_bufsize := 1, m_hitsize := 16, m_buffersize := 16
    m_file := { content := fileOne, is_open := true, pos := 2, gcount := 2 }
    m_size := 18, m_nHits := 1 }

/-- Stand-ins with rational values for the library values: the identity for `std::atan` and
355/113 for `TMath::Pi()`. -/
def ratLibm : Libm ℚ := { atan := fun x => x, Pi := 355 / 113 }

/-- An event with one hit on each front delay line and no hit on the left scintillator. -/
def eventNoScint : CoincEvent ℚ :=
  { focalPlane := { delayFL := [{ Time := 10 }], delayFR := [{ Time := 12 }] } }

/-- An event with two hits on the front left delay line, one on the front right delay line and
on the left scintillator, and a ring hit on every SABRE detector. -/
def eventTwoHits : CoincEvent ℚ :=
  { focalPlane := { delayFL := [{ Time := 10 }, { Time := 99 }]
                    delayFR := [{ Time := 12 }]
                    scintL := [{ Time := 1 }] }
    sabreArray := fun _ => { rings := [{ Long := 7 }] } }

/-- An event with the first hits of `eventTwoHits` on the focal-plane roles, other later hits
and no SABRE hit. -/
def eventOneHit : CoincEvent ℚ :=
  { focalPlane := { delayFL := [{ Time := 10 }]
                    delayFR := [{ Time := 12 }, { Time := 50 }]
                    scintL := [{ Time := 1 }, { Time := 2 }] } }

/-- An event with a hit on each of the four delay lines and on the left scintillator. -/
def eventFourLines : CoincEvent ℚ :=
  { focalPlane := { delayFL := [{ Time := 10 }]
                    delayFR := [{ Time := 12 }]
                    delayBL := [{ Time := 20 }]
                    delayBR := [{ Time := 16 }]
                    scintL := [{ Time := 1 }] } }

/-- An event with a hit on each of the four delay lines and on the left scintillator, the front
right hit 4200000 time units behind the front left hit. -/
def eventSentinel : CoincEvent ℚ :=
  { focalPlane := { delayFL := [{ Time := 0 }]
                    delayFR := [{ Time := 4200000 }]
                    delayBL := [{ Time := 0 }]
                    delayBR := [{ Time := 0 }]
                    scintL := [{ Time := 0 }] } }

end EventBuilder

/-! ## The decoder -/

namespace EventBuilder

open CompassFile CompassRun

theorem leDecode_lt (bs : List Byte) : leDecode bs < 256 ^ bs.length := by
  induction bs with
  | nil => simp [leDecode]
  | cons b bs ih =>
    have hb := b.isLt
    simp only [leDecode, List.length_cons, pow_succ]
    omega

theorem readAt_lt {buf : List Byte} {off w v : Nat} (h : readAt buf off w = .ok v) :
    v < 256 ^ w := by
  unfold readAt at h
  split at h
  · injection h with h
    subst h
    have h1 := leDecode_lt ((buf.drop off).take w)
    have h2 : ((buf.drop off).take w).length = w := by
      simp [List.length_take, List.length_drop]; omega
    rwa [h2] at h1
  · cases h

theorem readAt_ok {buf : List Byte} {off w : Nat} (h : off + w ≤ buf.length) :
    readAt buf off w = .ok (leDecode ((buf.drop off).take w)) := by
  simp [readAt, h]

theorem decodeHit_ok (f : CompassFile) (p : Nat) (hw : f.IsWaves = false)
    (hlen : p + f.recordWidth ≤ f.m_hitBuffer.length) :
    ∃ hit, f.decodeHit p = .ok (hit, p + f.recordWidth) := by
  unfold decodeHit
  unfold recordWidth at *
  simp only [bind, Except.bind, pure, Except.pure, hw]
  by_cases h1 : f.IsEnergy = true <;> by_cases h2 : f.IsEnergyCalibrated = true <;>
    by_cases h3 : f.IsEnergyShort = true <;> simp [h1, h2, h3] at hlen ⊢ <;>
    simp (disch := omega) only [readAt_ok] <;> simp

theorem decodeHit_timestamp {f : CompassFile} {p q : Nat} {hit : CompassHit}
    (h : f.decodeHit p = .ok (hit, q)) :
    ∃ raw, readAt f.m_hitBuffer (p + 4) 8 = .ok raw ∧ raw < 2 ^ 64 ∧
      (f.m_smap = none → hit.timestamp = raw) ∧
      (∀ smap, f.m_smap = some smap →
        (hit.timestamp : Int) =
          ((raw : Int) + smap.GetShift ((hit.channel : Int) + (hit.board : Int) * 16)) % 2 ^ 64) := by
  unfold decodeHit at h
  simp only [bind, Except.bind, pure, Except.pure] at h
  cases h1 : readAt f.m_hitBuffer p 2 with
  | error e => simp [h1] at h
  | ok board =>
  cases h2 : readAt f.m_hitBuffer (p + 2) 2 with
  | error e => simp [h1, h2] at h
  | ok channel =>
  cases h3 : readAt f.m_hitBuffer (p + 2 + 2) 8 with
  | error e => simp [h1, h2, h3] at h
  | ok raw =>
  refine ⟨raw, rfl, by have := readAt_lt h3; norm_num at this ⊢; exact this, ?_, ?_⟩
  · intro hs
    simp only [h1, h2, h3, hs] at h
    repeat' split at h
    all_goals cases h
    all_goals rfl
  · intro smap hs
    simp only [h1, h2, h3, hs] at h
    repeat' split at h
    all_goals cases h
    all_goals exact Int.toNat_of_nonneg (Int.emod_nonneg _ (by norm_num))

theorem decodeHit_congr (f g : CompassFile) (p : Nat) (h1 : f.m_hitBuffer = g.m_hitBuffer)
    (h2 : f.m_header = g.m_header) (h3 : f.m_smap = g.m_smap)
    (h4 : f.m_currentHit = g.m_currentHit) : f.decodeHit p = g.decodeHit p := by
  unfold decodeHit IsEnergy IsEnergyCalibrated IsEnergyShort IsWaves
  rw [h1, h2, h3, h4]

theorem ParseNextHit_usedFlag (f : CompassFile) (b : Bool) :
    ParseNextHit { f with m_hitUsedFlag := b } =
      match ParseNextHit f with
      | .error e => .error e
      | .ok g => .ok { g with m_hitUsedFlag := b } := by
  unfold ParseNextHit
  have hc : ∀ p, decodeHit { f with m_hitUsedFlag := b } p = f.decodeHit p :=
    fun p => decodeHit_congr _ f p rfl rfl rfl rfl
  simp only [hc]
  split
  · rfl
  · split <;> rfl

/-- C8: the timestamp `ParseNextHit` leaves in the current hit is the raw 64-bit timestamp of
the record (the 8 bytes behind board and channel) when no ShiftMap is attached, and the raw
timestamp plus `GetShift(channel + board*16)` modulo 2^64 when one is attached; a record without
waveform samples that lies within the buffer is always decoded. -/
theorem ParseNextHit_timestamp (f : CompassFile) (p : Nat) (hp : f.m_bufferIter = some p) :
    (f.IsWaves = false → p + f.recordWidth ≤ f.m_hitBuffer.length →
      ∃ f1, f.ParseNextHit = .ok f1) ∧
    ∀ f1, f.ParseNextHit = .ok f1 →
      ∃ raw, readAt f.m_hitBuffer (p + 4) 8 = .ok raw ∧ raw < 2 ^ 64 ∧
        (f.m_smap = none → f1.GetCurrentHit.timestamp = raw) ∧
        (∀ smap, f.m_smap = some smap →
          (f1.GetCurrentHit.timestamp : Int) =
            ((raw : Int) + smap.GetShift
              ((f1.GetCurrentHit.channel : Int) + (f1.GetCurrentHit.board : Int) * 16))
              % 2 ^ 64) := by
  constructor
  · intro hw hlen
    obtain ⟨hit, hd⟩ := decodeHit_ok f p hw hlen
    exact ⟨{ f with m_currentHit := hit, m_bufferIter := some (p + f.recordWidth) },
      by simp [ParseNextHit, hp, hd]⟩
  · intro f1 h
    unfold ParseNextHit at h
    rw [hp] at h
    rcases hd : f.decodeHit p with e | ⟨hit, q⟩
    · simp only [hd] at h; cases h
    · simp only [hd] at h
      cases h
      exact decodeHit_timestamp hd

/-- C8 at `shiftedDecoder`: the raw timestamp 2^64 - 1 of board 1, channel 2, shifted by the
offset 5 of global channel 18, wraps around to 4. -/
theorem ParseNextHit_timestamp_witness :
    shiftedDecoder.m_bufferIter = some 0 ∧
    (∃ f1, shiftedDecoder.ParseNextHit = .ok f1 ∧ f1.GetCurrentHit.timestamp = 4) ∧
    ∀ f1, shiftedDecoder.ParseNextHit = .ok f1 →
      ∃ raw, readAt shiftedDecoder.m_hitBuffer (0 + 4) 8 = .ok raw ∧ raw < 2 ^ 64 ∧
        (shiftedDecoder.m_smap = none → f1.GetCurrentHit.timestamp = raw) ∧
        (∀ smap, shiftedDecoder.m_smap = some smap →
          (f1.GetCurrentHit.timestamp : Int) =
            ((raw : Int) + smap.GetShift
              ((f1.GetCurrentHit.channel : Int) + (f1.GetCurrentHit.board : Int) * 16))
              % 2 ^ 64) :=
  ⟨rfl, ⟨_, rfl, rfl⟩, (ParseNextHit_timestamp shiftedDecoder 0 rfl).2⟩

/-- C4: on a header word `b0 + 256*b1` with the waveform bit clear, `ReadHeader` sets the record
size to 16, plus 2 when the long-energy bit is set, plus 8 when the calibrated-energy bit is set,
plus 2 when the short-energy bit is set; the size lies between 16 and 28. -/
theorem ReadHeader_hitsize (f : CompassFile) (b0 b1 : Byte) (rest : List Byte)
    (hopen : f.IsOpen = true) (heof : f.m_file.eofbit = false) (hfail : f.m_file.failbit = false)
    (hdata : f.m_file.content.drop f.m_file.pos = b0 :: b1 :: rest)
    (hwaves : (b0.val + 256 * b1.val) &&& headerWaves = 0) :
    ∃ f1, f.ReadHeader = .ok f1 ∧ f1.m_header = b0.val + 256 * b1.val ∧
      f1.m_hitsize = 16 + (if f1.m_header &&& headerEnergy = 0 then 0 else 2)
        + (if f1.m_header &&& headerEnergyCalibrated = 0 then 0 else 8)
        + (if f1.m_header &&& headerEnergyShort = 0 then 0 else 2) ∧
      16 ≤ f1.m_hitsize ∧ f1.m_hitsize ≤ 28 := by
  have hread : f.m_file.read 2 =
      ({ f.m_file with pos := f.m_file.pos + 2, gcount := 2 }, [b0, b1]) := by
    simp [IFStream.read, heof, hfail, hdata]
  simp only [ReadHeader, hopen, hread]
  simp [leDecode, IsEnergy, IsEnergyCalibrated, IsEnergyShort, IsWaves, hwaves]
  split <;> split <;> split <;> simp_all

/-- C4 on the header word 5 (long and short energy): the record size is 20. -/
theorem ReadHeader_hitsize_witness :
    ∃ f1, ReadHeader { m_file := { content := [5, 0, 7], is_open := true } } = .ok f1 ∧
      f1.m_header = (5 : Byte).val + 256 * (0 : Byte).val ∧
      f1.m_hitsize = 16 + (if f1.m_header &&& headerEnergy = 0 then 0 else 2)
        + (if f1.m_header &&& headerEnergyCalibrated = 0 then 0 else 8)
        + (if f1.m_header &&& headerEnergyShort = 0 then 0 else 2) ∧
      16 ≤ f1.m_hitsize ∧ f1.m_hitsize ≤ 28 :=
  ReadHeader_hitsize { m_file := { content := [5, 0, 7], is_open := true } } 5 0 [7]
    rfl rfl rfl rfl (by decide)

theorem GetNextHit_of_eof (f : CompassFile) (h : f.IsEOF = true) :
    f.GetNextHit = .ok (f, true) := by
  unfold GetNextHit
  by_cases ho : f.IsOpen = true
  · simp [ho, h]
    simpa [IsEOF] using h
  · simp [ho]

theorem callsGetNextHit_of_eof (k : Nat) (f : CompassFile) (h : f.IsEOF = true) :
    f.callsGetNextHit k = .ok (List.replicate k (true, f.m_currentHit), f) := by
  induction k with
  | zero => rfl
  | succ k ih =>
    simp [callsGetNextHit, GetNextHit_of_eof f h, ih, List.replicate_succ, GetCurrentHit]

/-- C9: `Open` on a file of exactly 2 bytes sets the end-of-file flag and a hit count of 0
without reading from the stream (the header, the record size and `gcount` keep their values and
the position stays at the end, where `seekg` put it), and any number of `GetNextHit` calls after
it return true and leave the decoder, its current hit and its used flag as they are. -/
theorem Open_two_bytes (f0 : CompassFile) (b0 b1 : Byte) (hclosed : f0.m_file.is_open = false) :
    ∃ f, f0.Open (some [b0, b1]) = .ok f ∧ f.IsEOF = true ∧ f.GetNumberOfHits = 0 ∧
      f.m_file.gcount = f0.m_file.gcount ∧ f.m_file.pos = 2 ∧ f.m_header = f0.m_header ∧
      f.m_hitsize = f0.m_hitsize ∧ f.GetCurrentHit = f0.GetCurrentHit ∧
      f.CheckHitHasBeenUsed = true ∧
      ∀ k, f.callsGetNextHit k = .ok (List.replicate k (true, f0.GetCurrentHit), f) := by
  have hO : f0.Open (some [b0, b1]) = .ok
      { f0 with
        m_eofFlag := true, m_hitUsedFlag := true, m_nHits := 0, m_size := 2
        m_file := { f0.m_file with
          content := [b0, b1], is_open := true, pos := 2, eofbit := false, failbit := false } } := by
    simp [Open, IFStream.openFile, hclosed, IFStream.seekgEnd, IFStream.tellg]
  exact ⟨_, hO, rfl, rfl, rfl, rfl, rfl, rfl, rfl, rfl, fun k => callsGetNextHit_of_eof k _ rfl⟩

/-- C9 on the decoder the constructor `CompassFile(filename, 3)` opens on the two bytes 0, 0. -/
theorem Open_two_bytes_witness :
    ({ m_bufsize := 3 } : CompassFile).m_file.is_open = false ∧
    ∃ f, create (some [0, 0]) 3 = .ok f ∧ f.IsEOF = true ∧ f.GetNumberOfHits = 0 ∧
      ∀ k, f.callsGetNextHit k = .ok (List.replicate k (true, {}), f) :=
  ⟨rfl,
    let ⟨f, h1, h2, h3, _, _, _, _, _, _, h4⟩ := Open_two_bytes { m_bufsize := 3 } 0 0 rfl
    ⟨f, h1, h2, h3, h4⟩⟩

/-- C3, the code at the failing input: on `fileOne`, one record read with a batch size of 1, the
second `GetNextHit` call returns false again and leaves the first record as current hit a second
time (the zero-byte read leaves the end-of-file flag clear and the old buffer is decoded), and
the third call reads outside the buffer. -/
theorem GetNextHit_ghost_hit :
    ∃ f last, create (some fileOne) 1 = .ok f ∧
      f.callsGetNextHit 2 = .ok ([(false, { channel := 1, timestamp := 10 }),
                                  (false, { channel := 1, timestamp := 10 })], last) ∧
      f.callsGetNextHit 3 = .error .bufferOverrun :=
  ⟨_, _, rfl, rfl, rfl⟩

/-- C5, the code at the failing input: on `fileTrailing`, whose 32 bytes are the header, one
complete record of 16 bytes and 14 trailing bytes, `Open` computes a hit count of 2. -/
theorem Open_counts_trailing_bytes :
    ∃ f, create (some fileTrailing) 3 = .ok f ∧ f.m_hitsize = 16 ∧
      fileTrailing.length = 2 + 16 * 1 + 14 ∧ f.GetNumberOfHits = 2 :=
  ⟨_, rfl, rfl, rfl, rfl⟩

/-- C10 fails on `fileA`: after the first `GetNextHit` the current hit (timestamp 10) has not
been consumed, and a second `GetNextHit` replaces it by the next record (timestamp 200) and
moves the cursor from 16 to 32. -/
theorem GetNextHit_unconsumed_advances :
    ∃ f f1 f2, create (some fileA) 3 = .ok f ∧ f.GetNextHit = .ok (f1, false) ∧
      f1.CheckHitHasBeenUsed = false ∧ f1.GetNextHit = .ok (f2, false) ∧
      f1.GetCurrentHit.timestamp = 10 ∧ f2.GetCurrentHit.timestamp = 200 ∧
      f1.m_bufferIter = some 16 ∧ f2.m_bufferIter = some 32 :=
  ⟨_, _, _, rfl, rfl, rfl, rfl, rfl, rfl, rfl, rfl⟩

/-! ## The used flag and reading a decoder to its end -/

theorem GetNextBuffer_usedFlag (f : CompassFile) (b : Bool) :
    GetNextBuffer { f with m_hitUsedFlag := b } = { f.GetNextBuffer with m_hitUsedFlag := b } := by
  unfold GetNextBuffer
  split <;> rfl

theorem GetNextHit_usedFlag (f : CompassFile) (b : Bool) :
    match f.GetNextHit with
    | .error e => GetNextHit { f with m_hitUsedFlag := b } = .error e
    | .ok (g, r) => ∃ g1, GetNextHit { f with m_hitUsedFlag := b } = .ok (g1, r) ∧
        g1.IsEOF = g.IsEOF ∧ g1.GetCurrentHit = g.GetCurrentHit ∧
        (g1 = g ∨ g1 = { g with m_hitUsedFlag := b }) := by
  unfold GetNextHit
  by_cases ho : f.IsOpen = true
  · have ho1 : IsOpen { f with m_hitUsedFlag := b } = true := ho
    simp only [ho, ho1, Bool.not_true, Bool.false_eq_true, if_false]
    have hcond : ((({ f with m_hitUsedFlag := b } : CompassFile).m_bufferIter == none ||
        ({ f with m_hitUsedFlag := b } : CompassFile).m_bufferIter ==
          ({ f with m_hitUsedFlag := b } : CompassFile).m_bufferEnd) &&
        !IsEOF { f with m_hitUsedFlag := b }) =
        ((f.m_bufferIter == none || f.m_bufferIter == f.m_bufferEnd) && !f.IsEOF) := rfl
    rw [hcond]
    by_cases hc : ((f.m_bufferIter == none || f.m_bufferIter == f.m_bufferEnd) && !f.IsEOF) = true
    · simp only [hc, if_true, GetNextBuffer_usedFlag]
      have he : IsEOF { f.GetNextBuffer with m_hitUsedFlag := b } = f.GetNextBuffer.IsEOF := rfl
      rw [he]
      by_cases heof : f.GetNextBuffer.IsEOF = true
      · simp only [heof, Bool.not_true, Bool.false_eq_true, if_false]
        exact ⟨_, rfl, heof, rfl, Or.inr rfl⟩
      · simp only [Bool.not_eq_true] at heof
        simp only [heof, Bool.not_false, if_true, ParseNextHit_usedFlag]
        rcases hp : f.GetNextBuffer.ParseNextHit with e | g
        · rfl
        · exact ⟨_, rfl, rfl, rfl, Or.inl rfl⟩
    · simp only [hc, Bool.false_eq_true, if_false]
      have he : IsEOF { f with m_hitUsedFlag := b } = f.IsEOF := rfl
      rw [he]
      by_cases heof : f.IsEOF = true
      · simp only [heof, Bool.not_true, Bool.false_eq_true, if_false]
        exact ⟨_, rfl, heof, rfl, Or.inr rfl⟩
      · simp only [Bool.not_eq_true] at heof
        simp only [heof, Bool.not_false, if_true, ParseNextHit_usedFlag]
        rcases hp : f.ParseNextHit with e | g
        · rfl
        · exact ⟨_, rfl, rfl, rfl, Or.inl rfl⟩
  · have ho1 : IsOpen { f with m_hitUsedFlag := b } = false := by simpa using ho
    have ho2 : f.IsOpen = false := by simpa using ho
    simp only [ho1, ho2, Bool.not_false, if_true]
    exact ⟨_, rfl, rfl, rfl, Or.inr rfl⟩

theorem drain_usedFlag (k : Nat) : ∀ (f : CompassFile) (b : Bool),
    drain k { f with m_hitUsedFlag := b } = drain k f := by
  induction k with
  | zero => intro f b; rfl
  | succ k ih =>
    intro f b
    have h := GetNextHit_usedFlag f b
    rcases hf : f.GetNextHit with e | ⟨g, r⟩
    · rw [hf] at h
      simp [drain, hf, h]
    · rw [hf] at h
      obtain ⟨g1, hg1, heof, hcur, hor⟩ := h
      simp only [drain, hf, hg1, heof, hcur]
      split
      · rfl
      · rcases hor with h1 | h1
        · rw [h1]
        · rw [h1, ih]

theorem GetNextHit_used_false {f g : CompassFile} {r : Bool} (ho : f.IsOpen = true)
    (h : f.GetNextHit = .ok (g, r)) (heof : g.IsEOF = false) : g.m_hitUsedFlag = false := by
  unfold GetNextHit at h
  simp only [ho, Bool.not_true, Bool.false_eq_true, if_false] at h
  generalize (if ((f.m_bufferIter == none || f.m_bufferIter == f.m_bufferEnd) && !f.IsEOF) = true
    then f.GetNextBuffer else f) = f1 at h
  by_cases h1 : f1.IsEOF = true
  · simp only [h1, Bool.not_true, Bool.false_eq_true, if_false] at h
    cases h
    rw [h1] at heof
    cases heof
  · simp only [Bool.not_eq_true] at h1
    simp only [h1, Bool.not_false, if_true] at h
    split at h
    · cases h
    · cases h; rfl

theorem GetNextHit_closed {f : CompassFile} (ho : f.IsOpen = false) :
    f.GetNextHit = .ok (f, true) := by
  simp [GetNextHit, ho]

theorem drain_closed (k : Nat) (f : CompassFile) (ho : f.IsOpen = false)
    (heof : f.IsEOF = false) : drain k f = none := by
  induction k with
  | zero => rfl
  | succ k ih => simp [drain, GetNextHit_closed ho, heof, ih]

/-! ## The scan of `GetHitsFromFiles` -/

theorem scan_spec (s0 : Nat) (n : Nat) : ∀ (i : Nat) (fs : List CompassFile) (s : Nat)
    (e : Option Nat), fs.length ≤ i + n → ScanInv s0 fs s i e →
    (∀ j f, i ≤ j → fs[j]? = some f → ∃ f1, advanceIfUsed f = .ok f1) →
    ∃ fs1 s1 e1, scan n i fs s e = .ok (fs1, s1, e1) ∧ fs1.length = fs.length ∧
      (∀ j, j < i → fs1[j]? = fs[j]?) ∧
      (∀ j f, i ≤ j → fs[j]? = some f → ∃ f1, advanceIfUsed f = .ok f1 ∧ fs1[j]? = some f1) ∧
      ScanInv s0 fs1 s1 (max i fs.length) e1 := by
  induction n with
  | zero =>
    intro i fs s e hn hinv hadv
    refine ⟨fs, s, e, rfl, rfl, fun _ _ => rfl, ?_, ?_⟩
    · intro j f hij hj
      have : j < fs.length := (List.getElem?_eq_some_iff.mp hj).1
      omega
    · have : max i fs.length = i := by omega
      rw [this]; exact hinv
  | succ n ih =>
    intro i fs s e hn hinv hadv
    cases hfi : fs[i]? with
    | none =>
      have hlen : fs.length ≤ i := List.getElem?_eq_none_iff.mp hfi
      refine ⟨fs, s, e, by simp [scan, hfi], rfl, fun _ _ => rfl, ?_, ?_⟩
      · intro j f hij hj
        have : j < fs.length := (List.getElem?_eq_some_iff.mp hj).1
        omega
      · have : max i fs.length = i := by omega
        rw [this]; exact hinv
    | some f =>
      have hlen : i < fs.length := (List.getElem?_eq_some_iff.mp hfi).1
      obtain ⟨f1, hf1⟩ := hadv i f (le_refl _) hfi
      have hne : ∀ j, j ≠ i → (fs.set i f1)[j]? = fs[j]? := by
        intro j hj
        simp [List.getElem?_set, Ne.symm hj]
      have hii : (fs.set i f1)[i]? = some f1 := by
        simp [List.getElem?_set, hlen]
      have assemble : ∀ s1 e1, scan (n + 1) i fs s e = scan n (i + 1) (fs.set i f1) s1 e1 →
          ScanInv s0 (fs.set i f1) s1 (i + 1) e1 →
          ∃ fs1 s1 e1, scan (n + 1) i fs s e = .ok (fs1, s1, e1) ∧ fs1.length = fs.length ∧
            (∀ j, j < i → fs1[j]? = fs[j]?) ∧
            (∀ j f, i ≤ j → fs[j]? = some f →
              ∃ f1, advanceIfUsed f = .ok f1 ∧ fs1[j]? = some f1) ∧
            ScanInv s0 fs1 s1 (max i fs.length) e1 := by
        intro s1 e1 hstep hinv1
        obtain ⟨fs2, s2, e2, hscan, hlen2, hframe, hadv2, hinv2⟩ :=
          ih (i + 1) (fs.set i f1) s1 e1 (by rw [List.length_set]; omega) hinv1
            (fun j g hj hg => hadv j g (by omega) (by rw [← hne j (by omega)]; exact hg))
        rw [List.length_set] at hlen2 hinv2
        refine ⟨fs2, s2, e2, by rw [hstep, hscan], hlen2, ?_, ?_, ?_⟩
        · intro j hj
          rw [hframe j (by omega), hne j (by omega)]
        · intro j g hj hg
          rcases Nat.eq_or_lt_of_le hj with h | h
          · subst h
            rw [hfi] at hg
            cases hg
            exact ⟨f1, hf1, by rw [hframe i (by omega), hii]⟩
          · exact hadv2 j g h (by rw [hne j (by omega)]; exact hg)
        · have : max (i + 1) fs.length = max i fs.length := by omega
          rw [← this]; exact hinv2
      obtain ⟨hs0, hsi, heofs, hnone, hsome⟩ := hinv
      by_cases heof : f1.IsEOF = true
      · by_cases his : i = s
        · subst his
          refine assemble (i + 1) e (by simp [scan, hfi, hf1, heof]) ?_
          refine ⟨by omega, by omega, ?_, fun _ => hnone rfl, fun h => by omega⟩
          intro j g hj1 hj2 hg
          rcases Nat.eq_or_lt_of_le (Nat.lt_succ_iff.mp hj2) with h | h
          · subst h
            rw [hii] at hg
            cases hg
            exact heof
          · exact heofs j g hj1 h (by rw [← hne j (by omega)]; exact hg)
        · refine assemble s e (by simp [scan, hfi, hf1, heof, his]) ?_
          have hlt : s < i := by omega
          refine ⟨hs0, by omega, ?_, fun h => by omega, fun _ => ?_⟩
          · intro j g hj1 hj2 hg
            exact heofs j g hj1 hj2 (by rw [← hne j (by omega)]; exact hg)
          · obtain ⟨j, g, he, hsj, hji, hg, hgeof, hmin⟩ := hsome hlt
            refine ⟨j, g, he, hsj, by omega, by rw [hne j (by omega)]; exact hg, hgeof, ?_⟩
            intro k fk hk1 hk2 hfk hfkeof
            rcases Nat.eq_or_lt_of_le (Nat.lt_succ_iff.mp hk2) with h | h
            · subst h
              rw [hii] at hfk
              cases hfk
              rw [heof] at hfkeof
              cases hfkeof
            · exact hmin k fk hk1 h (by rw [← hne k (by omega)]; exact hfk) hfkeof
      · have heof' : f1.IsEOF = false := by simpa using heof
        by_cases his : i = s
        · subst his
          refine assemble i (some i) (by simp [scan, hfi, hf1, heof']) ?_
          refine ⟨hs0, by omega, ?_, fun h => by omega, fun _ => ?_⟩
          · intro j g hj1 hj2 hg
            exact heofs j g hj1 hj2 (by rw [← hne j (by omega)]; exact hg)
          · refine ⟨i, f1, rfl, le_refl _, by omega, hii, heof', ?_⟩
            intro k fk hk1 hk2 hfk _
            have : k = i := by omega
            subst this
            rw [hii] at hfk
            cases hfk
            exact ⟨le_refl _, fun h => absurd h (lt_irrefl _)⟩
        · have hlt : s < i := by omega
          obtain ⟨j, g, he, hsj, hji, hg, hgeof, hmin⟩ := hsome hlt
          have hgj : (fs.set i f1)[j]? = some g := by rw [hne j (by omega)]; exact hg
          have hframe_eofs : ∀ j g, s0 ≤ j → j < s → (fs.set i f1)[j]? = some g →
              g.IsEOF = true := by
            intro j g hj1 hj2 hg
            exact heofs j g hj1 hj2 (by rw [← hne j (by omega)]; exact hg)
          by_cases hcmp : f1.GetCurrentHit.timestamp < g.GetCurrentHit.timestamp
          · refine assemble s (some i)
              (by simp [scan, hfi, hf1, heof', his, he, hgj, hcmp]) ?_
            refine ⟨hs0, by omega, hframe_eofs, fun h => by omega, fun _ => ?_⟩
            refine ⟨i, f1, rfl, by omega, by omega, hii, heof', ?_⟩
            intro k fk hk1 hk2 hfk hfkeof
            rcases Nat.eq_or_lt_of_le (Nat.lt_succ_iff.mp hk2) with h | h
            · subst h
              rw [hii] at hfk
              cases hfk
              exact ⟨le_refl _, fun h => absurd h (lt_irrefl _)⟩
            · have := (hmin k fk hk1 h (by rw [← hne k (by omega)]; exact hfk) hfkeof).1
              unfold CompassFile.ts at *
              exact ⟨by omega, fun _ => by omega⟩
          · refine assemble s (some j)
              (by simp [scan, hfi, hf1, heof', his, he, hgj, hcmp]) ?_
            refine ⟨hs0, by omega, hframe_eofs, fun h => by omega, fun _ => ?_⟩
            refine ⟨j, g, rfl, hsj, by omega, hgj, hgeof, ?_⟩
            intro k fk hk1 hk2 hfk hfkeof
            rcases Nat.eq_or_lt_of_le (Nat.lt_succ_iff.mp hk2) with h | h
            · subst h
              rw [hii] at hfk
              cases hfk
              unfold CompassFile.ts
              exact ⟨by omega, fun h => by omega⟩
            · exact hmin k fk hk1 h (by rw [← hne k (by omega)]; exact hfk) hfkeof

/-! ## The hits a decoder still owes -/

theorem Pending_of_Delivers {f : CompassFile} {L : List CompassHit} (h : Delivers f L) :
    Pending f L := by
  obtain ⟨hu, k, hk⟩ := h
  by_cases heof : f.IsEOF = true
  · left
    refine ⟨heof, ?_⟩
    cases k with
    | zero => cases hk
    | succ k =>
      simp only [drain, GetNextHit_of_eof f heof, heof, if_true] at hk
      cases hk
      rfl
  · right; left
    exact ⟨by simpa using heof, hu, k, hk⟩

theorem Pending_eof {f : CompassFile} {R : List CompassHit} (h : Pending f R)
    (heof : f.IsEOF = true) : R = [] := by
  rcases h with ⟨_, h⟩ | ⟨h, _⟩ | ⟨h, _⟩
  · exact h
  · rw [heof] at h; cases h
  · rw [heof] at h; cases h

theorem Held_Pending {g : CompassFile} {R : List CompassHit} (h : Held g R) : Pending g R := by
  rcases h with h | h
  · exact Or.inl h
  · exact Or.inr (Or.inr h)

theorem Held_eof {g : CompassFile} {R : List CompassHit} (h : Held g R)
    (heof : g.IsEOF = true) : R = [] :=
  Pending_eof (Held_Pending h) heof

theorem Held_consume {g : CompassFile} {R : List CompassHit} (h : Held g R)
    (heof : g.IsEOF = false) :
    ∃ T, R = g.GetCurrentHit :: T ∧ Pending g.SetHitHasBeenUsed T := by
  rcases h with ⟨h, _⟩ | ⟨_, _, k, rest, hk, hR⟩
  · rw [heof] at h; cases h
  · refine ⟨rest, hR, Or.inr (Or.inl ⟨heof, rfl, k, ?_⟩)⟩
    show drain k { g with m_hitUsedFlag := true } = some rest
    rw [drain_usedFlag]
    exact hk

theorem advanceIfUsed_Pending {f : CompassFile} {R : List CompassHit} (h : Pending f R) :
    ∃ g, advanceIfUsed f = .ok g ∧ Held g R := by
  rcases h with ⟨heof, hR⟩ | ⟨heof, hu, k, hk⟩ | ⟨heof, hu, k, rest, hk, hR⟩
  · refine ⟨f, ?_, Or.inl ⟨heof, hR⟩⟩
    unfold advanceIfUsed
    split
    · simp [GetNextHit_of_eof f heof]
    · rfl
  · cases k with
    | zero => cases hk
    | succ k =>
      unfold advanceIfUsed
      simp only [hu, if_true]
      simp only [drain] at hk
      rcases hg : f.GetNextHit with e | ⟨g, r⟩
      · simp [hg] at hk
      · simp only [hg] at hk ⊢
        refine ⟨g, rfl, ?_⟩
        by_cases hge : g.IsEOF = true
        · simp only [hge, if_true] at hk
          cases hk
          exact Or.inl ⟨hge, rfl⟩
        · have hge1 : g.IsEOF = false := by simpa using hge
          simp only [hge1, Bool.false_eq_true, if_false] at hk
          rcases hd : drain k g with _ | hits
          · simp [hd] at hk
          · simp only [hd] at hk
            cases hk
            refine Or.inr ⟨hge1, ?_, k, hits, hd, rfl⟩
            by_cases ho : f.IsOpen = true
            · exact GetNextHit_used_false ho hg hge1
            · have ho1 : f.IsOpen = false := by simpa using ho
              rw [GetNextHit_closed ho1] at hg
              cases hg
              rw [drain_closed k f ho1 heof] at hd
              cases hd
  · refine ⟨f, ?_, Or.inr ⟨heof, hu, k, rest, hk, hR⟩⟩
    unfold advanceIfUsed
    simp [hu]

/-! ## One call of `GetHitsFromFiles` -/

theorem GetHitsFromFiles_scan (run : CompassRun)
    (hadv : ∀ j f, run.startIndex ≤ j → run.m_datafiles[j]? = some f →
      ∃ f1, advanceIfUsed f = .ok f1) :
    ∃ fs1 s1 e1,
      scan run.m_datafiles.length run.startIndex run.m_datafiles run.startIndex none
        = .ok (fs1, s1, e1) ∧
      fs1.length = run.m_datafiles.length ∧
      (∀ j, j < run.startIndex → fs1[j]? = run.m_datafiles[j]?) ∧
      (∀ j f, run.startIndex ≤ j → run.m_datafiles[j]? = some f →
        ∃ f1, advanceIfUsed f = .ok f1 ∧ fs1[j]? = some f1) ∧
      run.startIndex ≤ s1 ∧
      ((e1 = none ∧ (∀ j g, run.startIndex ≤ j → fs1[j]? = some g → g.IsEOF = true) ∧
          run.GetHitsFromFiles =
            .ok ({ run with m_datafiles := fs1, startIndex := s1 }, false)) ∨
       (∃ j g, e1 = some j ∧ fs1[j]? = some g ∧ g.IsEOF = false ∧ s1 ≤ j ∧
          (∀ k gk, run.startIndex ≤ k → k < s1 → fs1[k]? = some gk → gk.IsEOF = true) ∧
          (∀ k gk, s1 ≤ k → fs1[k]? = some gk → gk.IsEOF = false →
            g.ts ≤ gk.ts ∧ (k < j → g.ts < gk.ts)) ∧
          run.GetHitsFromFiles =
            .ok ({ m_datafiles := fs1.set j g.SetHitHasBeenUsed, startIndex := s1,
                   m_hit := g.GetCurrentHit }, true))) := by
  have hinit : ScanInv run.startIndex run.m_datafiles run.startIndex run.startIndex none :=
    ⟨le_refl _, le_refl _, fun j f h1 h2 => by omega, fun _ => rfl, fun h => by omega⟩
  obtain ⟨fs1, s1, e1, hscan, hlen, hlow, hhigh, hs0, hs1, heofs, hnone, hsome⟩ :=
    scan_spec run.startIndex run.m_datafiles.length run.startIndex run.m_datafiles
      run.startIndex none (by omega) hinit hadv
  refine ⟨fs1, s1, e1, hscan, hlen, hlow, hhigh, hs0, ?_⟩
  rcases Nat.eq_or_lt_of_le hs1 with heq | hlt
  · left
    have he := hnone heq
    refine ⟨he, ?_, ?_⟩
    · intro j g hj hg
      have hjl : j < fs1.length := (List.getElem?_eq_some_iff.mp hg).1
      exact heofs j g hj (by omega) hg
    · simp [GetHitsFromFiles, hscan, he]
  · right
    obtain ⟨j, g, he, hsj, hjM, hg, hgeof, hmin⟩ := hsome hlt
    refine ⟨j, g, he, hg, hgeof, hsj, heofs, ?_, ?_⟩
    · intro k gk hk hgk hgkeof
      have hkl : k < fs1.length := (List.getElem?_eq_some_iff.mp hgk).1
      exact hmin k gk hk (by omega) hgk hgkeof
    · simp [GetHitsFromFiles, hscan, he, hg]

/-! ## The merge -/

theorem MergeInv_Held {run : CompassRun} {Rs : List (List CompassHit)} (hinv : MergeInv run Rs)
    {fs1 : List CompassFile}
    (hlow : ∀ j, j < run.startIndex → fs1[j]? = run.m_datafiles[j]?)
    (hhigh : ∀ j f, run.startIndex ≤ j → run.m_datafiles[j]? = some f →
      ∃ f1, advanceIfUsed f = .ok f1 ∧ fs1[j]? = some f1)
    (hlen : fs1.length = run.m_datafiles.length) :
    ∀ (j : Nat) g R, fs1[j]? = some g → Rs[j]? = some R → Held g R := by
  obtain ⟨hl, hpend, hdone⟩ := hinv
  intro j g R hg hR
  by_cases hj : j < run.startIndex
  · rw [hlow j hj] at hg
    have heof := hdone j g hj hg
    exact Or.inl ⟨heof, Pending_eof (hpend j g R hg hR) heof⟩
  · have hjl : j < run.m_datafiles.length := by
      rw [← hlen]; exact (List.getElem?_eq_some_iff.mp hg).1
    obtain ⟨f, hf⟩ : ∃ f, run.m_datafiles[j]? = some f :=
      ⟨_, List.getElem?_eq_getElem hjl⟩
    obtain ⟨f1, hf1, hfs1⟩ := hhigh j f (by omega) hf
    obtain ⟨g1, hg1, hheld⟩ := advanceIfUsed_Pending (hpend j f R hf hR)
    rw [hf1] at hg1
    cases hg1
    rw [hfs1] at hg
    cases hg
    exact hheld

theorem MergeInv_advance {run : CompassRun} {Rs : List (List CompassHit)}
    (hinv : MergeInv run Rs) :
    ∀ j f, run.startIndex ≤ j → run.m_datafiles[j]? = some f →
      ∃ f1, advanceIfUsed f = .ok f1 := by
  intro j f _ hf
  have hjl : j < Rs.length := by
    rw [← hinv.1]; exact (List.getElem?_eq_some_iff.mp hf).1
  obtain ⟨g, hg, _⟩ := advanceIfUsed_Pending (hinv.2.1 j f _ hf (List.getElem?_eq_getElem hjl))
  exact ⟨g, hg⟩

theorem GetHitsFromFiles_merge (run : CompassRun) (Rs : List (List CompassHit))
    (hinv : MergeInv run Rs) :
    (∃ run1, run.GetHitsFromFiles = .ok (run1, false) ∧ ∀ R ∈ Rs, R = []) ∨
    (∃ run1 j h T, run.GetHitsFromFiles = .ok (run1, true) ∧ Rs[j]? = some (h :: T) ∧
      run1.m_hit = h ∧ MergeInv run1 (Rs.set j T) ∧
      ∀ (k : Nat) h1 T1, Rs[k]? = some (h1 :: T1) → h.timestamp ≤ h1.timestamp) := by
  obtain ⟨fs1, s1, e1, _, hlen, hlow, hhigh, hs0, hcase⟩ :=
    GetHitsFromFiles_scan run (MergeInv_advance hinv)
  have hheld := MergeInv_Held hinv hlow hhigh hlen
  obtain ⟨hl, hpend, hdone⟩ := hinv
  have heof_low : ∀ k gk, k < run.startIndex → fs1[k]? = some gk → gk.IsEOF = true := by
    intro k gk hk hgk
    rw [hlow k hk] at hgk
    exact hdone k gk hk hgk
  rcases hcase with ⟨_, heofs, hget⟩ | ⟨j, g, _, hg, hgeof, hsj, heofs, hmin, hget⟩
  · left
    refine ⟨_, hget, ?_⟩
    intro R hR
    obtain ⟨k, hk, rfl⟩ := List.getElem_of_mem hR
    have hkl : k < fs1.length := by omega
    have hgk : fs1[k]? = some fs1[k] := List.getElem?_eq_getElem hkl
    apply Held_eof (hheld k _ _ hgk (List.getElem?_eq_getElem hk))
    by_cases hks : k < run.startIndex
    · exact heof_low k _ hks hgk
    · exact heofs k _ (by omega) hgk
  · right
    have hjl : j < fs1.length := (List.getElem?_eq_some_iff.mp hg).1
    have hjR : j < Rs.length := by omega
    obtain ⟨T, hRj, hT⟩ := Held_consume (hheld j g _ hg (List.getElem?_eq_getElem hjR)) hgeof
    refine ⟨_, j, g.GetCurrentHit, T, hget, ?_, rfl, ⟨?_, ?_, ?_⟩, ?_⟩
    · rw [List.getElem?_eq_getElem hjR, hRj]
    · simp only [List.length_set]; omega
    · intro k f R hf hR
      simp only [List.getElem?_set] at hf hR
      by_cases hkj : j = k
      · subst hkj
        simp only [if_true, hjl, hjR] at hf hR
        cases hf; cases hR
        exact hT
      · simp only [hkj, if_false] at hf hR
        exact Held_Pending (hheld k f R hf hR)
    · intro k f hk hf
      have hk : k < s1 := hk
      simp only [List.getElem?_set] at hf
      have hkj : ¬ j = k := by omega
      simp only [hkj, if_false] at hf
      by_cases hks : k < run.startIndex
      · exact heof_low k f hks hf
      · exact heofs k f (by omega) hk hf
    · intro k h1 T1 hk
      have hkR : k < Rs.length := (List.getElem?_eq_some_iff.mp hk).1
      have hkl : k < fs1.length := by omega
      have hgk : fs1[k]? = some fs1[k] := List.getElem?_eq_getElem hkl
      have hh := hheld k _ _ hgk hk
      have hne : fs1[k].IsEOF = false := by
        by_cases he : fs1[k].IsEOF = true
        · have := Held_eof hh he
          cases this
        · simpa using he
      obtain ⟨T2, hR2, _⟩ := Held_consume hh hne
      cases hR2
      have hks : s1 ≤ k := by
        by_contra hlt
        have : fs1[k].IsEOF = true := by
          by_cases hks : k < run.startIndex
          · exact heof_low k _ hks hgk
          · exact heofs k _ (by omega) (by omega) hgk
        rw [this] at hne
        cases hne
      exact (hmin k _ hks hgk hne).1

theorem sum_length_set (Rs : List (List CompassHit)) : ∀ (j : Nat) (h : CompassHit)
    (T : List CompassHit), Rs[j]? = some (h :: T) →
    ((Rs.set j T).map List.length).sum + 1 = (Rs.map List.length).sum := by
  induction Rs with
  | nil => intro j h T hj; simp at hj
  | cons R Rs ih =>
    intro j h T hj
    cases j with
    | zero =>
      simp only [List.getElem?_cons_zero, Option.some.injEq] at hj
      subst hj
      simp only [List.set_cons_zero, List.map_cons, List.sum_cons, List.length_cons]
      omega
    | succ j =>
      simp only [List.getElem?_cons_succ] at hj
      have := ih j h T hj
      simp only [List.set_cons_succ, List.map_cons, List.sum_cons]
      omega

theorem Interleaving_mem {out : List CompassHit} {Rs : List (List CompassHit)}
    (h : Interleaving out Rs) : ∀ x ∈ out, ∃ R ∈ Rs, x ∈ R := by
  induction h with
  | done Rs _ => intro x hx; cases hx
  | take j h T out Rs hj _ ih =>
    intro x hx
    have hmem : (h :: T) ∈ Rs := List.getElem?_mem hj
    rcases List.mem_cons.mp hx with rfl | hx
    · exact ⟨_, hmem, List.mem_cons_self _ _⟩
    · obtain ⟨R, hR, hxR⟩ := ih x hx
      rcases List.mem_or_eq_of_mem_set hR with hR | rfl
      · exact ⟨R, hR, hxR⟩
      · exact ⟨_, hmem, List.mem_cons_of_mem _ hxR⟩

theorem Interleaving_length {out : List CompassHit} {Rs : List (List CompassHit)}
    (h : Interleaving out Rs) : out.length = (Rs.map List.length).sum := by
  induction h with
  | done Rs hall =>
    have : Rs.map List.length = List.replicate Rs.length 0 := by
      apply List.eq_replicate_iff.mpr
      refine ⟨by simp, ?_⟩
      intro n hn
      obtain ⟨R, hR, rfl⟩ := List.mem_map.mp hn
      rw [hall R hR]; rfl
    rw [this]; simp
  | take j h T out Rs hj _ ih =>
    have := sum_length_set Rs j h T hj
    simp only [List.length_cons, ih]
    omega

theorem Interleaving_tagged {out : List CompassHit} {Rs : List (List CompassHit)}
    (h : Interleaving out Rs) :
    ∃ tagged : List (Nat × CompassHit), tagged.map Prod.snd = out ∧
      (∀ p ∈ tagged, p.1 < Rs.length) ∧
      ∀ (i : Nat) R, Rs[i]? = some R →
        (tagged.filter (fun p => p.1 == i)).map Prod.snd = R := by
  induction h with
  | done Rs hall =>
    refine ⟨[], rfl, fun p hp => absurd hp (List.not_mem_nil p), ?_⟩
    intro i R hi
    rw [hall R (List.getElem?_mem hi)]
    rfl
  | take j h T out Rs hj _ ih =>
    obtain ⟨tagged, hmap, hlt, hfilter⟩ := ih
    have hjl : j < Rs.length := (List.getElem?_eq_some_iff.mp hj).1
    refine ⟨(j, h) :: tagged, by simp [hmap], ?_, ?_⟩
    · intro p hp
      rcases List.mem_cons.mp hp with rfl | hp
      · exact hjl
      · have := hlt p hp
        rwa [List.length_set] at this
    · intro i R hi
      by_cases hij : j = i
      · subst hij
        rw [hj] at hi
        cases hi
        have := hfilter j T (by simp [List.getElem?_set, hjl])
        simp [List.filter_cons, this]
      · have := hfilter i R (by simp [List.getElem?_set, hij, hi])
        simp [List.filter_cons, hij, this]

theorem fillLoop_spec (n : Nat) : ∀ (run : CompassRun) (Rs : List (List CompassHit)),
    MergeInv run Rs → (Rs.map List.length).sum = n →
    ∃ out last, fillLoop (n + 1) run = some (out, last) ∧ Interleaving out Rs ∧
      ((∀ R ∈ Rs, R.Pairwise (fun a b => a.timestamp ≤ b.timestamp)) →
        out.Pairwise (fun a b => a.timestamp ≤ b.timestamp)) := by
  induction n with
  | zero =>
    intro run Rs hinv hsum
    rcases GetHitsFromFiles_merge run Rs hinv with
      ⟨run1, hget, hall⟩ | ⟨run1, j, h, T, hget, hj, _, _, _⟩
    · exact ⟨[], run1, by simp [fillLoop, hget], Interleaving.done Rs hall,
        fun _ => List.Pairwise.nil⟩
    · have := sum_length_set Rs j h T hj
      omega
  | succ n ih =>
    intro run Rs hinv hsum
    rcases GetHitsFromFiles_merge run Rs hinv with
      ⟨run1, hget, hall⟩ | ⟨run1, j, h, T, hget, hj, hhit, hinv1, hmin⟩
    · exact ⟨[], run1, by simp [fillLoop, hget], Interleaving.done Rs hall,
        fun _ => List.Pairwise.nil⟩
    · have hs := sum_length_set Rs j h T hj
      obtain ⟨out, last, hfill, hint, hsorted⟩ := ih run1 (Rs.set j T) hinv1 (by omega)
      refine ⟨h :: out, last, ?_, Interleaving.take j h T out Rs hj hint, ?_⟩
      · rw [fillLoop]
        simp only [hget, hfill, hhit]
      · intro hall
        have hmem : (h :: T) ∈ Rs := List.getElem?_mem hj
        have hT : T.Pairwise (fun a b => a.timestamp ≤ b.timestamp) :=
          (List.pairwise_cons.mp (hall _ hmem)).2
        have hall1 : ∀ R ∈ Rs.set j T, R.Pairwise (fun a b => a.timestamp ≤ b.timestamp) := by
          intro R hR
          rcases List.mem_or_eq_of_mem_set hR with hR | rfl
          · exact hall R hR
          · exact hT
        have hbound : ∀ R ∈ Rs, ∀ x ∈ R, h.timestamp ≤ x.timestamp := by
          intro R hR x hx
          obtain ⟨k, hk, rfl⟩ := List.getElem_of_mem hR
          cases hRk : Rs[k] with
          | nil => rw [hRk] at hx; cases hx
          | cons h1 T1 =>
            have h1le := hmin k h1 T1 (by rw [List.getElem?_eq_getElem hk, hRk])
            rw [hRk] at hx
            rcases List.mem_cons.mp hx with rfl | hx
            · exact h1le
            · have hp := hall _ hR
              rw [hRk] at hp
              exact le_trans h1le ((List.pairwise_cons.mp hp).1 x hx)
        refine List.pairwise_cons.mpr ⟨?_, hsorted hall1⟩
        intro x hx
        obtain ⟨R, hR, hxR⟩ := Interleaving_mem hint x hx
        rcases List.mem_or_eq_of_mem_set hR with hR | rfl
        · exact hbound R hR x hxR
        · exact hbound _ hmem x (List.mem_cons_of_mem _ hxR)

theorem MergeInv_init (fs : List CompassFile) (Ls : List (List CompassHit)) (hit0 : CompassHit)
    (hlen : fs.length = Ls.length)
    (hstream : ∀ (i : Nat) f L, fs[i]? = some f → Ls[i]? = some L → Delivers f L) :
    MergeInv { m_datafiles := fs, startIndex := 0, m_hit := hit0 } Ls :=
  ⟨hlen, fun i f L hf hL => Pending_of_Delivers (hstream i f L hf hL),
    fun j _ hj _ => absurd hj (Nat.not_lt_zero j)⟩

/-- The merge of decoders that reach their end: when every decoder of the run, read to its
end, delivers hits of non-decreasing timestamp, the loop of repeated `GetHitsFromFiles` calls
from `startIndex = 0` reaches the call that returns false, and the hits it returned before are
in non-decreasing timestamp order. -/
theorem merge_sorted (fs : List CompassFile) (Ls : List (List CompassHit)) (hit0 : CompassHit)
    (hlen : fs.length = Ls.length)
    (hstream : ∀ (i : Nat) f L, fs[i]? = some f → Ls[i]? = some L → Delivers f L)
    (hsorted : ∀ L ∈ Ls, L.Pairwise (fun a b => a.timestamp ≤ b.timestamp)) :
    ∃ out last,
      fillLoop ((Ls.map List.length).sum + 1)
        { m_datafiles := fs, startIndex := 0, m_hit := hit0 } = some (out, last) ∧
      out.Pairwise (fun a b => a.timestamp ≤ b.timestamp) := by
  obtain ⟨out, last, hfill, _, hs⟩ :=
    fillLoop_spec _ _ Ls (MergeInv_init fs Ls hit0 hlen hstream) rfl
  exact ⟨out, last, hfill, hs hsorted⟩

/-- The merge of the decoders of `fileA` (timestamps 10, 200) and `fileB` (timestamps 15, 20)
with a batch size of 3: the merged order is 10, 15, 20, 200. -/
theorem merge_sorted_witness :
    create (some fileA) 3 = .ok streamA ∧ create (some fileB) 3 = .ok streamB ∧
    (match fillLoop 5 { m_datafiles := [streamA, streamB] } with
      | some (out, _) => out.map (fun h => h.timestamp) = [10, 15, 20, 200]
      | none => False) ∧
    ∃ out last,
      fillLoop 5 { m_datafiles := [streamA, streamB], startIndex := 0, m_hit := {} }
        = some (out, last) ∧
      out.Pairwise (fun a b => a.timestamp ≤ b.timestamp) :=
  ⟨rfl, rfl, rfl,
    merge_sorted [streamA, streamB]
      [[{ channel := 1, timestamp := 10 }, { channel := 1, timestamp := 200 }],
       [{ channel := 2, timestamp := 15 }, { channel := 2, timestamp := 20 }]] {} rfl
      (fun i f L hf hL => by
        match i, hf, hL with
        | 0, hf, hL => cases hf; cases hL; exact ⟨rfl, 3, rfl⟩
        | 1, hf, hL => cases hf; cases hL; exact ⟨rfl, 3, rfl⟩
        | n + 2, hf, _ => simp at hf)
      (by decide)⟩

/-- The merge of decoders that reach their end: whatever the order of the hits within each
decoder, the loop of repeated `GetHitsFromFiles` calls from `startIndex = 0` reaches the call
that returns false, and the hits it returned are an interleaving of the streams: as many as the
streams hold together, and each returned hit can be tagged with a stream so that the hits
tagged `i` are, in order, exactly the hits of stream `i`. -/
theorem merge_interleaves (fs : List CompassFile) (Ls : List (List CompassHit))
    (hit0 : CompassHit) (hlen : fs.length = Ls.length)
    (hstream : ∀ (i : Nat) f L, fs[i]? = some f → Ls[i]? = some L → Delivers f L) :
    ∃ out last,
      fillLoop ((Ls.map List.length).sum + 1)
        { m_datafiles := fs, startIndex := 0, m_hit := hit0 } = some (out, last) ∧
      out.length = (Ls.map List.length).sum ∧
      ∃ tagged : List (Nat × CompassHit), tagged.map Prod.snd = out ∧
        (∀ p ∈ tagged, p.1 < Ls.length) ∧
        ∀ (i : Nat) L, Ls[i]? = some L →
          (tagged.filter (fun p => p.1 == i)).map Prod.snd = L := by
  obtain ⟨out, last, hfill, hint, _⟩ :=
    fillLoop_spec _ _ Ls (MergeInv_init fs Ls hit0 hlen hstream) rfl
  exact ⟨out, last, hfill, Interleaving_length hint, Interleaving_tagged hint⟩

/-- The merge of the decoders of `fileC` (timestamps 44, 5, out of order) and `fileB`
(timestamps 15, 20): the loop returns 15, 20, 44, 5. -/
theorem merge_interleaves_witness :
    create (some fileC) 3 = .ok streamC ∧ create (some fileB) 3 = .ok streamB ∧
    (match fillLoop 5 { m_datafiles := [streamC, streamB] } with
      | some (out, _) => out.map (fun h => h.timestamp) = [15, 20, 44, 5]
      | none => False) ∧
    ∃ out last,
      fillLoop 5 { m_datafiles := [streamC, streamB], startIndex := 0, m_hit := {} }
        = some (out, last) ∧
      out.length = 4 ∧
      ∃ tagged : List (Nat × CompassHit), tagged.map Prod.snd = out ∧
        (∀ p ∈ tagged, p.1 < 2) ∧
        ∀ (i : Nat) L,
          [[({ channel := 3, timestamp := 44 } : CompassHit), { channel := 3, timestamp := 5 }],
           [{ channel := 2, timestamp := 15 }, { channel := 2, timestamp := 20 }]][i]? = some L →
          (tagged.filter (fun p => p.1 == i)).map Prod.snd = L :=
  ⟨rfl, rfl, rfl,
    merge_interleaves [streamC, streamB]
      [[{ channel := 3, timestamp := 44 }, { channel := 3, timestamp := 5 }],
       [{ channel := 2, timestamp := 15 }, { channel := 2, timestamp := 20 }]] {} rfl
      (fun i f L hf hL => by
        match i, hf, hL with
        | 0, hf, hL => cases hf; cases hL; exact ⟨rfl, 3, rfl⟩
        | 1, hf, hL => cases hf; cases hL; exact ⟨rfl, 3, rfl⟩
        | n + 2, hf, _ => simp at hf)⟩

theorem fillLoop_none_of_mergeCalls (k : Nat) : ∀ (run : CompassRun) (x : Fault)
    (out : List (Bool × CompassHit)), mergeCalls k run = .ok out →
    (∀ r ∈ out, r.1 = true) → mergeCalls (k + 1) run = .error x →
    ∀ fuel, fillLoop fuel run = none := by
  induction k with
  | zero =>
    intro run x out _ _ h1 fuel
    cases fuel with
    | zero => rfl
    | succ fuel =>
      simp only [mergeCalls] at h1
      rcases hg : run.GetHitsFromFiles with e | r
      · simp only [fillLoop, hg]
      · rw [hg] at h1
        cases h1
  | succ k ih =>
    intro run x out h0 hall h1 fuel
    cases fuel with
    | zero => rfl
    | succ fuel =>
      rw [mergeCalls] at h0 h1
      rcases hg : run.GetHitsFromFiles with e | ⟨run1, b⟩
      · simp only [fillLoop, hg]
      · rw [hg] at h0 h1
        simp only [] at h0 h1
        rcases hm : mergeCalls k run1 with e | rest
        · rw [hm] at h0; cases h0
        · rw [hm] at h0
          simp only [Except.ok.injEq] at h0
          subst h0
          have hb : b = true := hall (b, run1.m_hit) (List.mem_cons_self _ _)
          subst hb
          rcases hm1 : mergeCalls (k + 1) run1 with e | rest1
          · rw [hm1] at h1
            simp only [Except.error.injEq] at h1
            have := ih run1 e rest hm
              (fun r hr => hall r (List.mem_cons_of_mem _ hr)) hm1 fuel
            simp only [fillLoop, hg, this]
          · rw [hm1] at h1; cases h1

/-- C1, the code at the failing input: the decoders of `fileThree` (timestamps 10, 20, 30) and
`fileB` (timestamps 15, 20), both in non-decreasing order, read with a batch size of 3. The
three records of `fileThree` fill one batch exactly, so its decoder never reports the end of
the file and decodes its buffer a second time: the calls of `GetHitsFromFiles` return the
timestamps 10, 15, 20, 20, 30, 10, 20, 30, which are not in non-decreasing order, the ninth
call reads outside the hit buffer, and the loop never reaches a call that returns false. -/
theorem merge_ghost_hits_unsorted :
    create (some fileThree) 3 = .ok streamThree ∧ create (some fileB) 3 = .ok streamB ∧
    mergeCalls 8 { m_datafiles := [streamThree, streamB] } =
      .ok [(true, { channel := 1, timestamp := 10 }), (true, { channel := 2, timestamp := 15 }),
           (true, { channel := 1, timestamp := 20 }), (true, { channel := 2, timestamp := 20 }),
           (true, { channel := 1, timestamp := 30 }), (true, { channel := 1, timestamp := 10 }),
           (true, { channel := 1, timestamp := 20 }), (true, { channel := 1, timestamp := 30 })] ∧
    ¬ [10, 15, 20, 20, 30, 10, 20, 30].Pairwise (fun a b : Nat => a ≤ b) ∧
    mergeCalls 9 { m_datafiles := [streamThree, streamB] } = .error .bufferOverrun ∧
    ∀ fuel, fillLoop fuel { m_datafiles := [streamThree, streamB] } = none :=
  ⟨by rfl, by rfl, by rfl, by decide, by rfl,
    fillLoop_none_of_mergeCalls 8 _ .bufferOverrun _ (by rfl) (by decide) (by rfl)⟩

/-- C2, the code at the failing input: the decoder of `fileOne`, one record of timestamp 10,
read with a batch size of 1. The record fills the batch exactly, so the decoder does not report
the end of the file after it: two calls of `GetHitsFromFiles` return true and hand out the one
record of the stream twice, the third call reads outside the hit buffer, and the loop never
reaches a call that returns false. -/
theorem merge_ghost_hit_twice :
    create (some fileOne) 1 = .ok streamOne ∧
    mergeCalls 2 { m_datafiles := [streamOne] } =
      .ok [(true, { channel := 1, timestamp := 10 }), (true, { channel := 1, timestamp := 10 })] ∧
    mergeCalls 3 { m_datafiles := [streamOne] } = .error .bufferOverrun ∧
    ∀ fuel, fillLoop fuel { m_datafiles := [streamOne] } = none :=
  ⟨by rfl, by rfl, by rfl,
    fillLoop_none_of_mergeCalls 2 _ .bufferOverrun _ (by rfl) (by decide) (by rfl)⟩

/-- C6: when the scan of `GetHitsFromFiles` leaves some stream at or above `startIndex` that is
not at end of file, the call returns true with the current hit of a stream `j` whose timestamp
is the least among those streams, and every such stream with the same timestamp has an index
`k ≥ j`: among equal timestamps the lowest index wins. -/
theorem GetHitsFromFiles_tie_break (run : CompassRun)
    (hadv : ∀ j f, run.startIndex ≤ j → run.m_datafiles[j]? = some f →
      ∃ f1, advanceIfUsed f = .ok f1)
    (hsome : ∃ j f g, run.startIndex ≤ j ∧ run.m_datafiles[j]? = some f ∧
      advanceIfUsed f = .ok g ∧ g.IsEOF = false) :
    ∃ run1 j fj gj, run.GetHitsFromFiles = .ok (run1, true) ∧ run.startIndex ≤ j ∧
      run.m_datafiles[j]? = some fj ∧ advanceIfUsed fj = .ok gj ∧ gj.IsEOF = false ∧
      run1.m_hit = gj.GetCurrentHit ∧
      run1.m_datafiles[j]? = some gj.SetHitHasBeenUsed ∧
      ∀ k fk gk, run.startIndex ≤ k → run.m_datafiles[k]? = some fk →
        advanceIfUsed fk = .ok gk → gk.IsEOF = false →
        gj.GetCurrentHit.timestamp ≤ gk.GetCurrentHit.timestamp ∧
        (gk.GetCurrentHit.timestamp = gj.GetCurrentHit.timestamp → j ≤ k) := by
  obtain ⟨fs1, s1, e1, _, hlen, _, hhigh, hs0, hcase⟩ := GetHitsFromFiles_scan run hadv
  have hpost : ∀ k fk gk, run.startIndex ≤ k → run.m_datafiles[k]? = some fk →
      advanceIfUsed fk = .ok gk → fs1[k]? = some gk := by
    intro k fk gk hk hfk hgk
    obtain ⟨g1, hg1, hfs⟩ := hhigh k fk hk hfk
    rw [hgk] at hg1
    cases hg1
    exact hfs
  rcases hcase with ⟨_, heofs, _⟩ | ⟨j, g, _, hg, hgeof, hsj, heofs, hmin, hget⟩
  · obtain ⟨j, f, g, hj, hf, hfg, hgeof⟩ := hsome
    have := heofs j g hj (hpost j f g hj hf hfg)
    rw [this] at hgeof
    cases hgeof
  · have hjl : j < run.m_datafiles.length := by
      rw [← hlen]; exact (List.getElem?_eq_some_iff.mp hg).1
    have hfj : run.m_datafiles[j]? = some run.m_datafiles[j] := List.getElem?_eq_getElem hjl
    obtain ⟨g1, hg1, hfs⟩ := hhigh j _ (by omega) hfj
    rw [hg] at hfs
    cases hfs
    refine ⟨_, j, _, g, hget, by omega, hfj, hg1, hgeof, rfl, ?_, ?_⟩
    · have : j < fs1.length := by omega
      simp [List.getElem?_set, this]
    · intro k fk gk hk hfk hgk hgkeof
      have hfsk := hpost k fk gk hk hfk hgk
      have hks : s1 ≤ k := by
        by_contra hlt
        have := heofs k gk hk (by omega) hfsk
        rw [this] at hgkeof
        cases hgkeof
      have := hmin k gk hks hfsk hgkeof
      unfold CompassFile.ts at this
      exact ⟨this.1, fun heq => by
        by_contra hlt
        have := this.2 (by omega)
        omega⟩

/-- C6 on the run over `streamB`, `streamA`, `streamD` (first timestamps 15, 10, 10): the hit
of channel 1 from `streamA`, index 1, is returned, not the hit of channel 4 from `streamD`. -/
theorem GetHitsFromFiles_tie_break_witness :
    (match GetHitsFromFiles { m_datafiles := [streamB, streamA, streamD] } with
      | .ok (run1, b) => b = true ∧ run1.m_hit = { channel := 1, timestamp := 10 }
      | .error _ => False) ∧
    ∃ run1 j fj gj,
      GetHitsFromFiles { m_datafiles := [streamB, streamA, streamD] } = .ok (run1, true) ∧
      0 ≤ j ∧ [streamB, streamA, streamD][j]? = some fj ∧ advanceIfUsed fj = .ok gj ∧
      gj.IsEOF = false ∧ run1.m_hit = gj.GetCurrentHit ∧
      run1.m_datafiles[j]? = some gj.SetHitHasBeenUsed ∧
      ∀ k fk gk, 0 ≤ k → [streamB, streamA, streamD][k]? = some fk →
        advanceIfUsed fk = .ok gk → gk.IsEOF = false →
        gj.GetCurrentHit.timestamp ≤ gk.GetCurrentHit.timestamp ∧
        (gk.GetCurrentHit.timestamp = gj.GetCurrentHit.timestamp → j ≤ k) :=
  ⟨⟨rfl, rfl⟩,
    GetHitsFromFiles_tie_break { m_datafiles := [streamB, streamA, streamD] }
      (fun j f _ hf => by
        match j, hf with
        | 0, hf => cases hf; exact ⟨_, rfl⟩
        | 1, hf => cases hf; exact ⟨_, rfl⟩
        | 2, hf => cases hf; exact ⟨_, rfl⟩
        | n + 3, hf => simp at hf)
      ⟨0, streamB, _, le_refl _, rfl, rfl, rfl⟩⟩

/-- C7: `GetHitsFromFiles` returns false exactly when the scan leaves every stream at or above
`startIndex` at end of file, and then `m_hit` and the streams are as the scan left them;
otherwise it returns true, `m_hit` is the current hit of the selected stream `j`, that stream is
marked used with its current hit kept, and every other stream is as the scan left it. -/
theorem GetHitsFromFiles_result (run : CompassRun)
    (hadv : ∀ j f, run.startIndex ≤ j → run.m_datafiles[j]? = some f →
      ∃ f1, advanceIfUsed f = .ok f1) :
    ∃ fs1 s1 e1 run1 b,
      scan run.m_datafiles.length run.startIndex run.m_datafiles run.startIndex none
        = .ok (fs1, s1, e1) ∧
      run.GetHitsFromFiles = .ok (run1, b) ∧
      (b = false ↔ ∀ j g, run.startIndex ≤ j → fs1[j]? = some g → g.IsEOF = true) ∧
      (b = false → run1.m_datafiles = fs1 ∧ run1.m_hit = run.m_hit) ∧
      (b = true → ∃ j g, e1 = some j ∧ run.startIndex ≤ j ∧ fs1[j]? = some g ∧
        g.IsEOF = false ∧ run1.m_hit = g.GetCurrentHit ∧
        run1.m_datafiles[j]? = some g.SetHitHasBeenUsed ∧
        g.SetHitHasBeenUsed.CheckHitHasBeenUsed = true ∧
        g.SetHitHasBeenUsed.GetCurrentHit = g.GetCurrentHit ∧
        ∀ k, k ≠ j → run1.m_datafiles[k]? = fs1[k]?) := by
  obtain ⟨fs1, s1, e1, hscan, _, _, _, hs0, hcase⟩ := GetHitsFromFiles_scan run hadv
  rcases hcase with ⟨_, heofs, hget⟩ | ⟨j, g, he, hg, hgeof, hsj, _, _, hget⟩
  · refine ⟨fs1, s1, e1, _, false, hscan, hget, ?_, ?_, ?_⟩
    · exact Iff.intro (fun _ => heofs) (fun _ => rfl)
    · intro _
      exact And.intro rfl rfl
    · intro h
      cases h
  · refine ⟨fs1, s1, e1, _, true, hscan, hget, ?_, ?_, ?_⟩
    · refine Iff.intro (fun h => by cases h) (fun hall => ?_)
      have := hall j g (by omega) hg
      rw [this] at hgeof
      cases hgeof
    · intro h
      cases h
    · intro _
      refine ⟨j, g, he, by omega, hg, hgeof, rfl, ?_, rfl, rfl, ?_⟩
      · have : j < fs1.length := (List.getElem?_eq_some_iff.mp hg).1
        simp [List.getElem?_set, this]
      · intro k hk
        simp [List.getElem?_set, Ne.symm hk]

/-- C7 on the run over `streamA` and `streamB`: the first call returns true with the hit of
timestamp 10 from `streamA`. -/
theorem GetHitsFromFiles_result_witness :
    (match GetHitsFromFiles { m_datafiles := [streamA, streamB] } with
      | .ok (run1, b) => b = true ∧ run1.m_hit = { channel := 1, timestamp := 10 }
      | .error _ => False) ∧
    ∃ fs1 s1 e1 run1 b,
      scan 2 0 [streamA, streamB] 0 none = .ok (fs1, s1, e1) ∧
      GetHitsFromFiles { m_datafiles := [streamA, streamB] } = .ok (run1, b) ∧
      (b = false ↔ ∀ j g, 0 ≤ j → fs1[j]? = some g → g.IsEOF = true) ∧
      (b = false → run1.m_datafiles = fs1 ∧ run1.m_hit = {}) ∧
      (b = true → ∃ j g, e1 = some j ∧ 0 ≤ j ∧ fs1[j]? = some g ∧
        g.IsEOF = false ∧ run1.m_hit = g.GetCurrentHit ∧
        run1.m_datafiles[j]? = some g.SetHitHasBeenUsed ∧
        g.SetHitHasBeenUsed.CheckHitHasBeenUsed = true ∧
        g.SetHitHasBeenUsed.GetCurrentHit = g.GetCurrentHit ∧
        ∀ k, k ≠ j → run1.m_datafiles[k]? = fs1[k]?) :=
  ⟨⟨rfl, rfl⟩,
    GetHitsFromFiles_result { m_datafiles := [streamA, streamB] }
      (fun j f _ hf => by
        match j, hf with
        | 0, hf => cases hf; exact ⟨_, rfl⟩
        | 1, hf => cases hf; exact ⟨_, rfl⟩
        | n + 2, hf => simp at hf)⟩

/-- C10 as amended: `GetNextHit` does not consult the used flag (whatever the flag, it returns
the same result and leaves the same current hit and cursor), and at end of file it changes
nothing and returns true. The guard is in `GetHitsFromFiles`, which calls `GetNextHit` only on
streams whose hit has been used: a stream whose current hit has not been used comes out of a
`GetHitsFromFiles` call unchanged, or marked used with its current hit returned in `m_hit`. -/
theorem GetNextHit_guard (run : CompassRun)
    (hadv : ∀ j f, run.startIndex ≤ j → run.m_datafiles[j]? = some f →
      ∃ f1, advanceIfUsed f = .ok f1) :
    (∀ (f : CompassFile) (b : Bool),
      match f.GetNextHit with
      | .error e => GetNextHit { f with m_hitUsedFlag := b } = .error e
      | .ok (g, r) => ∃ g1, GetNextHit { f with m_hitUsedFlag := b } = .ok (g1, r) ∧
          g1.GetCurrentHit = g.GetCurrentHit ∧ g1.m_bufferIter = g.m_bufferIter) ∧
    (∀ f : CompassFile, f.IsEOF = true → f.GetNextHit = .ok (f, true)) ∧
    ∃ run1 b, run.GetHitsFromFiles = .ok (run1, b) ∧
      ∀ (j : Nat) f, run.m_datafiles[j]? = some f → f.CheckHitHasBeenUsed = false →
        run1.m_datafiles[j]? = some f ∨
        (run1.m_datafiles[j]? = some f.SetHitHasBeenUsed ∧ run1.m_hit = f.GetCurrentHit) := by
  refine ⟨?_, GetNextHit_of_eof, ?_⟩
  · intro f b
    have h := GetNextHit_usedFlag f b
    rcases hf : f.GetNextHit with e | ⟨g, r⟩
    · rw [hf] at h
      exact h
    · rw [hf] at h
      obtain ⟨g1, hg1, _, hcur, hor⟩ := h
      refine ⟨g1, hg1, hcur, ?_⟩
      rcases hor with h1 | h1 <;> rw [h1]
  · obtain ⟨fs1, s1, e1, _, hlen, hlow, hhigh, hs0, hcase⟩ := GetHitsFromFiles_scan run hadv
    have hkeep : ∀ (j : Nat) f, run.m_datafiles[j]? = some f → f.CheckHitHasBeenUsed = false →
        fs1[j]? = some f := by
      intro j f hf hu
      by_cases hj : j < run.startIndex
      · rw [hlow j hj]; exact hf
      · obtain ⟨f1, hf1, hfs⟩ := hhigh j f (by omega) hf
        simp only [advanceIfUsed, hu, Bool.false_eq_true, if_false] at hf1
        cases hf1
        exact hfs
    rcases hcase with ⟨_, _, hget⟩ | ⟨j0, g, _, hg, _, _, _, _, hget⟩
    · exact ⟨_, false, hget, fun j f hf hu => Or.inl (hkeep j f hf hu)⟩
    · refine ⟨_, true, hget, fun j f hf hu => ?_⟩
      have hfs := hkeep j f hf hu
      by_cases hj : j0 = j
      · subst hj
        rw [hg] at hfs
        cases hfs
        have : j0 < fs1.length := (List.getElem?_eq_some_iff.mp hg).1
        exact Or.inr ⟨by simp [List.getElem?_set, this], rfl⟩
      · exact Or.inl (by simp [List.getElem?_set, hj, hfs])

theorem advanceIfUsed_of_isOk {f : CompassFile} (h : (advanceIfUsed f).isOk = true) :
    ∃ f1, advanceIfUsed f = .ok f1 := by
  rcases hf : advanceIfUsed f with e | g
  · rw [hf] at h; cases h
  · exact ⟨g, rfl⟩

/-- C10 as amended on `runAfterFirstHit`: `streamB` holds its first hit, timestamp 15, unused,
and the second `GetHitsFromFiles` call returns that very hit. -/
theorem GetNextHit_guard_witness :
    (match GetHitsFromFiles runAfterFirstHit with
      | .ok (run1, b) => b = true ∧ run1.m_hit = { channel := 2, timestamp := 15 }
      | .error _ => False) ∧
    ∃ run1 b, runAfterFirstHit.GetHitsFromFiles = .ok (run1, b) ∧
      ∀ (j : Nat) f, runAfterFirstHit.m_datafiles[j]? = some f →
        f.CheckHitHasBeenUsed = false →
        run1.m_datafiles[j]? = some f ∨
        (run1.m_datafiles[j]? = some f.SetHitHasBeenUsed ∧ run1.m_hit = f.GetCurrentHit) :=
  ⟨⟨rfl, rfl⟩,
    (GetNextHit_guard runAfterFirstHit
      (fun j f _ hf => advanceIfUsed_of_isOk
        ((by decide : ∀ f ∈ runAfterFirstHit.m_datafiles, (advanceIfUsed f).isOk = true) f
          (List.getElem?_mem hf)))).2.2⟩

/-! ## Truncated, exhausted and unreadable files -/

/-- C11, the code at the failing input: on `fileTrailing`, the header, one complete record of 16
bytes and 14 bytes of a second one, read with a batch size of 3, the second `GetNextHit` call
returns false with a hit decoded from the 14 trailing bytes and 2 bytes of the zeroed buffer,
the third returns false with a hit decoded from the zeroed buffer alone, the cursor (32, then
48) having stepped over the end of the batch (30) that it is compared to for equality; the
end-of-file flag is still clear, and the fourth call reads outside the buffer. -/
theorem GetNextHit_trailing_record :
    ∃ f last, fileTrailing.length = 2 + 16 * 1 + 14 ∧ create (some fileTrailing) 3 = .ok f ∧
      f.m_hitsize = 16 ∧
      f.callsGetNextHit 3 = .ok ([(false, { channel := 1, timestamp := 10 }),
                                  (false, { channel := 1, timestamp := 200 }),
                                  (false, {})], last) ∧
      last.m_bufferIter = some 48 ∧ last.m_bufferEnd = some 30 ∧ last.IsEOF = false ∧
      f.callsGetNextHit 4 = .error .bufferOverrun :=
  ⟨_, _, rfl, rfl, rfl, rfl, rfl, rfl, rfl, rfl⟩

/-- C12, the code at the failing input: on `fileOne`, one record read with a batch size of 1,
the first `GetNextHit` call reads the whole record without meeting the end of the file; in the
second call `GetNextBuffer` finds `eof()` false, reads zero bytes and leaves the end-of-file
flag clear, so that this call decodes the old buffer, returns false and leaves the flag
clear. -/
theorem GetNextBuffer_zero_bytes :
    ∃ f f1 f2, create (some fileOne) 1 = .ok f ∧ f.GetNextHit = .ok (f1, false) ∧
      f1.m_bufferIter = f1.m_bufferEnd ∧ f1.m_file.eof = false ∧
      f1.GetNextBuffer.m_file.gcount = 0 ∧ f1.GetNextBuffer.IsEOF = false ∧
      f1.GetNextHit = .ok (f2, false) ∧ f2.IsEOF = false ∧
      f2.GetCurrentHit = { channel := 1, timestamp := 10 } ∧ f2.m_bufferIter = some 16 ∧
      f2.m_bufferEnd = some 0 :=
  ⟨_, _, _, rfl, rfl, rfl, rfl, rfl, rfl, rfl, rfl, rfl, rfl, rfl⟩

/-- C14, the code at the failing input: the constructor on a path that cannot be opened, whatever
the batch size, reaches the division `m_size / m_hitsize` with a record size of 0; and a decoder
with the members as `Open` has set them by then is not open, returns true from `GetNextHit`,
and reports `IsEOF()` false. -/
theorem Open_unopenable_divides_by_zero (bsize : Nat) :
    create none bsize = .error .divByZero ∧
    ReadHeader { m_bufsize := bsize, m_file := { failbit := true }, m_size := -1 } =
      .ok { m_bufsize := bsize, m_file := { failbit := true }, m_size := -1 } ∧
    ({ m_bufsize := bsize, m_file := { failbit := true }, m_size := -1 } : CompassFile).m_hitsize
      = 0 ∧
    ({ m_bufsize := bsize, m_file := { failbit := true }, m_size := -1 } : CompassFile).IsOpen
      = false ∧
    GetNextHit { m_bufsize := bsize, m_file := { failbit := true }, m_size := -1 } =
      .ok ({ m_bufsize := bsize, m_file := { failbit := true }, m_size := -1 }, true) ∧
    ({ m_bufsize := bsize, m_file := { failbit := true }, m_size := -1 } : CompassFile).IsEOF
      = false :=
  ⟨rfl, rfl, rfl, rfl, rfl, rfl⟩

theorem ReadHeader_noWaves (f : CompassFile) (b0 b1 : Byte) (rest : List Byte)
    (hopen : f.IsOpen = true) (heof : f.m_file.eofbit = false) (hfail : f.m_file.failbit = false)
    (hdata : f.m_file.content.drop f.m_file.pos = b0 :: b1 :: rest)
    (hwaves : (b0.val + 256 * b1.val) &&& headerWaves = 0) :
    f.ReadHeader = .ok { f with
      m_file := { f.m_file with pos := f.m_file.pos + 2, gcount := 2 }
      m_header := b0.val + 256 * b1.val
      m_hitsize := 16 + (if (b0.val + 256 * b1.val) &&& headerEnergy = 0 then 0 else 2)
        + (if (b0.val + 256 * b1.val) &&& headerEnergyCalibrated = 0 then 0 else 8)
        + (if (b0.val + 256 * b1.val) &&& headerEnergyShort = 0 then 0 else 2) } := by
  have hread : f.m_file.read 2 =
      ({ f.m_file with pos := f.m_file.pos + 2, gcount := 2 }, [b0, b1]) := by
    simp [IFStream.read, heof, hfail, hdata]
  simp only [ReadHeader, hopen, hread]
  simp [leDecode, IsEnergy, IsEnergyCalibrated, IsEnergyShort, IsWaves, hwaves]
  split <;> split <;> split <;> simp_all
theorem Open_noWaves (f0 : CompassFile) (b0 b1 b2 : Byte) (rest : List Byte)
    (hclosed : f0.m_file.is_open = false)
    (hwaves : (b0.val + 256 * b1.val) &&& headerWaves = 0) :
    ∃ h, 16 ≤ h ∧ h ≤ 28 ∧
      f0.Open (some (b0 :: b1 :: b2 :: rest)) = .ok
        { f0 with
          m_eofFlag := false, m_hitUsedFlag := true
          m_nHits := Int.tdiv ((rest.length + 3 : Nat) : Int) (h : Int)
          m_size := ((rest.length + 3 : Nat) : Int)
          m_header := b0.val + 256 * b1.val
          m_hitsize := h
          m_buffersize := h * f0.m_bufsize
          m_hitBuffer := f0.m_hitBuffer.take (h * f0.m_bufsize) ++
            List.replicate (h * f0.m_bufsize - f0.m_hitBuffer.length) 0
          m_file := { f0.m_file with
            content := b0 :: b1 :: b2 :: rest, is_open := true, pos := 2, eofbit := false
            failbit := false, gcount := 2 } } := by
  have hne : ¬ ((rest.length : Int) + 1 + 1 + 1 = 2) := by omega
  refine ⟨16 + (if (b0.val + 256 * b1.val) &&& headerEnergy = 0 then 0 else 2)
        + (if (b0.val + 256 * b1.val) &&& headerEnergyCalibrated = 0 then 0 else 8)
        + (if (b0.val + 256 * b1.val) &&& headerEnergyShort = 0 then 0 else 2), by omega,
        by split <;> split <;> split <;> omega, ?_⟩
  simp only [Open, IFStream.openFile, hclosed, IFStream.seekgEnd, IFStream.tellg,
    IFStream.seekgBeg]
  simp only [Bool.false_eq_true, ↓reduceIte, List.length_cons, Nat.cast_add, Nat.cast_one, hne]
  rw [ReadHeader_noWaves _ b0 b1 (b2 :: rest) (by rfl) (by rfl) (by rfl) (by rfl) hwaves]
  simp only []
  rw [if_neg (by omega)]
  have e : (rest.length : Int) + 1 + 1 + 1 = (rest.length : Int) + 3 := by omega
  simp [e]

/-- C15 fails on `fileTrailing`, whose record region of 30 bytes is not a multiple of the record
size 16: the constructor returns a decoder that is open and not at end of file, and the first
`GetNextHit` call yields a hit. -/
theorem Open_accepts_ragged_file :
    ∃ f f1, create (some fileTrailing) 3 = .ok f ∧ f.m_hitsize = 16 ∧
      (fileTrailing.length - 2) % f.m_hitsize = 14 ∧ f.IsOpen = true ∧ f.IsEOF = false ∧
      f.GetNextHit = .ok (f1, false) ∧
      f1.GetCurrentHit = { channel := 1, timestamp := 10 } :=
  ⟨_, _, rfl, rfl, rfl, rfl, rfl, rfl, rfl⟩

/-- C15 as amended: `Open` checks nothing about the record size. On a decoder that is not open
yet and a file of 3 bytes or more whose header word has the waveform bit clear, whatever the
length of its record region, `Open` returns with the decoder open and not at end of file, a
record size between 16 and 28, the hit count `file size / record size` rounded down, a buffer
of `m_bufsize` records and the read position behind the header. -/
theorem Open_no_validation (f0 : CompassFile) (b0 b1 b2 : Byte) (rest : List Byte)
    (hclosed : f0.m_file.is_open = false)
    (hwaves : (b0.val + 256 * b1.val) &&& headerWaves = 0) :
    ∃ f, f0.Open (some (b0 :: b1 :: b2 :: rest)) = .ok f ∧ f.IsOpen = true ∧ f.IsEOF = false ∧
      f.m_header = b0.val + 256 * b1.val ∧ 16 ≤ f.m_hitsize ∧ f.m_hitsize ≤ 28 ∧
      f.GetNumberOfHits = (((rest.length + 3) / f.m_hitsize : Nat) : Int) ∧
      f.m_buffersize = f.m_hitsize * f0.m_bufsize ∧
      f.m_hitBuffer.length = f.m_hitsize * f0.m_bufsize ∧
      f.m_file.pos = 2 ∧ f.CheckHitHasBeenUsed = true := by
  obtain ⟨h, h16, h28, hO⟩ := Open_noWaves f0 b0 b1 b2 rest hclosed hwaves
  refine ⟨_, hO, rfl, rfl, rfl, h16, h28, ?_, rfl, ?_, rfl, rfl⟩
  · show Int.tdiv ((rest.length + 3 : Nat) : Int) (h : Int) = (((rest.length + 3) / h : Nat) : Int)
    rw [Int.tdiv_eq_ediv (Int.ofNat_nonneg _) (Int.ofNat_nonneg _)]
    norm_cast
  · simp [List.length_take]
    omega

/-- C15 as amended on `fileTrailing`: the constructor with a batch size of 3 succeeds on the
ragged file. -/
theorem Open_no_validation_witness :
    (({ m_bufsize := 3 } : CompassFile).m_file.is_open = false ∧
      ((0 : Byte).val + 256 * (0 : Byte).val) &&& headerWaves = 0) ∧
    ∃ f, create (some fileTrailing) 3 = .ok f ∧ f.IsOpen = true ∧ f.IsEOF = false ∧
      f.m_header = (0 : Byte).val + 256 * (0 : Byte).val ∧ 16 ≤ f.m_hitsize ∧ f.m_hitsize ≤ 28 ∧
      f.GetNumberOfHits = (((29 + 3) / f.m_hitsize : Nat) : Int) ∧
      f.m_buffersize = f.m_hitsize * 3 ∧ f.m_hitBuffer.length = f.m_hitsize * 3 ∧
      f.m_file.pos = 2 ∧ f.CheckHitHasBeenUsed = true :=
  ⟨⟨rfl, by decide⟩,
    Open_no_validation { m_bufsize := 3 } 0 0 0
      [0, 1, 0, 10, 0, 0, 0, 0, 0, 0, 0, 0, 0, 0, 0, 0, 0, 1, 0, 200, 0, 0, 0, 0, 0, 0, 0, 0, 0]
      rfl (by decide)⟩

theorem read_snd (s : IFStream) (n : Nat) (heof : s.eofbit = false)
    (hfail : s.failbit = false) : (s.read n).2 = (s.content.drop s.pos).take n := by
  unfold IFStream.read
  simp only [heof, hfail, Bool.or_self, Bool.false_eq_true, if_false]
  split <;> rfl

theorem ReadHeader_waves_fault (f : CompassFile) (b0 b1 : Byte) (rest : List Byte)
    (hopen : f.IsOpen = true) (heof : f.m_file.eofbit = false) (hfail : f.m_file.failbit = false)
    (hdata : f.m_file.content.drop f.m_file.pos = b0 :: b1 :: rest)
    (hwaves : (b0.val + 256 * b1.val) &&& headerWaves ≠ 0) :
    f.ReadHeader =
      if rest.length < recordWidth { f with m_header := b0.val + 256 * b1.val } + 5 then
        .error .uninitRead
      else .error .invalidDelete := by
  rcases f with ⟨hb, bi, be, sm, hu, bs, hs, hd, bsz, ch,
    ⟨content, is_open, pos, eofbit, failbit, gcount⟩, ef, sz, nh⟩
  simp only [CompassFile.IsOpen] at hopen heof hfail hdata
  subst hopen heof hfail
  have hdata2 : content.drop (pos + 2) = rest := by
    have := congrArg (List.drop 2) hdata
    simpa [List.drop_drop, Nat.add_comm] using this
  have hread : IFStream.read ⟨content, true, pos, false, false, gcount⟩ 2 =
      (⟨content, true, pos + 2, false, false, 2⟩, [b0, b1]) := by
    simp [IFStream.read, hdata]
  have hsnd : ∀ n, (IFStream.read ⟨content, true, pos + 2, false, false, 2⟩ n).2
      = rest.take n := by
    intro n
    rw [read_snd _ _ rfl rfl]
    simp only [hdata2]
  simp only [ReadHeader, CompassFile.IsOpen, hread, hsnd, List.length_take]
  simp only [leDecode, IsEnergy, IsEnergyCalibrated, IsEnergyShort, IsWaves, recordWidth]
  by_cases h1 : (b0.val + 256 * b1.val) &&& headerEnergy = 0 <;>
    by_cases h2 : (b0.val + 256 * b1.val) &&& headerEnergyCalibrated = 0 <;>
    by_cases h3 : (b0.val + 256 * b1.val) &&& headerEnergyShort = 0 <;>
    simp [h1, h2, h3, hwaves, hsnd, List.length_take]

/-- C13, the code on a waveform file: on an open stream holding a header word `b0 + 256*b1`
with the waveform bit set, `ReadHeader` sets no record size, for it never returns. When the
file holds the fixed part of a first record (16 bytes, the optional fields of the header and the
5 bytes of waveform code and sample count), the call ends in `delete[]` on the pointer it moved
to the sample count; when the file is shorter, it takes the sample count from bytes that were
not read. -/
theorem ReadHeader_waves_invalid_delete (f : CompassFile) (b0 b1 : Byte) (rest : List Byte)
    (hopen : f.IsOpen = true) (heof : f.m_file.eofbit = false) (hfail : f.m_file.failbit = false)
    (hdata : f.m_file.content.drop f.m_file.pos = b0 :: b1 :: rest)
    (hwaves : (b0.val + 256 * b1.val) &&& headerWaves ≠ 0) :
    (∀ f1, f.ReadHeader ≠ .ok f1) ∧
    (recordWidth { f with m_header := b0.val + 256 * b1.val } + 5 ≤ rest.length →
      f.ReadHeader = .error .invalidDelete) ∧
    (rest.length < recordWidth { f with m_header := b0.val + 256 * b1.val } + 5 →
      f.ReadHeader = .error .uninitRead) := by
  have key := ReadHeader_waves_fault f b0 b1 rest hopen heof hfail hdata hwaves
  refine ⟨fun f1 h => ?_, fun hlen => ?_, fun hlen => ?_⟩
  · rw [key] at h
    split at h <;> cases h
  · rw [key, if_neg (by omega)]
  · rw [key, if_pos hlen]

/-- C13 on `fileWaves`, a file with the waveform flag and one complete record: `ReadHeader`
ends in `delete[]` on the moved pointer, and so does the constructor that calls it. -/
theorem ReadHeader_waves_invalid_delete_witness :
    ReadHeader { m_file := { content := fileWaves, is_open := true } } = .error .invalidDelete ∧
    create (some fileWaves) 1 = .error .invalidDelete :=
  ⟨(ReadHeader_waves_invalid_delete { m_file := { content := fileWaves, is_open := true } } 8 0
      [0, 0, 1, 0, 10, 0, 0, 0, 0, 0, 0, 0, 0, 0, 0, 0, 0, 2, 0, 0, 0, 7, 0, 9, 0]
      rfl rfl rfl rfl (by decide)).2.1 (by decide),
    by rfl⟩

/-! ## Opening the data files -/

theorem scan_past_end (n i : Nat) (fs : List CompassFile) (s : Nat) (e : Option Nat)
    (h : fs.length ≤ i) : scan n i fs s e = .ok (fs, s, e) := by
  cases n with
  | zero => rfl
  | succ n => simp [scan, List.getElem?_eq_none_iff.mpr h]

theorem scan_some_ne_none (n : Nat) : ∀ (i : Nat) (fs : List CompassFile) (s e0 : Nat)
    (fs1 : List CompassFile) (s1 : Nat) (e1 : Option Nat),
    scan n i fs s (some e0) = .ok (fs1, s1, e1) → e1 ≠ none := by
  induction n with
  | zero =>
    intro i fs s e0 fs1 s1 e1 h
    simp only [scan, Except.ok.injEq, Prod.mk.injEq] at h
    rw [← h.2.2]; simp
  | succ n ih =>
    intro i fs s e0 fs1 s1 e1 h
    rw [scan] at h
    rcases hfi : fs[i]? with _ | f
    · rw [hfi] at h
      simp only [Except.ok.injEq, Prod.mk.injEq] at h
      rw [← h.2.2]; simp
    · rw [hfi] at h
      simp only [] at h
      rcases ha : advanceIfUsed f with e | f1
      · rw [ha] at h; cases h
      · rw [ha] at h
        simp only [] at h
        split at h
        · split at h
          · exact ih _ _ _ _ _ _ _ h
          · exact ih _ _ _ _ _ _ _ h
        · split at h
          · exact ih _ _ _ _ _ _ _ h
          · split at h
            · cases h
            · split at h
              · exact ih _ _ _ _ _ _ _ h
              · exact ih _ _ _ _ _ _ _ h

theorem scan_none_end (n : Nat) : ∀ (i : Nat) (fs : List CompassFile)
    (fs1 : List CompassFile) (s1 : Nat),
    fs.length ≤ i + n → scan n i fs i none = .ok (fs1, s1, none) →
    fs1.length = fs.length ∧ fs.length ≤ s1 := by
  induction n with
  | zero =>
    intro i fs fs1 s1 hlen h
    simp only [scan, Except.ok.injEq, Prod.mk.injEq] at h
    obtain ⟨rfl, rfl, _⟩ := h
    exact ⟨rfl, by omega⟩
  | succ n ih =>
    intro i fs fs1 s1 hlen h
    rw [scan] at h
    rcases hfi : fs[i]? with _ | f
    · rw [hfi] at h
      simp only [Except.ok.injEq, Prod.mk.injEq] at h
      obtain ⟨rfl, rfl, _⟩ := h
      exact ⟨rfl, List.getElem?_eq_none_iff.mp hfi⟩
    · rw [hfi] at h
      simp only [] at h
      rcases ha : advanceIfUsed f with e | f1
      · rw [ha] at h; cases h
      · rw [ha] at h
        simp only [↓reduceIte] at h
        split at h
        · have := ih (i + 1) (fs.set i f1) fs1 s1 (by simp; omega) h
          simpa using this
        · exact absurd rfl (scan_some_ne_none n _ _ _ _ _ _ _ h)

theorem GetHitsFromFiles_false_again {run run1 : CompassRun}
    (h : run.GetHitsFromFiles = .ok (run1, false)) : run1.GetHitsFromFiles = .ok (run1, false) := by
  unfold GetHitsFromFiles at h
  rcases hs : scan run.m_datafiles.length run.startIndex run.m_datafiles run.startIndex none
    with e | ⟨fs1, s1, e1⟩
  · rw [hs] at h; cases h
  · rw [hs] at h
    simp only [] at h
    cases e1 with
    | some e =>
      simp only [] at h
      split at h
      · cases h
      · simp at h
    | none =>
      simp only [Except.ok.injEq, Prod.mk.injEq, and_true] at h
      subst h
      obtain ⟨h1, h2⟩ := scan_none_end _ _ _ _ _ (by omega) hs
      unfold GetHitsFromFiles
      simp only []
      rw [scan_past_end _ _ _ _ _ (by omega)]

namespace SlowSort

theorem feedHits_sealed : ∀ (hits : List CompassHit) (c : SlowSort), c.sealed = none →
    (feedHits c hits).2.sealed = none := by
  intro hits
  induction hits with
  | nil => intro c h; exact h
  | cons h hits ih =>
    intro c hc
    rw [feedHits]
    simp only []
    split
    · exact ih _ rfl
    · rename_i hr
      apply ih
      simpa [IsEventReady] using hr

theorem AddHitToEvent_current (c : SlowSort) (h : CompassHit) :
    (c.AddHitToEvent h).current ≠ none := by
  unfold AddHitToEvent
  split
  · simp
  · split <;> simp

theorem feedHits_hits : ∀ (hits : List CompassHit) (c : SlowSort), c.sealed = none →
    ((feedHits c hits).1.map CoincidenceEvent.hits).flatten ++
        ((feedHits c hits).2.current.map Prod.snd).getD [] =
      (c.current.map Prod.snd).getD [] ++ hits := by
  intro hits
  induction hits with
  | nil => intro c _; simp [feedHits]
  | cons h hits ih =>
    intro c hc
    rw [feedHits]
    simp only []
    split
    · rename_i hr
      simp only [List.map_cons, List.flatten_cons, List.append_assoc]
      rw [ih _ rfl]
      unfold AddHitToEvent at hr ⊢
      rcases hcur : c.current with _ | ⟨a, hs⟩
      · simp [hcur, IsEventReady, hc] at hr
      · simp only [hcur] at hr ⊢
        split at hr
        · simp [IsEventReady, hc] at hr
        · rename_i hw
          simp [GetEvent, hw]
    · rename_i hr
      have hsl : (c.AddHitToEvent h).sealed = none := by simpa [IsEventReady] using hr
      rw [ih _ hsl]
      unfold AddHitToEvent at hsl ⊢
      rcases hcur : c.current with _ | ⟨a, hs⟩
      · simp
      · simp only [hcur] at hsl ⊢
        split
        · simp
        · rename_i hw
          simp [hw] at hsl

end SlowSort

namespace SlowSort

theorem AddHitToEvent_config (c : SlowSort) (h : CompassHit) :
    (c.AddHitToEvent h).coincWindow = c.coincWindow ∧
    (c.AddHitToEvent h).channelMap = c.channelMap ∧
    ∃ a hs, (c.AddHitToEvent h).current = some (a, hs) ∧ hs ≠ [] := by
  unfold AddHitToEvent
  rcases c.current with _ | ⟨a, hs⟩
  · exact ⟨rfl, rfl, _, _, rfl, by simp⟩
  · simp only []
    split
    · exact ⟨rfl, rfl, _, _, rfl, by simp⟩
    · exact ⟨rfl, rfl, _, _, rfl, by simp⟩

theorem feedHits_config : ∀ (hits : List CompassHit) (c : SlowSort),
    (feedHits c hits).2.coincWindow = c.coincWindow ∧
    (feedHits c hits).2.channelMap = c.channelMap ∧
    ((hits ≠ [] ∨ ∃ a hs, c.current = some (a, hs) ∧ hs ≠ []) →
      ∃ a hs, (feedHits c hits).2.current = some (a, hs) ∧ hs ≠ []) := by
  intro hits
  induction hits with
  | nil =>
    intro c
    refine ⟨rfl, rfl, ?_⟩
    rintro (h | h)
    · exact absurd rfl h
    · exact h
  | cons h hits ih =>
    intro c
    obtain ⟨h1, h2, h3⟩ := AddHitToEvent_config c h
    rw [feedHits]
    simp only []
    split
    · obtain ⟨i1, i2, i3⟩ := ih (c.AddHitToEvent h).GetEvent.2
      exact ⟨i1.trans h1, i2.trans h2, fun _ => i3 (Or.inr h3)⟩
    · obtain ⟨i1, i2, i3⟩ := ih (c.AddHitToEvent h)
      exact ⟨i1.trans h1, i2.trans h2, fun _ => i3 (Or.inr h3)⟩

end SlowSort

theorem sortedLoop_idle (c : SlowSort) (hc : c.current = none) (hs : c.sealed = none)
    (fuel : Nat) : ∀ (run run1 : CompassRun) (killFlag : Bool),
    run.GetHitsFromFiles = .ok (run1, false) → sortedLoop fuel run c killFlag = none := by
  induction fuel with
  | zero => intro run run1 killFlag _; rfl
  | succ fuel ih =>
    intro run run1 killFlag h
    have hf : c.FlushHitsToEvent = c := by simp [SlowSort.FlushHitsToEvent, hc]
    rw [sortedLoop]
    simp only [h, Bool.not_false, ↓reduceIte, hf, SlowSort.IsEventReady, hs, Option.isSome_none,
      Bool.false_eq_true]
    exact ih run1 run1 true (GetHitsFromFiles_false_again h)

theorem sortedLoop_flush (c : SlowSort) (a : Nat) (hs : List CompassHit)
    (hc : c.current = some (a, hs)) (fuel : Nat) (run run1 : CompassRun) (killFlag : Bool)
    (h : run.GetHitsFromFiles = .ok (run1, false)) :
    sortedLoop (fuel + 1) run c killFlag =
      some ([{ hits := hs }], run1, { c with current := none, sealed := none }) := by
  rw [sortedLoop]
  simp [h, SlowSort.FlushHitsToEvent, hc, SlowSort.IsEventReady, SlowSort.GetEvent]

theorem sortedLoop_feed (fuel : Nat) : ∀ (run last : CompassRun) (c : SlowSort)
    (L : List CompassHit), fillLoop fuel run = some (L, last) → c.sealed = none →
    sortedLoop fuel run c false =
      match (SlowSort.feedHits c L).2.current with
      | some (_, hs) =>
        some ((SlowSort.feedHits c L).1 ++ [{ hits := hs }], last,
          { (SlowSort.feedHits c L).2 with current := none, sealed := none })
      | none => none := by
  induction fuel with
  | zero => intro run last c L h; simp [fillLoop] at h
  | succ fuel ih =>
    intro run last c L h hs
    rw [fillLoop] at h
    rcases hg : run.GetHitsFromFiles with e | ⟨run1, got⟩
    · rw [hg] at h; cases h
    · rw [hg] at h
      cases got with
      | false =>
        simp only [Option.some.injEq, Prod.mk.injEq] at h
        obtain ⟨rfl, rfl⟩ := h
        simp only [SlowSort.feedHits]
        rcases hc : c.current with _ | ⟨a, hits⟩
        · exact sortedLoop_idle c hc hs _ _ _ _ hg
        · exact sortedLoop_flush c a hits hc fuel run run1 false hg
      | true =>
        simp only [] at h
        rcases hl : fillLoop fuel run1 with _ | ⟨hits, last1⟩
        · rw [hl] at h; cases h
        · rw [hl] at h
          simp only [Option.some.injEq, Prod.mk.injEq] at h
          obtain ⟨rfl, rfl⟩ := h
          rw [sortedLoop, SlowSort.feedHits]
          simp only [hg, Bool.not_true, Bool.false_eq_true, ↓reduceIte]
          by_cases hr : (c.AddHitToEvent run1.m_hit).IsEventReady = true
          · simp only [hr, ↓reduceIte]
            rw [ih run1 last1 _ hits hl rfl]
            rcases (SlowSort.feedHits (c.AddHitToEvent run1.m_hit).GetEvent.2 hits).2.current
              with _ | ⟨a, evh⟩ <;> rfl
          · simp only [hr, Bool.false_eq_true, ↓reduceIte]
            exact ih run1 last1 _ hits hl (by simpa [SlowSort.IsEventReady] using hr)

/-- C17: a hit arriving with no event open opens one and is its anchor. With an event of anchor
`a` open, a hit of timestamp `t` seals it exactly when `t - a > W`: then the sealed event holds
the hits gathered so far and the hit starts the next event with anchor `t`; when `t - a ≤ W`
the hit joins the open event and the anchor stays. Fed hit by hit, as the loop of
`Convert2SortedRoot` does, no hit is lost: the events retrieved, followed by the event left
open, are the hits fed, in order. With W = 100 the timestamps 0, 50, 120, 130, 260 give the
sealed events {0, 50} and {120, 130} and leave {260} open. -/
theorem AddHitToEvent_window :
    (∀ (c : SlowSort) (h : CompassHit), c.current = none →
      c.AddHitToEvent h = { c with current := some (h.timestamp, [h]) }) ∧
    (∀ (W : Int) (c : SlowSort) (a : Nat) (hs : List CompassHit) (h : CompassHit),
      c.coincWindow = W → c.current = some (a, hs) →
      ((h.timestamp : Int) - (a : Int) > W →
        c.AddHitToEvent h =
          { c with sealed := some { hits := hs }, current := some (h.timestamp, [h]) }) ∧
      ((h.timestamp : Int) - (a : Int) ≤ W →
        c.AddHitToEvent h = { c with current := some (a, hs ++ [h]) })) ∧
    (∀ (W : Int) (c : SlowSort) (h : CompassHit), c.coincWindow = W → c.sealed = none →
      ((c.AddHitToEvent h).IsEventReady = true ↔
        ∃ a hs, c.current = some (a, hs) ∧ (h.timestamp : Int) - (a : Int) > W)) ∧
    (∀ (c : SlowSort) (hits : List CompassHit), c.sealed = none →
      ((c.feedHits hits).1.map CoincidenceEvent.hits).flatten ++
          ((c.feedHits hits).2.current.map Prod.snd).getD [] =
        (c.current.map Prod.snd).getD [] ++ hits) ∧
    SlowSort.feedHits { coincWindow := 100 } [hitAt 0, hitAt 50, hitAt 120, hitAt 130, hitAt 260]
      = ([{ hits := [hitAt 0, hitAt 50] }, { hits := [hitAt 120, hitAt 130] }],
         { coincWindow := 100, current := some (260, [hitAt 260]) }) := by
  refine ⟨?_, ?_, ?_, fun c hits hc => SlowSort.feedHits_hits hits c hc, by decide⟩
  · intro c h hc
    simp [SlowSort.AddHitToEvent, hc]
  · intro W c a hs h hW hc
    subst hW
    constructor
    · intro hgt
      simp [SlowSort.AddHitToEvent, hc, not_le.mpr hgt]
    · intro hle
      simp [SlowSort.AddHitToEvent, hc, hle]
  · intro W c h hW hs
    subst hW
    unfold SlowSort.AddHitToEvent SlowSort.IsEventReady
    rcases hc : c.current with _ | ⟨a, hits⟩
    · simp [hs]
    · simp only []
      by_cases hle : (h.timestamp : Int) - (a : Int) ≤ c.coincWindow
      · simp [hle, hs]
      · simp [hle, not_le.mp hle]

/-- C17 on the builder of window 100 holding the open event {0, 50} of anchor 0: the hit of
timestamp 120 seals that event and opens the next with anchor 120, and the hit of timestamp 100
joins the open event. -/
theorem AddHitToEvent_window_witness :
    SlowSort.AddHitToEvent
        { coincWindow := 100, current := some (0, [hitAt 0, hitAt 50]) } (hitAt 120) =
      { coincWindow := 100, sealed := some { hits := [hitAt 0, hitAt 50] }
        current := some (120, [hitAt 120]) } ∧
    SlowSort.AddHitToEvent
        { coincWindow := 100, current := some (0, [hitAt 0, hitAt 50]) } (hitAt 100) =
      { coincWindow := 100, current := some (0, [hitAt 0, hitAt 50, hitAt 100]) } :=
  ⟨(AddHitToEvent_window.2.1 100
      { coincWindow := 100, current := some (0, [hitAt 0, hitAt 50]) } 0 [hitAt 0, hitAt 50]
      (hitAt 120) rfl rfl).1 (by decide),
   (AddHitToEvent_window.2.1 100
      { coincWindow := 100, current := some (0, [hitAt 0, hitAt 50]) } 0 [hitAt 0, hitAt 50]
      (hitAt 100) rfl rfl).2 (by decide)⟩

/-- C18: `FlushHitsToEvent` on a builder with no event open changes nothing, so that no event
becomes ready; on a builder with an event open it makes exactly that event ready and leaves no
event open. In the loop of `Convert2SortedRoot`, the iteration in which `GetHitsFromFiles`
returns false with an event open fills that event and leaves the loop; and whenever the merge
yields the hits `L`, at least one, the loop started with an idle builder returns after filling
events that hold the hits of `L` in order, each once, the last of them being the final
partial event. -/
theorem FlushHitsToEvent_final_event :
    (∀ c : SlowSort, c.current = none →
      c.FlushHitsToEvent = c ∧ (c.sealed = none → c.FlushHitsToEvent.IsEventReady = false)) ∧
    (∀ (c : SlowSort) (a : Nat) (hs : List CompassHit), c.current = some (a, hs) →
      c.FlushHitsToEvent.IsEventReady = true ∧
      c.FlushHitsToEvent.GetEvent = ({ hits := hs }, { c with current := none, sealed := none })) ∧
    (∀ (c : SlowSort) (a : Nat) (hs : List CompassHit) (fuel : Nat) (run run1 : CompassRun)
      (killFlag : Bool), c.current = some (a, hs) → run.GetHitsFromFiles = .ok (run1, false) →
      sortedLoop (fuel + 1) run c killFlag =
        some ([{ hits := hs }], run1, { c with current := none, sealed := none })) ∧
    (∀ (fuel : Nat) (run last : CompassRun) (c : SlowSort) (L : List CompassHit),
      fillLoop fuel run = some (L, last) → L ≠ [] → c.current = none → c.sealed = none →
      ∃ events hs, sortedLoop fuel run c false =
          some (events ++ [{ hits := hs }], last, { c with current := none, sealed := none }) ∧
        (events.map CoincidenceEvent.hits).flatten ++ hs = L ∧ hs ≠ []) := by
  refine ⟨?_, ?_, ?_, ?_⟩
  · intro c hc
    have hf : c.FlushHitsToEvent = c := by simp [SlowSort.FlushHitsToEvent, hc]
    exact ⟨hf, fun hs => by rw [hf]; simp [SlowSort.IsEventReady, hs]⟩
  · intro c a hs hc
    simp [SlowSort.FlushHitsToEvent, hc, SlowSort.IsEventReady, SlowSort.GetEvent]
  · intro c a hs fuel run run1 killFlag hc h
    exact sortedLoop_flush c a hs hc fuel run run1 killFlag h
  · intro fuel run last c L h hL hc hs
    have hfeed := sortedLoop_feed fuel run last c L h hs
    have hhits := SlowSort.feedHits_hits L c hs
    obtain ⟨h1, h2, h3⟩ := SlowSort.feedHits_config L c
    obtain ⟨a, evh, hcur, hne⟩ := h3 (Or.inl hL)
    rw [hcur] at hfeed hhits
    simp only [hc, Option.map_none', Option.getD_none, List.nil_append, Option.map_some',
      Option.getD_some] at hhits
    refine ⟨(c.feedHits L).1, evh, ?_, hhits, hne⟩
    rw [hfeed]
    simp only [h1, h2]

/-- C18 on the decoders of `fileA` (timestamps 10, 200) and `fileB` (timestamps 15, 20) with a
window of 50: the loop fills the event {10, 15, 20} and, at the exhaustion of the merge, the
final partial event {200}, and returns. -/
theorem FlushHitsToEvent_final_event_witness :
    ∃ last, sortedLoop 5 { m_datafiles := [streamA, streamB] } { coincWindow := 50 } false =
      some ([{ hits := [{ channel := 1, timestamp := 10 }, { channel := 2, timestamp := 15 },
                        { channel := 2, timestamp := 20 }] },
             { hits := [{ channel := 1, timestamp := 200 }] }], last, { coincWindow := 50 }) ∧
      ∃ events hs,
        sortedLoop 5 { m_datafiles := [streamA, streamB] } { coincWindow := 50 } false =
          some (events ++ [{ hits := hs }], last, { coincWindow := 50 }) ∧
        (events.map CoincidenceEvent.hits).flatten ++ hs =
          [{ channel := 1, timestamp := 10 }, { channel := 2, timestamp := 15 },
           { channel := 2, timestamp := 20 }, { channel := 1, timestamp := 200 }] ∧ hs ≠ [] :=
  ⟨_, rfl,
    FlushHitsToEvent_final_event.2.2.2 5 { m_datafiles := [streamA, streamB] } _
      { coincWindow := 50 }
      [{ channel := 1, timestamp := 10 }, { channel := 2, timestamp := 15 },
       { channel := 2, timestamp := 20 }, { channel := 1, timestamp := 200 }]
      rfl (by decide) rfl rfl⟩

/-- C19, the code on a merge without hits: when the first `GetHitsFromFiles` call returns
false and the builder is idle, every later call returns false as well and leaves the run as it
is, `FlushHitsToEvent` leaves the builder idle and no event is ready, so that the `break`, which
stands inside the branch taken when an event is ready, is never reached: the loop of
`Convert2SortedRoot` does not end within any number of iterations. -/
theorem sortedLoop_empty_merge (run run1 : CompassRun) (c : SlowSort) (killFlag : Bool)
    (h : run.GetHitsFromFiles = .ok (run1, false)) (hc : c.current = none)
    (hs : c.sealed = none) :
    run1.GetHitsFromFiles = .ok (run1, false) ∧ c.FlushHitsToEvent = c ∧
    c.FlushHitsToEvent.IsEventReady = false ∧
    ∀ fuel, sortedLoop fuel run c killFlag = none := by
  have hf : c.FlushHitsToEvent = c := by simp [SlowSort.FlushHitsToEvent, hc]
  refine ⟨GetHitsFromFiles_false_again h, hf, ?_, fun fuel =>
    sortedLoop_idle c hc hs fuel run run1 killFlag h⟩
  rw [hf]
  simp [SlowSort.IsEventReady, hs]

/-- C19 at the failing input, two data files that hold their 2 header bytes alone, with a window
of 100: the constructor leaves each decoder at end of file, the first `GetHitsFromFiles` call
returns false, and the loop does not end. -/
theorem sortedLoop_empty_merge_witness :
    create (some [0, 0]) 3 = .ok streamEmpty ∧
    CompassRun.GetHitsFromFiles { m_datafiles := [streamEmpty, streamEmpty] } =
      .ok ({ m_datafiles := [streamEmpty, streamEmpty], startIndex := 2 }, false) ∧
    ∀ fuel, sortedLoop fuel { m_datafiles := [streamEmpty, streamEmpty] }
      { coincWindow := 100 } false = none :=
  ⟨rfl, rfl,
    (sortedLoop_empty_merge { m_datafiles := [streamEmpty, streamEmpty] } _
      { coincWindow := 100 } false
      (rfl : CompassRun.GetHitsFromFiles { m_datafiles := [streamEmpty, streamEmpty] } =
        .ok ({ m_datafiles := [streamEmpty, streamEmpty], startIndex := 2 }, false))
      rfl rfl).2.2.2⟩

/-! ## A shift map of zeros -/

theorem shift_zero (raw : Nat) (hraw : raw < 2 ^ 64) : (((raw : Int) + 0) % 2 ^ 64).toNat = raw := by
  rw [Int.add_zero, Int.emod_eq_of_lt (Int.ofNat_nonneg _) (by exact_mod_cast hraw)]
  rfl

theorem decodeHit_zero_shift (f : CompassFile) (p : Nat) (smap : ShiftMap)
    (hzero : ∀ gchan_id, smap.GetShift gchan_id = 0) (hplain : f.m_smap = none) :
    (f.AttachShiftMap smap).decodeHit p = f.decodeHit p := by
  unfold decodeHit AttachShiftMap IsEnergy IsEnergyCalibrated IsEnergyShort IsWaves
  simp only [bind, Except.bind, pure, Except.pure, hplain, hzero]
  cases h1 : readAt f.m_hitBuffer p 2 with
  | error e => rfl
  | ok board =>
  cases h2 : readAt f.m_hitBuffer (p + 2) 2 with
  | error e => rfl
  | ok channel =>
  cases h3 : readAt f.m_hitBuffer (p + 2 + 2) 8 with
  | error e => rfl
  | ok raw =>
  have hraw : raw < 2 ^ 64 := by have := readAt_lt h3; norm_num at this ⊢; exact this
  simp only [shift_zero raw hraw]

theorem ParseNextHit_zero_shift (f : CompassFile) (smap : ShiftMap)
    (hzero : ∀ gchan_id, smap.GetShift gchan_id = 0) (hplain : f.m_smap = none) :
    (f.AttachShiftMap smap).ParseNextHit =
      match f.ParseNextHit with
      | .error e => .error e
      | .ok g => .ok (g.AttachShiftMap smap) := by
  have hd := fun p => decodeHit_zero_shift f p smap hzero hplain
  unfold ParseNextHit
  simp only [hd]
  show (match f.m_bufferIter with
    | none => _
    | some p => _) = _
  rcases f.m_bufferIter with _ | p
  · rfl
  · simp only []
    rcases f.decodeHit p with e | ⟨hit, q⟩ <;> rfl

theorem ParseNextHit_smap {f g : CompassFile} (h : f.ParseNextHit = .ok g) :
    g.m_smap = f.m_smap := by
  unfold ParseNextHit at h
  split at h
  · cases h
  · split at h
    · cases h
    · cases h; rfl

theorem GetNextBuffer_smap (f : CompassFile) : f.GetNextBuffer.m_smap = f.m_smap := by
  unfold GetNextBuffer; split <;> rfl

theorem GetNextHit_smap {f g : CompassFile} {b : Bool} (h : f.GetNextHit = .ok (g, b)) :
    g.m_smap = f.m_smap := by
  unfold GetNextHit at h
  by_cases ho : f.IsOpen = true
  · simp only [ho, Bool.not_true, Bool.false_eq_true, if_false] at h
    have h1s : (if ((f.m_bufferIter == none || f.m_bufferIter == f.m_bufferEnd) && !f.IsEOF)
        = true then f.GetNextBuffer else f).m_smap = f.m_smap := by
      split
      · exact GetNextBuffer_smap f
      · rfl
    generalize (if ((f.m_bufferIter == none || f.m_bufferIter == f.m_bufferEnd) && !f.IsEOF)
      = true then f.GetNextBuffer else f) = f1 at h h1s
    by_cases h1 : f1.IsEOF = true
    · simp only [h1, Bool.not_true, Bool.false_eq_true, if_false] at h
      cases h
      exact h1s
    · simp only [Bool.not_eq_true] at h1
      simp only [h1, Bool.not_false, if_true] at h
      rcases hp : f1.ParseNextHit with e | g1
      · rw [hp] at h; cases h
      · rw [hp] at h
        cases h
        exact (ParseNextHit_smap hp).trans h1s
  · have ho2 : f.IsOpen = false := by simpa using ho
    rw [if_pos (by simp [ho2])] at h
    cases h
    rfl

theorem GetNextHit_zero_shift (f : CompassFile) (smap : ShiftMap)
    (hzero : ∀ gchan_id, smap.GetShift gchan_id = 0) (hplain : f.m_smap = none) :
    (f.AttachShiftMap smap).GetNextHit =
      match f.GetNextHit with
      | .error e => .error e
      | .ok r => .ok (r.1.AttachShiftMap smap, r.2) := by
  have hb : ∀ f : CompassFile, (f.AttachShiftMap smap).GetNextBuffer =
      f.GetNextBuffer.AttachShiftMap smap := by
    intro f; unfold GetNextBuffer AttachShiftMap; split <;> rfl
  unfold GetNextHit
  by_cases ho : f.IsOpen = true
  · have ho2 : (f.AttachShiftMap smap).IsOpen = true := ho
    simp only [ho, ho2, Bool.not_true, Bool.false_eq_true, if_false]
    have hcond : (((f.AttachShiftMap smap).m_bufferIter == none ||
        (f.AttachShiftMap smap).m_bufferIter == (f.AttachShiftMap smap).m_bufferEnd) &&
        !(f.AttachShiftMap smap).IsEOF) =
        ((f.m_bufferIter == none || f.m_bufferIter == f.m_bufferEnd) && !f.IsEOF) := rfl
    rw [hcond]
    have key : (if ((f.m_bufferIter == none || f.m_bufferIter == f.m_bufferEnd) && !f.IsEOF)
        = true then (f.AttachShiftMap smap).GetNextBuffer else f.AttachShiftMap smap) =
        (if ((f.m_bufferIter == none || f.m_bufferIter == f.m_bufferEnd) && !f.IsEOF)
        = true then f.GetNextBuffer else f).AttachShiftMap smap := by
      split
      · exact hb f
      · rfl
    have h1s : (if ((f.m_bufferIter == none || f.m_bufferIter == f.m_bufferEnd) && !f.IsEOF)
        = true then f.GetNextBuffer else f).m_smap = none := by
      split
      · exact (GetNextBuffer_smap f).trans hplain
      · exact hplain
    rw [key]
    generalize (if ((f.m_bufferIter == none || f.m_bufferIter == f.m_bufferEnd) && !f.IsEOF)
      = true then f.GetNextBuffer else f) = f1 at h1s
    have he : (f1.AttachShiftMap smap).IsEOF = f1.IsEOF := rfl
    rw [he]
    by_cases h1 : f1.IsEOF = true
    · simp only [h1, Bool.not_true, Bool.false_eq_true, if_false]
      rfl
    · simp only [Bool.not_eq_true] at h1
      simp only [h1, Bool.not_false, if_true, ParseNextHit_zero_shift f1 smap hzero h1s]
      rcases f1.ParseNextHit with e | g1 <;> rfl
  · have ho2 : ¬ (f.AttachShiftMap smap).IsOpen = true := ho
    simp [ho, ho2]

theorem advanceIfUsed_smap {f g : CompassFile} (h : advanceIfUsed f = .ok g) :
    g.m_smap = f.m_smap := by
  unfold advanceIfUsed at h
  split at h
  · rcases hg : f.GetNextHit with e | ⟨g1, b⟩
    · rw [hg] at h; cases h
    · rw [hg] at h
      cases h
      exact GetNextHit_smap hg
  · cases h; rfl

theorem advanceIfUsed_zero_shift (f : CompassFile) (smap : ShiftMap)
    (hzero : ∀ gchan_id, smap.GetShift gchan_id = 0) (hplain : f.m_smap = none) :
    advanceIfUsed (f.AttachShiftMap smap) =
      match advanceIfUsed f with
      | .error e => .error e
      | .ok g => .ok (g.AttachShiftMap smap) := by
  unfold advanceIfUsed
  have hu : (f.AttachShiftMap smap).CheckHitHasBeenUsed = f.CheckHitHasBeenUsed := rfl
  rw [hu, GetNextHit_zero_shift f smap hzero hplain]
  split
  · rcases f.GetNextHit with e | r <;> rfl
  · rfl

theorem scan_smap (n : Nat) : ∀ (i : Nat) (fs : List CompassFile) (s : Nat) (e : Option Nat)
    (fs1 : List CompassFile) (s1 : Nat) (e1 : Option Nat),
    (∀ f ∈ fs, f.m_smap = none) → scan n i fs s e = .ok (fs1, s1, e1) →
    ∀ f ∈ fs1, f.m_smap = none := by
  induction n with
  | zero =>
    intro i fs s e fs1 s1 e1 hp h
    simp only [scan, Except.ok.injEq, Prod.mk.injEq] at h
    rw [← h.1]; exact hp
  | succ n ih =>
    intro i fs s e fs1 s1 e1 hp h
    rw [scan] at h
    rcases hfi : fs[i]? with _ | f
    · rw [hfi] at h
      simp only [Except.ok.injEq, Prod.mk.injEq] at h
      rw [← h.1]; exact hp
    · rw [hfi] at h
      simp only [] at h
      rcases ha : advanceIfUsed f with e | f1
      · rw [ha] at h; cases h
      · rw [ha] at h
        simp only [] at h
        have hf1 : f1.m_smap = none :=
          (advanceIfUsed_smap ha).trans (hp f (List.getElem?_mem hfi))
        have hp1 : ∀ g ∈ fs.set i f1, g.m_smap = none := by
          intro g hg
          rcases List.mem_or_eq_of_mem_set hg with hg | rfl
          · exact hp g hg
          · exact hf1
        split at h
        · split at h
          · exact ih _ _ _ _ _ _ _ hp1 h
          · exact ih _ _ _ _ _ _ _ hp1 h
        · split at h
          · exact ih _ _ _ _ _ _ _ hp1 h
          · split at h
            · cases h
            · split at h
              · cases h
              · split at h
                · exact ih _ _ _ _ _ _ _ hp1 h
                · exact ih _ _ _ _ _ _ _ hp1 h

theorem scan_zero_shift (smap : ShiftMap) (hzero : ∀ gchan_id, smap.GetShift gchan_id = 0)
    (n : Nat) : ∀ (i : Nat) (fs : List CompassFile) (s : Nat) (e : Option Nat),
    (∀ f ∈ fs, f.m_smap = none) →
    scan n i (fs.map fun f => f.AttachShiftMap smap) s e =
      match scan n i fs s e with
      | .error err => .error err
      | .ok r => .ok (r.1.map fun f => f.AttachShiftMap smap, r.2) := by
  induction n with
  | zero => intro i fs s e _; rfl
  | succ n ih =>
    intro i fs s e hp
    rw [scan, scan, List.getElem?_map]
    rcases hfi : fs[i]? with _ | f
    · rfl
    · simp only [Option.map_some']
      rw [advanceIfUsed_zero_shift f smap hzero (hp f (List.getElem?_mem hfi))]
      rcases ha : advanceIfUsed f with err | f1
      · rfl
      · simp only []
        have hf1 : f1.m_smap = none :=
          (advanceIfUsed_smap ha).trans (hp f (List.getElem?_mem hfi))
        have hp1 : ∀ g ∈ fs.set i f1, g.m_smap = none := by
          intro g hg
          rcases List.mem_or_eq_of_mem_set hg with hg | rfl
          · exact hp g hg
          · exact hf1
        have hset : (fs.map fun f => f.AttachShiftMap smap).set i (f1.AttachShiftMap smap) =
            (fs.set i f1).map fun f => f.AttachShiftMap smap := by
          rw [List.map_set]
        have heof : (f1.AttachShiftMap smap).IsEOF = f1.IsEOF := rfl
        rw [hset, heof]
        simp only [ih _ _ _ _ hp1]
        split
        · split <;> rfl
        · split
          · rfl
          · rcases e with _ | e0
            · rfl
            · simp only [List.getElem?_map]
              rcases (fs.set i f1)[e0]? with _ | g
              · rfl
              · simp only [Option.map_some']
                have hts : (f1.AttachShiftMap smap).GetCurrentHit.timestamp =
                    f1.GetCurrentHit.timestamp := rfl
                have hts2 : (g.AttachShiftMap smap).GetCurrentHit.timestamp =
                    g.GetCurrentHit.timestamp := rfl
                rw [hts, hts2]
                split <;> rfl

theorem GetHitsFromFiles_smap {run run1 : CompassRun} {b : Bool}
    (hp : ∀ f ∈ run.m_datafiles, f.m_smap = none) (h : run.GetHitsFromFiles = .ok (run1, b)) :
    ∀ f ∈ run1.m_datafiles, f.m_smap = none := by
  unfold GetHitsFromFiles at h
  rcases hs : scan run.m_datafiles.length run.startIndex run.m_datafiles run.startIndex none
    with e | ⟨fs1, s1, e1⟩
  · rw [hs] at h; cases h
  · rw [hs] at h
    have hp1 := scan_smap _ _ _ _ _ _ _ _ hp hs
    simp only [] at h
    cases e1 with
    | none =>
      simp only [Except.ok.injEq, Prod.mk.injEq] at h
      rw [← h.1]; exact hp1
    | some e =>
      simp only [] at h
      rcases hg : fs1[e]? with _ | g
      · rw [hg] at h; cases h
      · rw [hg] at h
        simp only [Except.ok.injEq, Prod.mk.injEq] at h
        rw [← h.1]
        intro f hf
        rcases List.mem_or_eq_of_mem_set hf with hf | rfl
        · exact hp1 f hf
        · exact hp1 g (List.getElem?_mem hg)

theorem GetHitsFromFiles_zero_shift (smap : ShiftMap)
    (hzero : ∀ gchan_id, smap.GetShift gchan_id = 0) (run : CompassRun)
    (hp : ∀ f ∈ run.m_datafiles, f.m_smap = none) :
    GetHitsFromFiles
        { run with m_datafiles := run.m_datafiles.map fun f => f.AttachShiftMap smap } =
      match run.GetHitsFromFiles with
      | .error e => .error e
      | .ok r => .ok ({ r.1 with
          m_datafiles := r.1.m_datafiles.map fun f => f.AttachShiftMap smap }, r.2) := by
  unfold GetHitsFromFiles
  simp only [List.length_map, scan_zero_shift smap hzero _ _ _ _ _ hp]
  rcases scan run.m_datafiles.length run.startIndex run.m_datafiles run.startIndex none
    with e | ⟨fs1, s1, e1⟩
  · rfl
  · simp only []
    cases e1 with
    | none => rfl
    | some e =>
      simp only [List.getElem?_map]
      rcases fs1[e]? with _ | g
      · rfl
      · simp only [Option.map_some', List.map_set]
        rfl

theorem fillLoop_zero_shift (smap : ShiftMap) (hzero : ∀ gchan_id, smap.GetShift gchan_id = 0)
    (fuel : Nat) : ∀ (run : CompassRun), (∀ f ∈ run.m_datafiles, f.m_smap = none) →
    fillLoop fuel { run with m_datafiles := run.m_datafiles.map fun f => f.AttachShiftMap smap } =
      match fillLoop fuel run with
      | none => none
      | some r => some (r.1, { r.2 with
          m_datafiles := r.2.m_datafiles.map fun f => f.AttachShiftMap smap }) := by
  induction fuel with
  | zero => intro run _; rfl
  | succ fuel ih =>
    intro run hp
    rw [fillLoop, fillLoop, GetHitsFromFiles_zero_shift smap hzero run hp]
    rcases hg : run.GetHitsFromFiles with e | ⟨run1, b⟩
    · rfl
    · cases b with
      | false => rfl
      | true =>
        simp only []
        rw [ih run1 (GetHitsFromFiles_smap hp hg)]
        rcases fillLoop fuel run1 with _ | ⟨hits, last⟩ <;> rfl

/-- C20: with a shift map that gives every global channel the offset 0, a `GetHitsFromFiles`
call on decoders that have the map attached returns the same flag and the same hit, or faults
in the same way, as the call on the same decoders with no map attached, and leaves the decoders
in the same states, the attached map apart; hence the loop of repeated calls returns the same
sequence of hits. -/
theorem merge_zero_shift (smap : ShiftMap) (hzero : ∀ gchan_id, smap.GetShift gchan_id = 0)
    (run : CompassRun) (hplain : ∀ f ∈ run.m_datafiles, f.m_smap = none) :
    (GetHitsFromFiles
        { run with m_datafiles := run.m_datafiles.map fun f => f.AttachShiftMap smap } =
      match run.GetHitsFromFiles with
      | .error e => .error e
      | .ok r => .ok ({ r.1 with
          m_datafiles := r.1.m_datafiles.map fun f => f.AttachShiftMap smap }, r.2)) ∧
    (∀ run1 b, run.GetHitsFromFiles = .ok (run1, b) →
      ∀ f ∈ run1.m_datafiles, f.m_smap = none) ∧
    ∀ fuel,
      (fillLoop fuel
        { run with m_datafiles := run.m_datafiles.map fun f => f.AttachShiftMap smap }).map
          Prod.fst =
      (fillLoop fuel run).map Prod.fst := by
  refine ⟨GetHitsFromFiles_zero_shift smap hzero run hplain,
    fun run1 b h => GetHitsFromFiles_smap hplain h, fun fuel => ?_⟩
  rw [fillLoop_zero_shift smap hzero fuel run hplain]
  rcases fillLoop fuel run with _ | r <;> rfl

/-- C20 on the decoders of `fileA` and `fileB` with a shift map holding the offset 0 for the
global channels 1 and 2: the merged hits are those of the merge with no map attached,
timestamps 10, 15, 20, 200. -/
theorem merge_zero_shift_witness :
    (∀ gchan_id, ShiftMap.GetShift { m_map := [(1, 0), (2, 0)] } gchan_id = 0) ∧
    (∀ f ∈ [streamA, streamB], f.m_smap = none) ∧
    (fillLoop 5 { m_datafiles := [streamA.AttachShiftMap { m_map := [(1, 0), (2, 0)] },
        streamB.AttachShiftMap { m_map := [(1, 0), (2, 0)] }] }).map Prod.fst =
      (fillLoop 5 { m_datafiles := [streamA, streamB] }).map Prod.fst ∧
    (fillLoop 5 { m_datafiles := [streamA, streamB] }).map Prod.fst =
      some [{ channel := 1, timestamp := 10 }, { channel := 2, timestamp := 15 },
            { channel := 2, timestamp := 20 }, { channel := 1, timestamp := 200 }] :=
  have hzero : ∀ gchan_id, ShiftMap.GetShift { m_map := [(1, 0), (2, 0)] } gchan_id = 0 := by
    intro g
    cases h1 : (g == 1) <;> cases h2 : (g == 2) <;>
      simp [ShiftMap.GetShift, List.lookup, h1, h2]
  have hplain : ∀ f ∈ [streamA, streamB], f.m_smap = none := by decide
  ⟨hzero, hplain,
    (merge_zero_shift { m_map := [(1, 0), (2, 0)] } hzero { m_datafiles := [streamA, streamB] }
      hplain).2.2 5, rfl⟩

/-! ## The null pointer of the scan -/

theorem readAt_error {buf : List Byte} {off w : Nat} {x : Fault}
    (h : readAt buf off w = .error x) : x = .bufferOverrun := by
  unfold readAt at h
  split at h
  · cases h
  · cases h; rfl

theorem decodeHit_error {f : CompassFile} {p : Nat} {x : Fault}
    (h : f.decodeHit p = .error x) : x = .bufferOverrun := by
  unfold decodeHit at h
  simp only [bind, Except.bind, pure, Except.pure] at h
  repeat' split at h
  all_goals cases h
  all_goals exact readAt_error (by assumption)

theorem GetNextHit_error {f : CompassFile} {x : Fault} (h : f.GetNextHit = .error x) :
    x = .bufferOverrun := by
  unfold GetNextHit at h
  by_cases ho : f.IsOpen = true
  · simp only [ho, Bool.not_true, Bool.false_eq_true, if_false] at h
    have hb : ∀ g : CompassFile, g.GetNextBuffer.IsEOF = false → g.GetNextBuffer.m_bufferIter ≠ none := by
      intro g hg
      unfold GetNextBuffer at hg ⊢
      split
      · rename_i he
        simp [he, IsEOF] at hg
      · simp
    have h1 : (if ((f.m_bufferIter == none || f.m_bufferIter == f.m_bufferEnd) && !f.IsEOF)
        = true then f.GetNextBuffer else f).IsEOF = false →
        (if ((f.m_bufferIter == none || f.m_bufferIter == f.m_bufferEnd) && !f.IsEOF)
        = true then f.GetNextBuffer else f).m_bufferIter ≠ none := by
      intro he
      split
      · rename_i hc
        rw [if_pos hc] at he
        exact hb f he
      · rename_i hc
        rw [if_neg hc] at he
        intro hn
        apply hc
        simp [hn, he]
    generalize (if ((f.m_bufferIter == none || f.m_bufferIter == f.m_bufferEnd) && !f.IsEOF)
      = true then f.GetNextBuffer else f) = f1 at h h1
    by_cases he : f1.IsEOF = true
    · simp only [he, Bool.not_true, Bool.false_eq_true, if_false] at h
      cases h
    · simp only [Bool.not_eq_true] at he
      simp only [he, Bool.not_false, if_true] at h
      have hi := h1 he
      unfold ParseNextHit at h
      rcases hp : f1.m_bufferIter with _ | p
      · exact absurd hp hi
      · rw [hp] at h
        simp only [] at h
        rcases hd : f1.decodeHit p with e | ⟨hit, q⟩
        · rw [hd] at h
          cases h
          exact decodeHit_error hd
        · rw [hd] at h
          cases h
  · have ho2 : f.IsOpen = false := by simpa using ho
    rw [if_pos (by simp [ho2])] at h
    cases h

theorem advanceIfUsed_error {f : CompassFile} {x : Fault} (h : advanceIfUsed f = .error x) :
    x = .bufferOverrun := by
  unfold advanceIfUsed at h
  split at h
  · rcases hg : f.GetNextHit with e | r
    · rw [hg] at h
      cases h
      exact GetNextHit_error hg
    · rw [hg] at h; cases h
  · cases h

theorem scan_error (n : Nat) : ∀ (i : Nat) (fs : List CompassFile) (s : Nat) (e : Option Nat)
    (x : Fault), scan n i fs s e = .error x → s ≤ i → (s < i → e ≠ none) →
    (∀ j, e = some j → j < fs.length) →
    ∃ k f, i ≤ k ∧ fs[k]? = some f ∧ advanceIfUsed f = .error x ∧
      ∀ j g, i ≤ j → j < k → fs[j]? = some g → ∃ g1, advanceIfUsed g = .ok g1 := by
  induction n with
  | zero => intro i fs s e x h; simp [scan] at h
  | succ n ih =>
    intro i fs s e x h hsi hne hlt
    rw [scan] at h
    rcases hfi : fs[i]? with _ | f
    · rw [hfi] at h; cases h
    · rw [hfi] at h
      simp only [] at h
      rcases ha : advanceIfUsed f with err | f1
      · rw [ha] at h
        cases h
        exact ⟨i, f, le_refl _, hfi, ha, fun j g h1 h2 => by omega⟩
      · rw [ha] at h
        simp only [] at h
        have hi : i < fs.length := (List.getElem?_eq_some_iff.mp hfi).1
        have step : ∀ s' e', scan n (i + 1) (fs.set i f1) s' e' = .error x → s' ≤ i + 1 →
            (s' < i + 1 → e' ≠ none) → (∀ j, e' = some j → j < fs.length) →
            ∃ k f, i ≤ k ∧ fs[k]? = some f ∧ advanceIfUsed f = .error x ∧
              ∀ j g, i ≤ j → j < k → fs[j]? = some g → ∃ g1, advanceIfUsed g = .ok g1 := by
          intro s' e' h' h1 h2 h3
          obtain ⟨k, fk, hk, hfk, hak, hbelow⟩ :=
            ih (i + 1) (fs.set i f1) s' e' x h' h1 h2 (by simpa using h3)
          have hki : i ≠ k := by omega
          rw [List.getElem?_set_ne hki] at hfk
          refine ⟨k, fk, by omega, hfk, hak, ?_⟩
          intro j g hij hjk hg
          by_cases hji : j = i
          · subst hji
            rw [hfi] at hg
            cases hg
            exact ⟨f1, ha⟩
          · exact hbelow j g (by omega) hjk (by rw [List.getElem?_set_ne (Ne.symm hji)]; exact hg)
        split at h
        · split at h
          · rename_i his
            subst his
            exact step _ _ h (by omega) (fun hh => by omega)
              (fun j hj => hlt j hj)
          · rename_i his
            exact step _ _ h (by omega) (fun _ => hne (by omega)) hlt
        · split at h
          · exact step _ _ h (by omega) (fun _ => by simp) (fun j hj => by cases hj; exact hi)
          · rename_i his
            have hslt : s < i := by omega
            rcases he : e with _ | e0
            · exact absurd he (hne hslt)
            · rw [he] at h
              simp only [] at h
              have he0 : e0 < fs.length := hlt e0 he
              rcases hg : (fs.set i f1)[e0]? with _ | g
              · have := List.getElem?_eq_none_iff.mp hg
                simp at this
                omega
              · rw [hg] at h
                simp only [] at h
                split at h
                · exact step _ _ h (by omega) (fun _ => by simp)
                    (fun j hj => by cases hj; exact hi)
                · exact step _ _ h (by omega) (fun _ => by simp)
                    (fun j hj => by cases hj; exact he0)

theorem scan_lowwater (n : Nat) : ∀ (i : Nat) (fs : List CompassFile) (s : Nat) (e : Option Nat)
    (fs1 : List CompassFile) (s1 : Nat) (e1 : Option Nat),
    scan n i fs s e = .ok (fs1, s1, e1) → s ≤ i → (s = i → e = none) →
    (∀ j, e = some j → s ≤ j ∧ j < fs.length) →
    fs1.length = fs.length ∧ s ≤ s1 ∧ s1 ≤ max i fs.length ∧ (s < i → s1 = s) ∧
    (∀ j, j < i → fs1[j]? = fs[j]?) ∧
    (∀ j f, i ≤ j → j < s1 → fs1[j]? = some f → f.IsEOF = true) ∧
    (∀ j, e1 = some j → s1 ≤ j ∧ j < fs1.length) := by
  induction n with
  | zero =>
    intro i fs s e fs1 s1 e1 h hsi hnone hlt
    simp only [scan, Except.ok.injEq, Prod.mk.injEq] at h
    obtain ⟨rfl, rfl, rfl⟩ := h
    exact ⟨rfl, le_refl _, by omega, fun _ => rfl, fun _ _ => rfl, fun j f h1 h2 => by omega,
      hlt⟩
  | succ n ih =>
    intro i fs s e fs1 s1 e1 h hsi hnone hlt
    rw [scan] at h
    rcases hfi : fs[i]? with _ | f
    · rw [hfi] at h
      simp only [Except.ok.injEq, Prod.mk.injEq] at h
      obtain ⟨rfl, rfl, rfl⟩ := h
      exact ⟨rfl, le_refl _, by omega, fun _ => rfl, fun _ _ => rfl, fun j f h1 h2 => by omega,
        hlt⟩
    · rw [hfi] at h
      simp only [] at h
      rcases ha : advanceIfUsed f with err | f1
      · rw [ha] at h; cases h
      · rw [ha] at h
        simp only [] at h
        have hi : i < fs.length := (List.getElem?_eq_some_iff.mp hfi).1
        have hseti : (fs.set i f1)[i]? = some f1 := by
          rw [List.getElem?_set_self hi]
        have step : ∀ s' e', scan n (i + 1) (fs.set i f1) s' e' = .ok (fs1, s1, e1) →
            s' ≤ i + 1 → (s' = i + 1 → e' = none) →
            (∀ j, e' = some j → s' ≤ j ∧ j < fs.length) → s ≤ s' →
            (s' = i + 1 → f1.IsEOF = true) → (s < i → s' = s) →
            fs1.length = fs.length ∧ s ≤ s1 ∧ s1 ≤ max i fs.length ∧ (s < i → s1 = s) ∧
            (∀ j, j < i → fs1[j]? = fs[j]?) ∧
            (∀ j f, i ≤ j → j < s1 → fs1[j]? = some f → f.IsEOF = true) ∧
            (∀ j, e1 = some j → s1 ≤ j ∧ j < fs1.length) := by
          intro s' e' h' h1 h2 h3 hss heof hkeep
          obtain ⟨c1, c2, c3, c4, c5, c6, c7⟩ :=
            ih (i + 1) (fs.set i f1) s' e' fs1 s1 e1 h' h1 h2 (by simpa using h3)
          simp only [List.length_set] at c1 c3
          refine ⟨c1, by omega, by omega, ?_, ?_, ?_, c7⟩
          · intro hlt'
            have := hkeep hlt'
            have := c4 (by omega)
            omega
          · intro j hj
            rw [c5 j (by omega), List.getElem?_set_ne (by omega)]
          · intro j g hij hjs hg
            by_cases hji : j = i
            · subst hji
              rw [c5 j (by omega), hseti] at hg
              cases hg
              apply heof
              by_contra hne
              have := c4 (by omega)
              omega
            · exact c6 j g (by omega) hjs hg
        split at h
        · rename_i heof
          split at h
          · rename_i his
            subst his
            exact step _ _ h (by omega) (fun _ => hnone rfl)
              (fun j hj => by rw [hnone rfl] at hj; cases hj) (by omega) (fun _ => heof)
              (fun hh => by omega)
          · rename_i his
            exact step _ _ h (by omega) (fun hh => by omega) hlt (le_refl _)
              (fun hh => by omega) (fun _ => rfl)
        · split at h
          · rename_i his
            subst his
            exact step _ _ h (by omega) (fun hh => by omega)
              (fun j hj => by cases hj; exact ⟨le_refl _, hi⟩) (le_refl _)
              (fun hh => by omega) (fun _ => rfl)
          · rename_i his
            rcases he : e with _ | e0
            · rw [he] at h; cases h
            · rw [he] at h
              simp only [] at h
              rcases hg : (fs.set i f1)[e0]? with _ | g
              · rw [hg] at h; cases h
              · rw [hg] at h
                simp only [] at h
                split at h
                · exact step _ _ h (by omega) (fun hh => by omega)
                    (fun j hj => by cases hj; exact ⟨hsi, hi⟩) (le_refl _)
                    (fun hh => by omega) (fun _ => rfl)
                · exact step _ _ h (by omega) (fun hh => by omega)
                    (fun j hj => by cases hj; exact hlt e0 he) (le_refl _)
                    (fun hh => by omega) (fun _ => rfl)

theorem GetHitsFromFiles_error {run : CompassRun} {x : Fault}
    (h : run.GetHitsFromFiles = .error x) :
    ∃ k f, run.startIndex ≤ k ∧ run.m_datafiles[k]? = some f ∧ advanceIfUsed f = .error x ∧
      ∀ j g, run.startIndex ≤ j → j < k → run.m_datafiles[j]? = some g →
        ∃ g1, advanceIfUsed g = .ok g1 := by
  unfold GetHitsFromFiles at h
  rcases hs : scan run.m_datafiles.length run.startIndex run.m_datafiles run.startIndex none
    with e | ⟨fs1, s1, e1⟩
  · rw [hs] at h
    cases h
    exact scan_error _ _ _ _ _ _ hs (le_refl _) (fun hh => by omega) (fun j hj => by cases hj)
  · rw [hs] at h
    simp only [] at h
    obtain ⟨_, _, _, _, _, _, c7⟩ := scan_lowwater _ _ _ _ _ _ _ _ hs (le_refl _) (fun _ => rfl)
      (fun j hj => by cases hj)
    cases e1 with
    | none => cases h
    | some e0 =>
      simp only [] at h
      rcases hg : fs1[e0]? with _ | g
      · have := List.getElem?_eq_none_iff.mp hg
        have := (c7 e0 rfl).2
        omega
      · rw [hg] at h; cases h

/-- C27: `GetHitsFromFiles` never dereferences a null `earliestHit`, whatever the streams, their
end-of-file flags and `startIndex`: a call that faults does so inside the `GetNextHit` of a
stream at or above `startIndex`, by a read outside the hit buffer, after the streams before it
were advanced without fault. -/
theorem GetHitsFromFiles_no_null (run : CompassRun) :
    run.GetHitsFromFiles ≠ .error .nullDeref ∧
    ∀ x, run.GetHitsFromFiles = .error x →
      x = .bufferOverrun ∧
      ∃ k f, run.startIndex ≤ k ∧ run.m_datafiles[k]? = some f ∧ f.CheckHitHasBeenUsed = true ∧
        f.GetNextHit = .error x := by
  have key : ∀ x, run.GetHitsFromFiles = .error x →
      x = .bufferOverrun ∧
      ∃ k f, run.startIndex ≤ k ∧ run.m_datafiles[k]? = some f ∧ f.CheckHitHasBeenUsed = true ∧
        f.GetNextHit = .error x := by
    intro x h
    obtain ⟨k, f, hk, hf, ha, _⟩ := GetHitsFromFiles_error h
    refine ⟨advanceIfUsed_error ha, k, f, hk, hf, ?_⟩
    unfold advanceIfUsed at ha
    split at ha
    · rename_i hu
      refine ⟨hu, ?_⟩
      rcases hg : f.GetNextHit with e | r
      · rw [hg] at ha; cases ha; rfl
      · rw [hg] at ha; cases ha
    · cases ha
  refine ⟨fun h => ?_, key⟩
  have := (key _ h).1
  cases this

theorem GetHitsFromFiles_lowwater {run run1 : CompassRun} {b : Bool}
    (h : run.GetHitsFromFiles = .ok (run1, b)) :
    run1.m_datafiles.length = run.m_datafiles.length ∧ run.startIndex ≤ run1.startIndex ∧
    run1.startIndex ≤ max run.startIndex run.m_datafiles.length ∧
    (∀ j, j < run.startIndex → run1.m_datafiles[j]? = run.m_datafiles[j]?) ∧
    (∀ j f, run.startIndex ≤ j → j < run1.startIndex → run1.m_datafiles[j]? = some f →
      f.IsEOF = true) := by
  unfold GetHitsFromFiles at h
  rcases hs : scan run.m_datafiles.length run.startIndex run.m_datafiles run.startIndex none
    with e | ⟨fs1, s1, e1⟩
  · rw [hs] at h; cases h
  · rw [hs] at h
    simp only [] at h
    obtain ⟨c1, c2, c3, _, c5, c6, c7⟩ := scan_lowwater _ _ _ _ _ _ _ _ hs (le_refl _)
      (fun _ => rfl) (fun j hj => by cases hj)
    cases e1 with
    | none =>
      simp only [Except.ok.injEq, Prod.mk.injEq] at h
      obtain ⟨rfl, -⟩ := h
      exact ⟨c1, c2, c3, c5, c6⟩
    | some e0 =>
      simp only [] at h
      rcases hg : fs1[e0]? with _ | g
      · rw [hg] at h; cases h
      · rw [hg] at h
        simp only [Except.ok.injEq, Prod.mk.injEq] at h
        obtain ⟨rfl, -⟩ := h
        have he0 := (c7 e0 rfl).1
        refine ⟨by simpa using c1, c2, c3, ?_, ?_⟩
        · intro j hj
          show (fs1.set e0 g.SetHitHasBeenUsed)[j]? = _
          rw [List.getElem?_set_ne (by omega)]
          exact c5 j hj
        · intro j f h1 h2 hf
          have h2 : j < s1 := h2
          have hf : (fs1.set e0 g.SetHitHasBeenUsed)[j]? = some f := hf
          rw [List.getElem?_set_ne (by omega)] at hf
          exact c6 j f h1 h2 hf

theorem callsGetHitsFromFiles_inv (k : Nat) : ∀ (run last : CompassRun),
    callsGetHitsFromFiles k run = .ok last → run.startIndex ≤ run.m_datafiles.length →
    (∀ j f, j < run.startIndex → run.m_datafiles[j]? = some f → f.IsEOF = true) →
    last.m_datafiles.length = run.m_datafiles.length ∧ run.startIndex ≤ last.startIndex ∧
    last.startIndex ≤ last.m_datafiles.length ∧
    (∀ j f, j < last.startIndex → last.m_datafiles[j]? = some f → f.IsEOF = true) := by
  induction k with
  | zero =>
    intro run last h hle hinv
    simp only [callsGetHitsFromFiles, Except.ok.injEq] at h
    subst h
    exact ⟨rfl, le_refl _, hle, hinv⟩
  | succ k ih =>
    intro run last h hle hinv
    rw [callsGetHitsFromFiles] at h
    rcases hg : run.GetHitsFromFiles with e | ⟨run1, b⟩
    · rw [hg] at h; cases h
    · rw [hg] at h
      simp only [] at h
      obtain ⟨c1, c2, c3, c4, c5⟩ := GetHitsFromFiles_lowwater hg
      have hinv1 : ∀ j f, j < run1.startIndex → run1.m_datafiles[j]? = some f →
          f.IsEOF = true := by
        intro j f hj hf
        by_cases hlo : j < run.startIndex
        · rw [c4 j hlo] at hf
          exact hinv j f hlo hf
        · exact c5 j f (by omega) hj hf
      obtain ⟨d1, d2, d3, d4⟩ := ih run1 last h (by omega) hinv1
      exact ⟨by omega, by omega, d3, d4⟩

theorem scan_below (lo : Nat) (n : Nat) : ∀ (i : Nat) (fs fs' : List CompassFile) (s : Nat)
    (e : Option Nat), fs.length = fs'.length → (∀ j, lo ≤ j → fs[j]? = fs'[j]?) → lo ≤ i →
    (∀ j, e = some j → lo ≤ j) →
    (∀ x, scan n i fs s e = .error x → scan n i fs' s e = .error x) ∧
    (∀ a s1 e1, scan n i fs s e = .ok (a, s1, e1) →
      ∃ a', scan n i fs' s e = .ok (a', s1, e1) ∧ a.length = a'.length ∧
        (∀ j, lo ≤ j → a[j]? = a'[j]?) ∧ (∀ j, e1 = some j → lo ≤ j)) := by
  induction n with
  | zero =>
    intro i fs fs' s e hlen hR hlo he
    refine ⟨fun x h => by simp [scan] at h, ?_⟩
    intro a s1 e1 h
    simp only [scan, Except.ok.injEq, Prod.mk.injEq] at h
    obtain ⟨rfl, rfl, rfl⟩ := h
    exact ⟨fs', rfl, hlen, hR, he⟩
  | succ n ih =>
    intro i fs fs' s e hlen hR hlo he
    rw [scan, scan, ← hR i hlo]
    rcases hfi : fs[i]? with _ | f
    · refine ⟨fun x h => (by cases h), ?_⟩
      intro a s1 e1 h
      simp only [Except.ok.injEq, Prod.mk.injEq] at h
      obtain ⟨rfl, rfl, rfl⟩ := h
      exact ⟨fs', rfl, hlen, hR, he⟩
    · simp only []
      rcases ha : advanceIfUsed f with err | f1
      · exact ⟨fun x h => h, fun a s1 e1 h => by cases h⟩
      · simp only []
        have hlen1 : (fs.set i f1).length = (fs'.set i f1).length := by simpa using hlen
        have hR1 : ∀ j, lo ≤ j → (fs.set i f1)[j]? = (fs'.set i f1)[j]? := by
          intro j hj
          by_cases hji : i = j
          · subst hji
            have h1 : i < fs.length := (List.getElem?_eq_some_iff.mp hfi).1
            rw [List.getElem?_set_self h1, List.getElem?_set_self (by omega)]
          · rw [List.getElem?_set_ne hji, List.getElem?_set_ne hji]
            exact hR j hj
        have step := fun s' e' h' => ih (i + 1) (fs.set i f1) (fs'.set i f1) s' e' hlen1 hR1
          (by omega) h'
        split
        · split
          · exact step _ _ he
          · exact step _ _ he
        · split
          · exact step _ _ (fun j hj => by cases hj; exact hlo)
          · rcases he0 : e with _ | e0
            · exact ⟨fun x h => h, fun a s1 e1 h => by cases h⟩
            · simp only []
              rw [← hR1 e0 (he e0 he0)]
              rcases (fs.set i f1)[e0]? with _ | g
              · exact ⟨fun x h => h, fun a s1 e1 h => by cases h⟩
              · simp only []
                split
                · exact step _ _ (fun j hj => by cases hj; exact hlo)
                · exact step _ _ (fun j hj => by cases hj; exact he e0 he0)

theorem GetHitsFromFiles_below (run : CompassRun) (fs' : List CompassFile)
    (hlen : fs'.length = run.m_datafiles.length)
    (hR : ∀ j, run.startIndex ≤ j → fs'[j]? = run.m_datafiles[j]?) :
    (∀ x, run.GetHitsFromFiles = .error x →
      GetHitsFromFiles { run with m_datafiles := fs' } = .error x) ∧
    (∀ run1 b, run.GetHitsFromFiles = .ok (run1, b) →
      ∃ run1', GetHitsFromFiles { run with m_datafiles := fs' } = .ok (run1', b) ∧
        run1'.m_hit = run1.m_hit ∧ run1'.startIndex = run1.startIndex ∧
        run1'.m_datafiles.length = run1.m_datafiles.length ∧
        (∀ j, run.startIndex ≤ j → run1'.m_datafiles[j]? = run1.m_datafiles[j]?) ∧
        (∀ j, j < run.startIndex → run1'.m_datafiles[j]? = fs'[j]?)) := by
  obtain ⟨herr, hok⟩ := scan_below run.startIndex run.m_datafiles.length run.startIndex
    run.m_datafiles fs' run.startIndex none hlen.symm (fun j hj => (hR j hj).symm) (le_refl _)
    (fun j hj => by cases hj)
  constructor
  · intro x h
    unfold GetHitsFromFiles at h ⊢
    simp only [hlen]
    rcases hs : scan run.m_datafiles.length run.startIndex run.m_datafiles run.startIndex none
      with e | ⟨fs1, s1, e1⟩
    · rw [hs] at h
      cases h
      rw [herr _ hs]
    · rw [hs] at h
      simp only [] at h
      obtain ⟨_, _, _, _, _, _, c7⟩ := scan_lowwater _ _ _ _ _ _ _ _ hs (le_refl _)
        (fun _ => rfl) (fun j hj => by cases hj)
      cases e1 with
      | none => cases h
      | some e0 =>
        simp only [] at h
        rcases hg : fs1[e0]? with _ | g
        · have := List.getElem?_eq_none_iff.mp hg
          have := (c7 e0 rfl).2
          omega
        · rw [hg] at h; cases h
  · intro run1 b h
    unfold GetHitsFromFiles at h ⊢
    simp only [hlen]
    rcases hs : scan run.m_datafiles.length run.startIndex run.m_datafiles run.startIndex none
      with e | ⟨fs1, s1, e1⟩
    · rw [hs] at h; cases h
    · rw [hs] at h
      simp only [] at h
      obtain ⟨a', hs', hl', hR', he'⟩ := hok _ _ _ hs
      obtain ⟨_, _, _, _, d5, _, _⟩ := scan_lowwater _ _ _ _ _ _ _ _ hs' (le_refl _)
        (fun _ => rfl) (fun j hj => by cases hj)
      rw [hs']
      cases e1 with
      | none =>
        simp only [Except.ok.injEq, Prod.mk.injEq] at h
        obtain ⟨rfl, rfl⟩ := h
        exact ⟨_, rfl, rfl, rfl, hl'.symm, fun j hj => (hR' j hj).symm, d5⟩
      | some e0 =>
        simp only [] at h ⊢
        have hlo := he' e0 rfl
        rw [← hR' e0 hlo]
        rcases hg : fs1[e0]? with _ | g
        · rw [hg] at h; cases h
        · rw [hg] at h
          simp only [Except.ok.injEq, Prod.mk.injEq] at h
          obtain ⟨rfl, rfl⟩ := h
          refine ⟨_, rfl, rfl, rfl, by simpa using hl'.symm, ?_, ?_⟩
          · intro j hj
            show (a'.set e0 g.SetHitHasBeenUsed)[j]? = (fs1.set e0 g.SetHitHasBeenUsed)[j]?
            by_cases hje : e0 = j
            · subst hje
              have h1 : e0 < fs1.length := (List.getElem?_eq_some_iff.mp hg).1
              rw [List.getElem?_set_self h1, List.getElem?_set_self (by omega)]
            · rw [List.getElem?_set_ne hje, List.getElem?_set_ne hje]
              exact (hR' j hj).symm
          · intro j hj
            show (a'.set e0 g.SetHitHasBeenUsed)[j]? = _
            rw [List.getElem?_set_ne (by omega)]
            exact d5 j hj

/-- C21: in the state `run` reached by any number of `GetHitsFromFiles` calls from
`startIndex = 0`, `startIndex` does not exceed the number of streams and every stream below it
is at end of file; a further call does not lower `startIndex`, leaves the streams below it as
they are, and does not depend on them: with other decoders in their place it returns the same
flag, hit and `startIndex`, leaves the streams from `startIndex` on in the same states, and
leaves those other decoders untouched. -/
theorem startIndex_low_water (fs : List CompassFile) (hit0 : CompassHit) (k : Nat)
    (run : CompassRun)
    (h : callsGetHitsFromFiles k { m_datafiles := fs, startIndex := 0, m_hit := hit0 }
      = .ok run) :
    run.m_datafiles.length = fs.length ∧ run.startIndex ≤ fs.length ∧
    (∀ j f, j < run.startIndex → run.m_datafiles[j]? = some f → f.IsEOF = true) ∧
    (∀ run1 b, run.GetHitsFromFiles = .ok (run1, b) →
      run.startIndex ≤ run1.startIndex ∧ run1.startIndex ≤ fs.length ∧
      ∀ j, j < run.startIndex → run1.m_datafiles[j]? = run.m_datafiles[j]?) ∧
    (∀ fs' : List CompassFile, fs'.length = run.m_datafiles.length →
      (∀ j, run.startIndex ≤ j → fs'[j]? = run.m_datafiles[j]?) →
      (∀ x, run.GetHitsFromFiles = .error x →
        GetHitsFromFiles { run with m_datafiles := fs' } = .error x) ∧
      (∀ run1 b, run.GetHitsFromFiles = .ok (run1, b) →
        ∃ run1', GetHitsFromFiles { run with m_datafiles := fs' } = .ok (run1', b) ∧
          run1'.m_hit = run1.m_hit ∧ run1'.startIndex = run1.startIndex ∧
          run1'.m_datafiles.length = run1.m_datafiles.length ∧
          (∀ j, run.startIndex ≤ j → run1'.m_datafiles[j]? = run1.m_datafiles[j]?) ∧
          (∀ j, j < run.startIndex → run1'.m_datafiles[j]? = fs'[j]?))) := by
  obtain ⟨c1, _, c3, c4⟩ := callsGetHitsFromFiles_inv k _ run h (Nat.zero_le _)
    (fun j f hj => absurd hj (Nat.not_lt_zero j))
  have c1 : run.m_datafiles.length = fs.length := c1
  refine ⟨c1, by omega, c4, ?_, fun fs' hlen hR => GetHitsFromFiles_below run fs' hlen hR⟩
  intro run1 b hg
  obtain ⟨d1, d2, d3, d4, _⟩ := GetHitsFromFiles_lowwater hg
  exact ⟨d2, by omega, d4⟩

/-- C21 on a header-only file followed by `fileA`: after two calls `startIndex` is 1, the
first stream is at end of file, and the third call keeps `startIndex` at 1 or above. -/
theorem startIndex_low_water_witness :
    ∃ run, callsGetHitsFromFiles 2 { m_datafiles := [streamEmpty, streamA] } = .ok run ∧
      run.startIndex = 1 ∧ run.m_datafiles.length = 2 ∧
      (∀ j f, j < run.startIndex → run.m_datafiles[j]? = some f → f.IsEOF = true) ∧
      ∀ run1 b, run.GetHitsFromFiles = .ok (run1, b) → run.startIndex ≤ run1.startIndex :=
  ⟨_, rfl, rfl,
    (startIndex_low_water [streamEmpty, streamA] {} 2 _ rfl).1,
    (startIndex_low_water [streamEmpty, streamA] {} 2 _ rfl).2.2.1,
    fun run1 b hg =>
      ((startIndex_low_water [streamEmpty, streamA] {} 2 _ rfl).2.2.2.1 run1 b hg).1⟩

/-! ## The reference merge -/

theorem advanceIfUsed_of_eof {f : CompassFile} (h : f.IsEOF = true) : advanceIfUsed f = .ok f := by
  unfold advanceIfUsed
  split
  · rw [GetNextHit_of_eof f h]
  · rfl

theorem advanceAll_ok : ∀ (fs fs1 : List CompassFile), fs1.length = fs.length →
    (∀ (j : Nat) f, fs[j]? = some f → ∃ f1, advanceIfUsed f = .ok f1 ∧ fs1[j]? = some f1) →
    advanceAll fs = .ok fs1 := by
  intro fs
  induction fs with
  | nil =>
    intro fs1 hlen _
    cases fs1 with
    | nil => rfl
    | cons a l => simp at hlen
  | cons f fs ih =>
    intro fs1 hlen hp
    cases fs1 with
    | nil => simp at hlen
    | cons f1 fs1 =>
      obtain ⟨g, hg, hg1⟩ := hp 0 f (by simp)
      simp only [List.getElem?_cons_zero, Option.some.injEq] at hg1
      subst hg1
      have := ih fs1 (by simpa using hlen) (fun j f hf => by
        obtain ⟨f1, h1, h2⟩ := hp (j + 1) f (by simpa using hf)
        exact ⟨f1, h1, by simpa using h2⟩)
      simp [advanceAll, hg, this]

theorem advanceAll_spec : ∀ (fs fs1 : List CompassFile), advanceAll fs = .ok fs1 →
    fs1.length = fs.length ∧
    ∀ (j : Nat) f, fs[j]? = some f → ∃ f1, advanceIfUsed f = .ok f1 ∧ fs1[j]? = some f1 := by
  intro fs
  induction fs with
  | nil =>
    intro fs1 h
    simp only [advanceAll, Except.ok.injEq] at h
    subst h
    exact ⟨rfl, fun j f hf => by simp at hf⟩
  | cons f fs ih =>
    intro fs1 h
    rw [advanceAll] at h
    rcases ha : advanceIfUsed f with e | f1
    · rw [ha] at h; cases h
    · rw [ha] at h
      simp only [] at h
      rcases hr : advanceAll fs with e | fs2
      · rw [hr] at h; cases h
      · rw [hr] at h
        cases h
        obtain ⟨h1, h2⟩ := ih fs2 hr
        refine ⟨by simp [h1], ?_⟩
        intro j g hg
        cases j with
        | zero =>
          simp only [List.getElem?_cons_zero, Option.some.injEq] at hg
          subst hg
          exact ⟨f1, ha, by simp⟩
        | succ j =>
          simp only [List.getElem?_cons_succ] at hg ⊢
          exact h2 j g hg

theorem advanceAll_error : ∀ (fs : List CompassFile) (k : Nat) (f : CompassFile) (x : Fault),
    fs[k]? = some f → advanceIfUsed f = .error x →
    (∀ (j : Nat) g, j < k → fs[j]? = some g → ∃ g1, advanceIfUsed g = .ok g1) →
    advanceAll fs = .error x := by
  intro fs
  induction fs with
  | nil => intro k f x hf; simp at hf
  | cons a fs ih =>
    intro k f x hf ha hbelow
    cases k with
    | zero =>
      simp only [List.getElem?_cons_zero, Option.some.injEq] at hf
      subst hf
      simp [advanceAll, ha]
    | succ k =>
      obtain ⟨a1, ha1⟩ := hbelow 0 a (by omega) (by simp)
      have := ih k f x (by simpa using hf) ha (fun j g hj hg =>
        hbelow (j + 1) g (by omega) (by simpa using hg))
      simp [advanceAll, ha1, this]

theorem earliestFrom_none : ∀ (fs : List CompassFile) (i : Nat),
    earliestFrom i fs = none ↔ ∀ f ∈ fs, f.IsEOF = true := by
  intro fs
  induction fs with
  | nil => intro i; simp [earliestFrom]
  | cons f fs ih =>
    intro i
    rw [earliestFrom]
    rcases hr : earliestFrom (i + 1) fs with _ | ⟨j, g⟩
    · have := (ih (i + 1)).mp hr
      by_cases hf : f.IsEOF = true
      · simp only [hf, if_true, List.mem_cons, forall_eq_or_imp, true_and, true_iff]
        exact this
      · simp [hf]
    · have hne : ¬ ∀ f ∈ fs, f.IsEOF = true := fun hh => by
        have := (ih (i + 1)).mpr hh
        rw [hr] at this
        cases this
      simp only []
      constructor
      · intro h
        split at h
        · cases h
        · split at h <;> cases h
      · intro h
        exact absurd (fun f hf => h f (List.mem_cons_of_mem _ hf)) hne

theorem earliestFrom_spec : ∀ (fs : List CompassFile) (i j : Nat) (g : CompassFile),
    earliestFrom i fs = some (j, g) →
    i ≤ j ∧ fs[j - i]? = some g ∧ g.IsEOF = false ∧
    ∀ (k : Nat) f, fs[k]? = some f → f.IsEOF = false →
      g.ts ≤ f.ts ∧ (i + k < j → g.ts < f.ts) := by
  intro fs
  induction fs with
  | nil => intro i j g h; simp [earliestFrom] at h
  | cons a fs ih =>
    intro i j g h
    rw [earliestFrom] at h
    rcases hr : earliestFrom (i + 1) fs with _ | ⟨j1, g1⟩
    · rw [hr] at h
      simp only [] at h
      have hall := (earliestFrom_none fs (i + 1)).mp hr
      split at h
      · cases h
      · rename_i ha
        simp only [Option.some.injEq, Prod.mk.injEq] at h
        obtain ⟨rfl, rfl⟩ := h
        refine ⟨le_refl _, by simp, by simpa using ha, ?_⟩
        intro k f hf hfe
        cases k with
        | zero =>
          simp only [List.getElem?_cons_zero, Option.some.injEq] at hf
          subst hf
          exact ⟨le_refl _, fun hh => by omega⟩
        | succ k =>
          simp only [List.getElem?_cons_succ] at hf
          have := hall f (List.getElem?_mem hf)
          rw [this] at hfe
          cases hfe
    · rw [hr] at h
      simp only [] at h
      obtain ⟨c1, c2, c3, c4⟩ := ih (i + 1) j1 g1 hr
      split at h
      · rename_i ha
        simp only [Option.some.injEq, Prod.mk.injEq] at h
        obtain ⟨rfl, rfl⟩ := h
        refine ⟨by omega, ?_, c3, ?_⟩
        · have : j1 - i = (j1 - (i + 1)) + 1 := by omega
          rw [this, List.getElem?_cons_succ]
          exact c2
        · intro k f hf hfe
          cases k with
          | zero =>
            simp only [List.getElem?_cons_zero, Option.some.injEq] at hf
            subst hf
            rw [ha] at hfe
            cases hfe
          | succ k =>
            simp only [List.getElem?_cons_succ] at hf
            obtain ⟨d1, d2⟩ := c4 k f hf hfe
            exact ⟨d1, fun hh => d2 (by omega)⟩
      · rename_i ha
        split at h
        · rename_i hle
          simp only [Option.some.injEq, Prod.mk.injEq] at h
          obtain ⟨rfl, rfl⟩ := h
          refine ⟨le_refl _, by simp, by simpa using ha, ?_⟩
          intro k f hf hfe
          cases k with
          | zero =>
            simp only [List.getElem?_cons_zero, Option.some.injEq] at hf
            subst hf
            exact ⟨le_refl _, fun hh => by omega⟩
          | succ k =>
            simp only [List.getElem?_cons_succ] at hf
            obtain ⟨d1, _⟩ := c4 k f hf hfe
            exact ⟨le_trans hle d1, fun hh => by omega⟩
        · rename_i hle
          simp only [Option.some.injEq, Prod.mk.injEq] at h
          obtain ⟨rfl, rfl⟩ := h
          refine ⟨by omega, ?_, c3, ?_⟩
          · have : j1 - i = (j1 - (i + 1)) + 1 := by omega
            rw [this, List.getElem?_cons_succ]
            exact c2
          · intro k f hf hfe
            cases k with
            | zero =>
              simp only [List.getElem?_cons_zero, Option.some.injEq] at hf
              subst hf
              have hlt : g1.GetCurrentHit.timestamp < a.GetCurrentHit.timestamp := by omega
              exact ⟨le_of_lt hlt, fun _ => hlt⟩
            | succ k =>
              simp only [List.getElem?_cons_succ] at hf
              obtain ⟨d1, d2⟩ := c4 k f hf hfe
              exact ⟨d1, fun hh => d2 (by omega)⟩

theorem earliestFrom_unique (fs : List CompassFile) (j : Nat) (g : CompassFile)
    (hg : fs[j]? = some g) (heof : g.IsEOF = false)
    (hmin : ∀ (k : Nat) f, fs[k]? = some f → f.IsEOF = false →
      g.ts ≤ f.ts ∧ (k < j → g.ts < f.ts)) :
    earliestFrom 0 fs = some (j, g) := by
  rcases hr : earliestFrom 0 fs with _ | ⟨j1, g1⟩
  · have := (earliestFrom_none fs 0).mp hr g (List.getElem?_mem hg)
    rw [this] at heof
    cases heof
  · obtain ⟨_, c2, c3, c4⟩ := earliestFrom_spec fs 0 j1 g1 hr
    simp only [Nat.sub_zero, Nat.zero_add] at c2 c4
    have h1 := hmin j1 g1 c2 c3
    have h2 := c4 j g hg heof
    have hj : j1 = j := by
      rcases Nat.lt_trichotomy j1 j with h | h | h
      · have := h1.2 h
        omega
      · exact h
      · have := h2.2 h
        omega
    subst hj
    rw [c2] at hg
    cases hg
    rfl

theorem scan_ok_adv (n : Nat) : ∀ (i : Nat) (fs : List CompassFile) (s : Nat) (e : Option Nat)
    (r : List CompassFile × Nat × Option Nat), scan n i fs s e = .ok r → fs.length ≤ i + n →
    ∀ (j : Nat) f, i ≤ j → fs[j]? = some f → ∃ f1, advanceIfUsed f = .ok f1 := by
  induction n with
  | zero =>
    intro i fs s e r _ hlen j f hij hf
    have := (List.getElem?_eq_some_iff.mp hf).1
    omega
  | succ n ih =>
    intro i fs s e r h hlen j f hij hf
    rw [scan] at h
    rcases hfi : fs[i]? with _ | fi
    · have := List.getElem?_eq_none_iff.mp hfi
      have := (List.getElem?_eq_some_iff.mp hf).1
      omega
    · rw [hfi] at h
      simp only [] at h
      rcases ha : advanceIfUsed fi with err | f1
      · rw [ha] at h; cases h
      · rw [ha] at h
        simp only [] at h
        by_cases hji : j = i
        · subst hji
          rw [hfi] at hf
          cases hf
          exact ⟨f1, ha⟩
        · have step : ∀ s' e', scan n (i + 1) (fs.set i f1) s' e' = .ok r →
              ∃ f1, advanceIfUsed f = .ok f1 := fun s' e' h' =>
            ih (i + 1) (fs.set i f1) s' e' r h' (by simp; omega) j f (by omega)
              (by rw [List.getElem?_set_ne (Ne.symm hji)]; exact hf)
          split at h
          · split at h
            · exact step _ _ h
            · exact step _ _ h
          · split at h
            · exact step _ _ h
            · split at h
              · cases h
              · split at h
                · cases h
                · split at h
                  · exact step _ _ h
                  · exact step _ _ h

theorem GetHitsFromFiles_ok_adv {run : CompassRun} {r : CompassRun × Bool}
    (h : run.GetHitsFromFiles = .ok r) :
    ∀ (j : Nat) f, run.startIndex ≤ j → run.m_datafiles[j]? = some f →
      ∃ f1, advanceIfUsed f = .ok f1 := by
  unfold GetHitsFromFiles at h
  rcases hs : scan run.m_datafiles.length run.startIndex run.m_datafiles run.startIndex none
    with e | r1
  · rw [hs] at h; cases h
  · exact scan_ok_adv _ _ _ _ _ _ hs (by omega)

theorem referenceMerge_of_adv (run : CompassRun)
    (hinv : ∀ (j : Nat) f, j < run.startIndex → run.m_datafiles[j]? = some f → f.IsEOF = true)
    (hadv : ∀ (j : Nat) f, run.startIndex ≤ j → run.m_datafiles[j]? = some f →
      ∃ f1, advanceIfUsed f = .ok f1) :
    ∃ r r' b, run.GetHitsFromFiles = .ok (r, b) ∧ referenceMerge run = .ok (r', b) ∧
      r'.m_hit = r.m_hit ∧ r'.m_datafiles = r.m_datafiles := by
  obtain ⟨fs1, s1, e1, hscan, hlen, hlow, hhigh, hs1, hcase⟩ := GetHitsFromFiles_scan run hadv
  have hall : advanceAll run.m_datafiles = .ok fs1 := by
    apply advanceAll_ok _ _ hlen
    intro j f hf
    by_cases hj : j < run.startIndex
    · exact ⟨f, advanceIfUsed_of_eof (hinv j f hj hf), by rw [hlow j hj]; exact hf⟩
    · exact hhigh j f (by omega) hf
  have hlowEof : ∀ (j : Nat) g, j < run.startIndex → fs1[j]? = some g → g.IsEOF = true := by
    intro j g hj hg
    rw [hlow j hj] at hg
    exact hinv j g hj hg
  rcases hcase with ⟨he, heofs, hget⟩ | ⟨j, g, he, hg, hgeof, hsj, hbelow, hmin, hget⟩
  · have hnone : earliestFrom 0 fs1 = none := by
      apply (earliestFrom_none fs1 0).mpr
      intro f hf
      obtain ⟨k, hk⟩ := List.getElem?_of_mem hf
      by_cases hks : k < run.startIndex
      · exact hlowEof k f hks hk
      · exact heofs k f (by omega) hk
    exact ⟨_, { run with m_datafiles := fs1 }, false, hget,
      by simp [referenceMerge, hall, hnone], rfl, rfl⟩
  · have hsome : earliestFrom 0 fs1 = some (j, g) := by
      apply earliestFrom_unique fs1 j g hg hgeof
      intro k f hf hfe
      by_cases hks : k < run.startIndex
      · have := hlowEof k f hks hf
        rw [this] at hfe
        cases hfe
      · by_cases hk1 : k < s1
        · have := hbelow k f (by omega) hk1 hf
          rw [this] at hfe
          cases hfe
        · exact hmin k f (by omega) hf hfe
    exact ⟨_, { run with m_datafiles := fs1.set j g.SetHitHasBeenUsed
                         m_hit := g.GetCurrentHit }, true, hget,
      by simp [referenceMerge, hall, hsome], rfl, rfl⟩

theorem GetHitsFromFiles_refines (run : CompassRun)
    (hinv : ∀ (j : Nat) f, j < run.startIndex → run.m_datafiles[j]? = some f → f.IsEOF = true) :
    (∀ r b, run.GetHitsFromFiles = .ok (r, b) →
      ∃ r', referenceMerge run = .ok (r', b) ∧ r'.m_hit = r.m_hit ∧
        r'.m_datafiles = r.m_datafiles) ∧
    (∀ r' b, referenceMerge run = .ok (r', b) →
      ∃ r, run.GetHitsFromFiles = .ok (r, b) ∧ r'.m_hit = r.m_hit ∧
        r'.m_datafiles = r.m_datafiles) ∧
    (∀ x, run.GetHitsFromFiles = .error x ↔ referenceMerge run = .error x) := by
  have herr : ∀ x, run.GetHitsFromFiles = .error x → referenceMerge run = .error x := by
    intro x h
    obtain ⟨k, f, hk, hf, ha, hbelow⟩ := GetHitsFromFiles_error h
    have : advanceAll run.m_datafiles = .error x := by
      apply advanceAll_error _ k f x hf ha
      intro j g hj hg
      by_cases hjs : j < run.startIndex
      · exact ⟨g, advanceIfUsed_of_eof (hinv j g hjs hg)⟩
      · exact hbelow j g (by omega) hj hg
    simp [referenceMerge, this]
  have hadv_ref : ∀ r', referenceMerge run = .ok r' →
      ∀ (j : Nat) f, run.startIndex ≤ j → run.m_datafiles[j]? = some f →
        ∃ f1, advanceIfUsed f = .ok f1 := by
    intro r' h j f _ hf
    unfold referenceMerge at h
    rcases ha : advanceAll run.m_datafiles with e | fs1
    · rw [ha] at h; cases h
    · obtain ⟨f1, h1, _⟩ := (advanceAll_spec _ _ ha).2 j f hf
      exact ⟨f1, h1⟩
  refine ⟨?_, ?_, ?_⟩
  · intro r b h
    obtain ⟨r0, r', b0, h1, h2, h3, h4⟩ := referenceMerge_of_adv run hinv (GetHitsFromFiles_ok_adv h)
    rw [h] at h1
    cases h1
    exact ⟨r', h2, h3, h4⟩
  · intro r' b h
    obtain ⟨r0, r1, b0, h1, h2, h3, h4⟩ := referenceMerge_of_adv run hinv (hadv_ref _ h)
    rw [h] at h2
    cases h2
    exact ⟨r0, h1, h3, h4⟩
  · intro x
    refine ⟨herr x, fun h => ?_⟩
    rcases hg : run.GetHitsFromFiles with y | ⟨r, b⟩
    · have := herr y hg
      rw [h] at this
      cases this
      rfl
    · obtain ⟨r0, r', b0, h1, h2, _⟩ := referenceMerge_of_adv run hinv (GetHitsFromFiles_ok_adv hg)
      rw [h] at h2
      cases h2

/-- C22: in the state `run` reached by any number of `GetHitsFromFiles` calls from
`startIndex = 0`, the next call and the reference merge, which rescans all streams from index 0
and selects the lowest-index stream not at end of file with the minimum timestamp, agree: when
one returns so does the other, with the same flag, the same hit and every stream in the same
state, and when one faults so does the other, in the same way. -/
theorem GetHitsFromFiles_reference (fs : List CompassFile) (hit0 : CompassHit) (k : Nat)
    (run : CompassRun)
    (h : callsGetHitsFromFiles k { m_datafiles := fs, startIndex := 0, m_hit := hit0 }
      = .ok run) :
    (∀ r b, run.GetHitsFromFiles = .ok (r, b) →
      ∃ r', referenceMerge run = .ok (r', b) ∧ r'.m_hit = r.m_hit ∧
        r'.m_datafiles = r.m_datafiles) ∧
    (∀ r' b, referenceMerge run = .ok (r', b) →
      ∃ r, run.GetHitsFromFiles = .ok (r, b) ∧ r'.m_hit = r.m_hit ∧
        r'.m_datafiles = r.m_datafiles) ∧
    (∀ x, run.GetHitsFromFiles = .error x ↔ referenceMerge run = .error x) := by
  obtain ⟨_, _, _, c4⟩ := callsGetHitsFromFiles_inv k _ run h (Nat.zero_le _)
    (fun j f hj => absurd hj (Nat.not_lt_zero j))
  exact GetHitsFromFiles_refines run c4

/-- C22 on a header-only file followed by `fileA` and `fileB`, after two calls: `startIndex` is
1, and the third call and the reference merge both return the hit of timestamp 20. -/
theorem GetHitsFromFiles_reference_witness :
    callsGetHitsFromFiles 2 { m_datafiles := [streamEmpty, streamA, streamB] }
      = .ok runPastEmpty ∧
    runPastEmpty.startIndex = 1 ∧
    ∃ r r', runPastEmpty.GetHitsFromFiles = .ok (r, true) ∧ r.m_hit.timestamp = 20 ∧
      referenceMerge runPastEmpty = .ok (r', true) ∧ r'.m_hit = r.m_hit ∧
      r'.m_datafiles = r.m_datafiles := by
  have hr : runPastEmpty.GetHitsFromFiles
      = .ok ((match runPastEmpty.GetHitsFromFiles with
              | .ok (r, _) => r
              | .error _ => {}), true) := by rfl
  obtain ⟨r', h1, h2, h3⟩ :=
    (GetHitsFromFiles_reference [streamEmpty, streamA, streamB] {} 2 runPastEmpty (by rfl)).1
      _ true hr
  exact ⟨by rfl, by rfl, _, r', hr, by rfl, h1, h2, h3⟩

/-! ## Determinism of a decoder -/

theorem Open_sizes (f : CompassFile) (sz nh : Int) (file : Option (List Byte)) :
    Open { f with m_size := sz, m_nHits := nh } file = Open f file := rfl

theorem Open_header (f : CompassFile) (hd : Nat) (file : Option (List Byte))
    (hne : ∀ bytes, file = some bytes → bytes.length ≠ 2)
    (hclosed : f.m_file.is_open = false) (hsz : f.m_hitsize = 0) :
    Open { f with m_header := hd } file = Open f file := by
  cases file with
  | none =>
    simp [Open, IFStream.openFile, hclosed, IFStream.seekgEnd, IFStream.seekgBeg,
      IFStream.tellg, ReadHeader, CompassFile.IsOpen, hsz]
  | some bytes =>
    have hlen : ((bytes.length : Nat) : Int) ≠ 2 := by
      have := hne bytes rfl
      omega
    simp only [Open, IFStream.openFile, hclosed, IFStream.seekgEnd, IFStream.seekgBeg,
      IFStream.tellg, Bool.false_eq_true, if_false, hlen]
    unfold ReadHeader
    simp only [CompassFile.IsOpen, Bool.not_true, Bool.false_eq_true, if_false]

theorem observe_of_Fresh (f0 : CompassFile) (bsize : Nat) (file : Option (List Byte))
    (smap : ShiftMap) (k : Nat) (h : Fresh f0 bsize) :
    f0.observe file smap k = observe { m_bufsize := bsize } file smap k := by
  rcases f0 with ⟨hb, bi, be, sm0, hu, bs, hs, hd0, bsz0, ch, fl, ef, sz, nh⟩
  obtain ⟨h1, h2, h3, h4, h5, h6, h7, h8, h9, h10, h11⟩ := h
  simp only at h1 h2 h3 h4 h5 h6 h7 h8 h9 h10 h11
  subst h1 h2 h3 h4 h5 h6 h7 h8 h9 h10 h11
  by_cases hlen : ∃ b0 b1, file = some [b0, b1]
  · obtain ⟨b0, b1, rfl⟩ := hlen
    have hO : ∀ f : CompassFile, f.m_file.is_open = false →
        f.observe (some [b0, b1]) smap k = .ok (List.replicate k (true, f.m_currentHit)) := by
      intro f hclosed
      have hg : f.Open (some [b0, b1]) = .ok
          { f with
            m_eofFlag := true, m_hitUsedFlag := true, m_nHits := 0, m_size := 2
            m_file := { f.m_file with
              content := [b0, b1], is_open := true, pos := 2, eofbit := false,
              failbit := false } } := by
        simp [Open, IFStream.openFile, hclosed, IFStream.seekgEnd, IFStream.tellg]
      unfold observe
      rw [hg]
      simp only []
      rw [callsGetNextHit_of_eof k _ (by rfl)]
      rfl
    rw [hO _ rfl, hO _ rfl]
  · have hne : ∀ bytes, file = some bytes → bytes.length ≠ 2 := by
      intro bytes hb hl
      apply hlen
      match bytes, hl with
      | [b0, b1], _ => exact ⟨b0, b1, hb⟩
    unfold observe
    have e1 := Open_sizes { m_bufsize := bs, m_header := hd0 } sz nh file
    have e2 := Open_header { m_bufsize := bs } hd0 file hne rfl rfl
    have e3 : Open ⟨[], none, none, none, true, bs, 0, hd0, 0, {}, {}, false, sz, nh⟩ file
        = Open { m_bufsize := bs } file := e1.trans e2
    rw [e3]

/-- C23: two decoder objects freshly constructed with the same batch size, opened on the same
file (or both on a path that cannot be opened) and given the same ShiftMap yield, over any number
of `GetNextHit` calls, the same sequence of end-of-file results and current hits, or the same
fault: the sequence is the function `observe { m_bufsize := bsize }` of the file bytes, the batch
size and the ShiftMap, whatever the members the constructor leaves unset held. -/
theorem decode_deterministic (f0 f0' : CompassFile) (bsize : Nat) (file : Option (List Byte))
    (smap : ShiftMap) (k : Nat) (h : Fresh f0 bsize) (h' : Fresh f0' bsize) :
    f0.observe file smap k = f0'.observe file smap k ∧
    f0.observe file smap k = observe { m_bufsize := bsize } file smap k :=
  ⟨(observe_of_Fresh f0 bsize file smap k h).trans
      (observe_of_Fresh f0' bsize file smap k h').symm,
    observe_of_Fresh f0 bsize file smap k h⟩

/-- C23 on `fileA` with batch size 3 and an offset of 5 for global channel 1: a decoder object
whose unset members hold other values yields the same three results as the plain one, the hits
of timestamps 15 and 205 and then the end of the file. -/
theorem decode_deterministic_witness :
    Fresh { m_bufsize := 3, m_header := 65535, m_size := 77, m_nHits := -5 } 3 ∧
    Fresh { m_bufsize := 3 } 3 ∧
    observe { m_bufsize := 3, m_header := 65535, m_size := 77, m_nHits := -5 } (some fileA)
        { m_map := [(1, 5)] } 3
      = observe { m_bufsize := 3 } (some fileA) { m_map := [(1, 5)] } 3 ∧
    observe { m_bufsize := 3 } (some fileA) { m_map := [(1, 5)] } 3
      = .ok [(false, { channel := 1, timestamp := 15 }),
             (false, { channel := 1, timestamp := 205 }),
             (true, { channel := 1, timestamp := 205 })] :=
  ⟨⟨rfl, rfl, rfl, rfl, rfl, rfl, rfl, rfl, rfl, rfl, rfl⟩,
    ⟨rfl, rfl, rfl, rfl, rfl, rfl, rfl, rfl, rfl, rfl, rfl⟩,
    (decode_deterministic _ _ 3 (some fileA) { m_map := [(1, 5)] } 3
      ⟨rfl, rfl, rfl, rfl, rfl, rfl, rfl, rfl, rfl, rfl, rfl⟩
      ⟨rfl, rfl, rfl, rfl, rfl, rfl, rfl, rfl, rfl, rfl, rfl⟩).1,
    by rfl⟩

/-! ## The cursor of `ParseNextHit` -/

namespace SFPAnalyzer

theorem at0_congr {K : Type} [LinearOrderedField K]
    {v v' : List (DetectorHit K)} (h : v.head? = v'.head?) :
    at0 v = at0 v' ∧ v.isEmpty = v'.isEmpty := by
  cases v <;> cases v' <;> simp_all [at0]

theorem at0_error {K : Type} [LinearOrderedField K]
    {v : List (DetectorHit K)} {x : Fault} (h : at0 v = .error x) :
    v = [] ∧ x = .bufferOverrun := by
  cases v with
  | nil => simp only [at0, Except.error.injEq] at h; exact ⟨rfl, h.symm⟩
  | cons a as => simp [at0] at h

theorem runStatements_append {K : Type} [LinearOrderedField K]
    (l1 l2 : List (Statement K)) (e : CoincEvent K)
    (p : ProcessedEvent K) :
    runStatements (l1 ++ l2) e p =
      match runStatements l1 e p with
      | .error x => .error x
      | .ok q => runStatements l2 e q := by
  induction l1 generalizing p with
  | nil => rfl
  | cons st l1 ih =>
    simp only [List.cons_append, runStatements]
    cases st e p with
    | error x => rfl
    | ok q => exact ih q

theorem runStatements_keeps {K : Type} [LinearOrderedField K]
    {α : Type} (f : ProcessedEvent K → α) (l : List (Statement K))
    (e : CoincEvent K)
    (hl : ∀ st ∈ l, ∀ p p', st e p = .ok p' → f p' = f p) :
    ∀ p p', runStatements l e p = .ok p' → f p' = f p := by
  induction l with
  | nil =>
    intro p p' h
    simp only [runStatements, Except.ok.injEq] at h
    rw [h]
  | cons st l ih =>
    intro p p' h
    simp only [runStatements] at h
    rcases hs : st e p with x | q
    · rw [hs] at h; cases h
    · rw [hs] at h
      simp only [] at h
      rw [ih (fun st hst => hl st (List.mem_cons_of_mem _ hst)) q p' h]
      exact hl st (List.mem_cons_self _ _) p q hs

theorem runStatements_total {K : Type} [LinearOrderedField K]
    (l : List (Statement K)) (e : CoincEvent K)
    (hl : ∀ st ∈ l, ∀ p, ∃ p', st e p = .ok p') :
    ∀ p, ∃ p', runStatements l e p = .ok p' := by
  induction l with
  | nil => exact fun p => ⟨p, rfl⟩
  | cons st l ih =>
    intro p
    obtain ⟨q, hq⟩ := hl st (List.mem_cons_self _ _) p
    obtain ⟨r, hr⟩ := ih (fun st hst => hl st (List.mem_cons_of_mem _ hst)) q
    exact ⟨r, by simp only [runStatements, hq, hr]⟩

theorem runStatements_fault {K : Type} [LinearOrderedField K]
    (l : List (Statement K)) (e : CoincEvent K)
    (hl : ∀ st ∈ l, (∀ p, ∃ p', st e p = .ok p') ∨ (∀ p, st e p = .error .bufferOverrun))
    (hex : ∃ st ∈ l, ∀ p, st e p = .error .bufferOverrun) :
    ∀ p, runStatements l e p = .error .bufferOverrun := by
  induction l with
  | nil =>
    obtain ⟨st, hst, -⟩ := hex
    cases hst
  | cons st l ih =>
    intro p
    rcases hl st (List.mem_cons_self _ _) with htot | hflt
    · obtain ⟨q, hq⟩ := htot p
      have hex2 : ∃ st ∈ l, ∀ p, st e p = .error .bufferOverrun := by
        obtain ⟨st2, hst2, hf⟩ := hex
        rcases List.mem_cons.mp hst2 with rfl | hmem
        · rw [hf p] at hq; cases hq
        · exact ⟨st2, hmem, hf⟩
      simp only [runStatements, hq]
      exact ih (fun st hst => hl st (List.mem_cons_of_mem _ hst)) hex2 q
    · simp only [runStatements, hflt p]

theorem statements_keep_positions {K : Type} [LinearOrderedField K] (w1 w2 : K) (e : CoincEvent K) :
    ∀ st ∈ roleStatements ++ sabreLoop ++ anodeStatements w1 w2, ∀ p p', st e p = .ok p' →
      (p'.x1, p'.x2, p'.xavg, p'.theta) = (p.x1, p.x2, p.xavg, p.theta) := by
  intro st hst
  simp only [roleStatements, sabreLoop, anodeStatements, List.cons_append, List.nil_append, List.append_assoc,
    List.mem_cons, List.mem_singleton, List.not_mem_nil, or_false] at hst
  rcases hst with rfl | rfl | rfl | rfl | rfl | rfl | rfl | rfl | rfl | rfl | rfl | rfl | rfl |
      rfl | rfl | rfl | rfl | rfl | rfl | rfl | rfl | rfl | rfl | rfl | rfl | rfl | rfl | rfl |
      rfl | rfl | rfl
  all_goals
    intro p p' h
    simp only [stAnodeF, stAnodeB, stScintL, stScintR, stCathode, stMonitor, stDelayFR, stDelayFL,
    stDelayBR, stDelayBL, stX1, stX2, stSabre, stXavg, stX1FL, stX1FR, stTsumA, stX2BL, stX2BR,
    stTsumB, stTildeFL, stTildeFR, stTildeBL, stTildeBR, stXavgTildeFRBL, stXavgTildeFLBR,
    stXavgTildeFLBL, stXavgTildeFRBR, stFp1Y, stFp2Y, bind, Except.bind, pure, Except.pure] at h
    repeat' split at h
    all_goals first | (cases h; rfl) | cases h

theorem ok_of_ne_error {α : Type} {r : Except Fault α} (h : ∀ x, r ≠ .error x) :
    ∃ q, r = .ok q := by
  cases r with
  | error x => exact absurd rfl (h x)
  | ok q => exact ⟨q, rfl⟩

theorem statements_plain_total {K : Type} [LinearOrderedField K]
    (w1 w2 : K) (m : Libm K) (e : CoincEvent K) :
    ∀ st ∈ roleStatements ++ sabreLoop ++
        [stXavg w1 w2 m, stTsumA, stTsumB, stTildeFL, stTildeFR, stTildeBL, stTildeBR,
         stXavgTildeFRBL w1 w2, stXavgTildeFLBR w1 w2, stXavgTildeFLBL w1 w2,
         stXavgTildeFRBR w1 w2, stFp1Y, stFp2Y],
      ∀ p, ∃ p', st e p = .ok p' := by
  intro st hst
  simp only [roleStatements, sabreLoop, List.cons_append, List.nil_append, List.append_assoc,
    List.mem_cons, List.mem_singleton, List.not_mem_nil, or_false] at hst
  rcases hst with rfl | rfl | rfl | rfl | rfl | rfl | rfl | rfl | rfl | rfl | rfl | rfl | rfl |
      rfl | rfl | rfl | rfl | rfl | rfl | rfl | rfl | rfl | rfl | rfl | rfl | rfl | rfl | rfl
  all_goals
    intro p
    apply ok_of_ne_error
    intro x h
    simp only [stAnodeF, stAnodeB, stScintL, stScintR, stCathode, stMonitor, stDelayFR, stDelayFL,
    stDelayBR, stDelayBL, stX1, stX2, stSabre, stXavg, stX1FL, stX1FR, stTsumA, stX2BL, stX2BR,
    stTsumB, stTildeFL, stTildeFR, stTildeBL, stTildeBR, stXavgTildeFRBL, stXavgTildeFLBR,
    stXavgTildeFLBL, stXavgTildeFRBR, stFp1Y, stFp2Y, bind, Except.bind, pure, Except.pure] at h
    repeat' split at h
    all_goals try cases h
    all_goals first
      | cases ‹Except.ok _ = Except.error _›
      | (exfalso; have hv := at0_error ‹at0 _ = Except.error _›; simp_all)

theorem stX1_total_or_fault {K : Type} [LinearOrderedField K] (e : CoincEvent K) :
    ((e.focalPlane.scintL ≠ [] ∨ readsScintL e = false) → ∀ p, ∃ p', stX1 e p = .ok p') ∧
    (e.focalPlane.scintL = [] →
      (!e.focalPlane.delayFL.isEmpty && !e.focalPlane.delayFR.isEmpty) = true →
      readsScintL e = true ∧ ∀ p, stX1 e p = .error .bufferOverrun) ∧
    ((∀ p, ∃ p', stX1 e p = .ok p') ∨ (∀ p, stX1 e p = .error .bufferOverrun)) := by
  rcases ha : e.focalPlane.delayFL with _ | ⟨a, as⟩ <;>
    rcases hb : e.focalPlane.delayFR with _ | ⟨b, bs⟩ <;>
    rcases hs : e.focalPlane.scintL with _ | ⟨s, ss⟩ <;>
    simp [stX1, readsScintL, at0, ha, hb, hs, bind, Except.bind, pure, Except.pure]

theorem stX2_total_or_fault {K : Type} [LinearOrderedField K] (e : CoincEvent K) :
    ((e.focalPlane.scintL ≠ [] ∨ readsScintL e = false) → ∀ p, ∃ p', stX2 e p = .ok p') ∧
    (e.focalPlane.scintL = [] →
      (!e.focalPlane.delayBL.isEmpty && !e.focalPlane.delayBR.isEmpty) = true →
      readsScintL e = true ∧ ∀ p, stX2 e p = .error .bufferOverrun) ∧
    ((∀ p, ∃ p', stX2 e p = .ok p') ∨ (∀ p, stX2 e p = .error .bufferOverrun)) := by
  rcases ha : e.focalPlane.delayBL with _ | ⟨a, as⟩ <;>
    rcases hb : e.focalPlane.delayBR with _ | ⟨b, bs⟩ <;>
    rcases hs : e.focalPlane.scintL with _ | ⟨s, ss⟩ <;>
    simp [stX2, readsScintL, at0, ha, hb, hs, bind, Except.bind, pure, Except.pure]

theorem stX1FL_total_or_fault {K : Type} [LinearOrderedField K] (e : CoincEvent K) :
    ((e.focalPlane.scintL ≠ [] ∨ readsScintL e = false) → ∀ p, ∃ p', stX1FL e p = .ok p') ∧
    (e.focalPlane.scintL = [] →
      (!e.focalPlane.delayFL.isEmpty && !e.focalPlane.anodeF.isEmpty) = true →
      readsScintL e = true ∧ ∀ p, stX1FL e p = .error .bufferOverrun) ∧
    ((∀ p, ∃ p', stX1FL e p = .ok p') ∨ (∀ p, stX1FL e p = .error .bufferOverrun)) := by
  rcases ha : e.focalPlane.delayFL with _ | ⟨a, as⟩ <;>
    rcases hb : e.focalPlane.anodeF with _ | ⟨b, bs⟩ <;>
    rcases hs : e.focalPlane.scintL with _ | ⟨s, ss⟩ <;>
    simp [stX1FL, readsScintL, at0, ha, hb, hs, bind, Except.bind, pure, Except.pure]

theorem stX1FR_total_or_fault {K : Type} [LinearOrderedField K] (e : CoincEvent K) :
    ((e.focalPlane.scintL ≠ [] ∨ readsScintL e = false) → ∀ p, ∃ p', stX1FR e p = .ok p') ∧
    (e.focalPlane.scintL = [] →
      (!e.focalPlane.delayFR.isEmpty && !e.focalPlane.anodeF.isEmpty) = true →
      readsScintL e = true ∧ ∀ p, stX1FR e p = .error .bufferOverrun) ∧
    ((∀ p, ∃ p', stX1FR e p = .ok p') ∨ (∀ p, stX1FR e p = .error .bufferOverrun)) := by
  rcases ha : e.focalPlane.delayFR with _ | ⟨a, as⟩ <;>
    rcases hb : e.focalPlane.anodeF with _ | ⟨b, bs⟩ <;>
    rcases hs : e.focalPlane.scintL with _ | ⟨s, ss⟩ <;>
    simp [stX1FR, readsScintL, at0, ha, hb, hs, bind, Except.bind, pure, Except.pure]

theorem stX2BL_total_or_fault {K : Type} [LinearOrderedField K] (e : CoincEvent K) :
    ((e.focalPlane.scintL ≠ [] ∨ readsScintL e = false) → ∀ p, ∃ p', stX2BL e p = .ok p') ∧
    (e.focalPlane.scintL = [] →
      (!e.focalPlane.delayBL.isEmpty && !e.focalPlane.anodeB.isEmpty) = true →
      readsScintL e = true ∧ ∀ p, stX2BL e p = .error .bufferOverrun) ∧
    ((∀ p, ∃ p', stX2BL e p = .ok p') ∨ (∀ p, stX2BL e p = .error .bufferOverrun)) := by
  rcases ha : e.focalPlane.delayBL with _ | ⟨a, as⟩ <;>
    rcases hb : e.focalPlane.anodeB with _ | ⟨b, bs⟩ <;>
    rcases hs : e.focalPlane.scintL with _ | ⟨s, ss⟩ <;>
    simp [stX2BL, readsScintL, at0, ha, hb, hs, bind, Except.bind, pure, Except.pure]

theorem stX2BR_total_or_fault {K : Type} [LinearOrderedField K] (e : CoincEvent K) :
    ((e.focalPlane.scintL ≠ [] ∨ readsScintL e = false) → ∀ p, ∃ p', stX2BR e p = .ok p') ∧
    (e.focalPlane.scintL = [] →
      (!e.focalPlane.delayBR.isEmpty && !e.focalPlane.anodeB.isEmpty) = true →
      readsScintL e = true ∧ ∀ p, stX2BR e p = .error .bufferOverrun) ∧
    ((∀ p, ∃ p', stX2BR e p = .ok p') ∨ (∀ p, stX2BR e p = .error .bufferOverrun)) := by
  rcases ha : e.focalPlane.delayBR with _ | ⟨a, as⟩ <;>
    rcases hb : e.focalPlane.anodeB with _ | ⟨b, bs⟩ <;>
    rcases hs : e.focalPlane.scintL with _ | ⟨s, ss⟩ <;>
    simp [stX2BR, readsScintL, at0, ha, hb, hs, bind, Except.bind, pure, Except.pure]

theorem statements_total_or_fault {K : Type} [LinearOrderedField K]
    (w1 w2 : K) (m : Libm K) (e : CoincEvent K) :
    ∀ st ∈ statements w1 w2 m,
      ((e.focalPlane.scintL ≠ [] ∨ readsScintL e = false) → ∀ p, ∃ p', st e p = .ok p') ∧
      ((∀ p, ∃ p', st e p = .ok p') ∨ (∀ p, st e p = .error .bufferOverrun)) := by
  have plain := statements_plain_total w1 w2 m e
  simp only [roleStatements, sabreLoop, anodeStatements, List.cons_append, List.nil_append,
    List.append_assoc, List.forall_mem_cons] at plain
  obtain ⟨q1, q2, q3, q4, q5, q6, q7, q8, q9, q10, q11, q12, q13, q14, q15, q16, q17, q18, q19,
    q20, q21, q22, q23, q24, q25, q26, q27, q28, -⟩ := plain
  intro st hst
  simp only [statements, roleStatements, sabreLoop, anodeStatements, List.cons_append, List.nil_append, List.append_assoc,
    List.mem_cons, List.mem_singleton, List.not_mem_nil, or_false] at hst
  rcases hst with rfl | rfl | rfl | rfl | rfl | rfl | rfl | rfl | rfl | rfl | rfl | rfl | rfl |
      rfl | rfl | rfl | rfl | rfl | rfl | rfl | rfl | rfl | rfl | rfl | rfl | rfl | rfl | rfl |
      rfl | rfl | rfl | rfl | rfl | rfl
  all_goals first
    | exact ⟨fun _ => by assumption, Or.inl (by assumption)⟩
    | exact ⟨(stX1_total_or_fault e).1, (stX1_total_or_fault e).2.2⟩
    | exact ⟨(stX2_total_or_fault e).1, (stX2_total_or_fault e).2.2⟩
    | exact ⟨(stX1FL_total_or_fault e).1, (stX1FL_total_or_fault e).2.2⟩
    | exact ⟨(stX1FR_total_or_fault e).1, (stX1FR_total_or_fault e).2.2⟩
    | exact ⟨(stX2BL_total_or_fault e).1, (stX2BL_total_or_fault e).2.2⟩
    | exact ⟨(stX2BR_total_or_fault e).1, (stX2BR_total_or_fault e).2.2⟩

theorem statements_fault {K : Type} [LinearOrderedField K]
    (w1 w2 : K) (m : Libm K) (e : CoincEvent K)
    (hs : e.focalPlane.scintL = []) (hr : readsScintL e = true) :
    ∃ st ∈ statements w1 w2 m, ∀ p, st e p = .error .bufferOverrun := by
  simp only [readsScintL, Bool.or_eq_true] at hr
  have hmem : ∀ st : Statement K, st ∈ [stX1, stX2, stX1FL, stX1FR, stX2BL, stX2BR] →
      st ∈ statements w1 w2 m := by
    intro st hst
    simp only [List.mem_cons, List.mem_singleton, List.not_mem_nil, or_false] at hst
    simp only [statements, roleStatements, sabreLoop, anodeStatements, List.cons_append, List.nil_append, List.append_assoc,
    List.mem_cons, List.mem_singleton, List.not_mem_nil, or_false]
    rcases hst with rfl | rfl | rfl | rfl | rfl | rfl <;> simp
  rcases hr with ((((h | h) | h) | h) | h) | h
  · exact ⟨stX1, hmem _ (by simp), ((stX1_total_or_fault e).2.1 hs h).2⟩
  · exact ⟨stX2, hmem _ (by simp), ((stX2_total_or_fault e).2.1 hs h).2⟩
  · exact ⟨stX1FL, hmem _ (by simp), ((stX1FL_total_or_fault e).2.1 hs h).2⟩
  · exact ⟨stX1FR, hmem _ (by simp), ((stX1FR_total_or_fault e).2.1 hs h).2⟩
  · exact ⟨stX2BL, hmem _ (by simp), ((stX2BL_total_or_fault e).2.1 hs h).2⟩
  · exact ⟨stX2BR, hmem _ (by simp), ((stX2BR_total_or_fault e).2.1 hs h).2⟩

theorem runStatements_faults_iff {K : Type} [LinearOrderedField K]
    (w1 w2 : K) (m : Libm K) (e : CoincEvent K)
    (p : ProcessedEvent K) :
    ((e.focalPlane.scintL ≠ [] ∨ readsScintL e = false) →
      ∃ p', runStatements (statements w1 w2 m) e p = .ok p') ∧
    (e.focalPlane.scintL = [] → readsScintL e = true →
      runStatements (statements w1 w2 m) e p = .error .bufferOverrun) :=
  ⟨fun h => runStatements_total _ e
      (fun st hst => (statements_total_or_fault w1 w2 m e st hst).1 h) p,
    fun hs hr => runStatements_fault _ e
      (fun st hst => (statements_total_or_fault w1 w2 m e st hst).2)
      (statements_fault w1 w2 m e hs hr) p⟩

theorem AnalyzeEvent_eq {K : Type} [LinearOrderedField K]
    (a : SFPAnalyzer K) (m : Libm K) (e : CoincEvent K) :
    a.AnalyzeEvent m e =
      match runStatements (statements a.w1 a.w2 m) e a.blank with
      | .error x => .error x
      | .ok pevent => .ok { a with pevent := pevent } := rfl

/-- C28: `AnalyzeEvent` is not total. It faults, by reading `scintL[0]` of an empty vector, on
exactly the events whose left scintillator has no hit while one of the six statements that read
`scintL[0]` is entered (both front delay lines hit, both back delay lines hit, or a delay line
and the anode of its wire hit); on every other event it returns. -/
theorem AnalyzeEvent_reads_scintL_unguarded {K : Type} [LinearOrderedField K]
    (a : SFPAnalyzer K) (m : Libm K)
    (e : CoincEvent K) :
    (a.AnalyzeEvent m e = .error .bufferOverrun ↔
      (e.focalPlane.scintL = [] ∧ readsScintL e = true)) ∧
    ((∃ a', a.AnalyzeEvent m e = .ok a') ↔
      (e.focalPlane.scintL ≠ [] ∨ readsScintL e = false)) := by
  have key := runStatements_faults_iff a.w1 a.w2 m e a.blank
  rw [AnalyzeEvent_eq]
  by_cases hc : e.focalPlane.scintL = [] ∧ readsScintL e = true
  · have hf := key.2 hc.1 hc.2
    rw [hf]
    simp [hc.1, hc.2]
  · have hc' : e.focalPlane.scintL ≠ [] ∨ readsScintL e = false := by
      by_cases h1 : e.focalPlane.scintL = []
      · right
        simpa [h1] using hc
      · exact Or.inl h1
    obtain ⟨p', hp⟩ := key.1 hc'
    rw [hp]
    simp [hc, hc']

end SFPAnalyzer

/-- C28 on an event with a hit on each front delay line and none on the left scintillator:
`AnalyzeEvent` reads `scintL[0]` of the empty vector. -/
theorem AnalyzeEvent_reads_scintL_unguarded_witness :
    eventNoScint.focalPlane.scintL = [] ∧
    eventNoScint.focalPlane.delayFL ≠ [] ∧ eventNoScint.focalPlane.delayFR ≠ [] ∧
    (SFPAnalyzer.construct 0).AnalyzeEvent ratLibm eventNoScint = .error .bufferOverrun :=
  ⟨rfl, by simp [eventNoScint], by simp [eventNoScint],
    (SFPAnalyzer.AnalyzeEvent_reads_scintL_unguarded _ ratLibm eventNoScint).1.mpr
      ⟨rfl, by rfl⟩⟩

namespace SFPAnalyzer

theorem FirstHitsAgree_refl {K : Type} [LinearOrderedField K]
    (e : CoincEvent K) : FirstHitsAgree e e :=
  ⟨rfl, rfl, rfl, rfl, rfl, rfl, rfl, rfl, rfl, rfl⟩

theorem withSabreOf_idem {K : Type} [LinearOrderedField K] (S p : ProcessedEvent K) :
    withSabreOf S (withSabreOf S p) = withSabreOf S p := rfl

theorem stSabre_withSabreOf {K : Type} [LinearOrderedField K]
    (j : Fin 5) (S : ProcessedEvent K) (e : CoincEvent K)
    (p : ProcessedEvent K) :
    ∃ q, stSabre j e p = .ok q ∧ withSabreOf S q = withSabreOf S p := by
  rcases hr : (e.sabreArray j).rings with _ | ⟨r, rs⟩ <;>
    rcases hw : (e.sabreArray j).wedges with _ | ⟨w, ws⟩ <;>
    simp [stSabre, hr, hw, at0, bind, Except.bind, pure, Except.pure] <;> rfl

theorem stSabre_sabre_free {K : Type} [LinearOrderedField K]
    (j : Fin 5) (S : ProcessedEvent K) (e e' : CoincEvent K)
    (p : ProcessedEvent K) :
    Except.map (withSabreOf S) (stSabre j e (withSabreOf S p))
      = Except.map (withSabreOf S) (stSabre j e' p) := by
  obtain ⟨q, hq, hq2⟩ := stSabre_withSabreOf j S e (withSabreOf S p)
  obtain ⟨q', hq', hq2'⟩ := stSabre_withSabreOf j S e' p
  rw [hq, hq']
  show Except.ok (withSabreOf S q) = Except.ok (withSabreOf S q')
  rw [hq2, hq2', withSabreOf_idem]

theorem statements_sabre_free {K : Type} [LinearOrderedField K] (w1 w2 : K) (m : Libm K) :
    ∀ st ∈ statements w1 w2 m, ∀ (S : ProcessedEvent K) (e e' : CoincEvent K)
      (p : ProcessedEvent K), FirstHitsAgree e e' →
      Except.map (withSabreOf S) (st e (withSabreOf S p))
        = Except.map (withSabreOf S) (st e' p) := by
  intro st hst
  simp only [statements, roleStatements, sabreLoop, anodeStatements, List.cons_append, List.nil_append, List.append_assoc,
    List.mem_cons, List.mem_singleton, List.not_mem_nil, or_false] at hst
  rcases hst with rfl | rfl | rfl | rfl | rfl | rfl | rfl | rfl | rfl | rfl | rfl | rfl | rfl |
      rfl | rfl | rfl | rfl | rfl | rfl | rfl | rfl | rfl | rfl | rfl | rfl | rfl | rfl | rfl |
      rfl | rfl | rfl | rfl | rfl | rfl
  all_goals
    intro S e e' p h
    first
    | exact stSabre_sabre_free _ S e e' p
    | (obtain ⟨h1, h2, h3, h4, h5, h6, h7, h8, h9, h10⟩ := h
       simp only [stAnodeF, stAnodeB, stScintL, stScintR, stCathode, stMonitor, stDelayFR, stDelayFL,
    stDelayBR, stDelayBL, stX1, stX2, stSabre, stXavg, stX1FL, stX1FR, stTsumA, stX2BL, stX2BR,
    stTsumB, stTildeFL, stTildeFR, stTildeBL, stTildeBR, stXavgTildeFRBL, stXavgTildeFLBR,
    stXavgTildeFLBL, stXavgTildeFRBR, stFp1Y, stFp2Y, bind, Except.bind, pure, Except.pure, withSabreOf,
         (at0_congr h1).1, (at0_congr h1).2,
         (at0_congr h2).1, (at0_congr h2).2,
         (at0_congr h3).1, (at0_congr h3).2,
         (at0_congr h4).1, (at0_congr h4).2,
         (at0_congr h5).1, (at0_congr h5).2,
         (at0_congr h6).1, (at0_congr h6).2,
         (at0_congr h7).1, (at0_congr h7).2,
         (at0_congr h8).1, (at0_congr h8).2,
         (at0_congr h9).1, (at0_congr h9).2,
         (at0_congr h10).1, (at0_congr h10).2]
       repeat' split
       all_goals rfl)

theorem runStatements_sabre_free {K : Type} [LinearOrderedField K] (l : List (Statement K))
    (hl : ∀ st ∈ l, ∀ (S : ProcessedEvent K) (e e' : CoincEvent K) (p : ProcessedEvent K),
      FirstHitsAgree e e' →
      Except.map (withSabreOf S) (st e (withSabreOf S p))
        = Except.map (withSabreOf S) (st e' p)) :
    ∀ (S : ProcessedEvent K) (e e' : CoincEvent K) (p : ProcessedEvent K),
      FirstHitsAgree e e' →
      Except.map (withSabreOf S) (runStatements l e (withSabreOf S p))
        = Except.map (withSabreOf S) (runStatements l e' p) := by
  induction l with
  | nil => intro S e e' p _; rfl
  | cons st l ih =>
    intro S e e' p h
    have ih' := ih (fun st hst => hl st (List.mem_cons_of_mem _ hst))
    have hst := hl st (List.mem_cons_self _ _) S e e' p h
    simp only [runStatements]
    rcases h1 : st e (withSabreOf S p) with x | q1 <;> rcases h2 : st e' p with x' | q2 <;>
      rw [h1, h2] at hst
    · simp only [Except.map, Except.error.injEq] at hst
      subst hst
      rfl
    · simp [Except.map] at hst
    · simp [Except.map] at hst
    · simp only [Except.map, Except.ok.injEq] at hst
      simp only []
      calc Except.map (withSabreOf S) (runStatements l e q1)
          = Except.map (withSabreOf S) (runStatements l e (withSabreOf S q1)) :=
            (ih' S e e q1 (FirstHitsAgree_refl e)).symm
        _ = Except.map (withSabreOf S) (runStatements l e (withSabreOf S q2)) := by rw [hst]
        _ = Except.map (withSabreOf S) (runStatements l e' q2) := ih' S e e' q2 h

theorem GetProcessedEvent_eq {K : Type} [LinearOrderedField K]
    (a : SFPAnalyzer K) (m : Libm K) (e : CoincEvent K) :
    a.GetProcessedEvent m e =
      match runStatements (statements a.w1 a.w2 m) e a.blank with
      | .error x => .error x
      | .ok pevent => .ok (pevent, { a with pevent := pevent }) := by
  unfold GetProcessedEvent
  rw [AnalyzeEvent_eq]
  cases runStatements (statements a.w1 a.w2 m) e a.blank <;> rfl

/-- C26: two events that agree, for each focal-plane role, on whether the role has a hit and on
its first hit are analysed alike: `GetProcessedEvent` faults on both, with the same fault, or
returns on both, and then the two processed events agree on every member other than the SABRE
members (with the SABRE members of both replaced by those of any `S` they are equal), among them
`x1`, `x2`, `xavg` and `theta`. Later hits of a role and the SABRE hits have no influence. -/
theorem GetProcessedEvent_first_hits {K : Type} [LinearOrderedField K]
    (a : SFPAnalyzer K) (m : Libm K) (e e' : CoincEvent K)
    (S : ProcessedEvent K) (h : FirstHitsAgree e e') :
    (a.GetProcessedEvent m e).map (fun r => withSabreOf S r.1)
      = (a.GetProcessedEvent m e').map (fun r => withSabreOf S r.1) ∧
    (∀ x, a.GetProcessedEvent m e = .error x ↔ a.GetProcessedEvent m e' = .error x) ∧
    (∀ r r', a.GetProcessedEvent m e = .ok r → a.GetProcessedEvent m e' = .ok r' →
      withSabreOf S r.1 = withSabreOf S r'.1 ∧ r.1.x1 = r'.1.x1 ∧ r.1.x2 = r'.1.x2 ∧
      r.1.xavg = r'.1.xavg ∧ r.1.theta = r'.1.theta) := by
  have hfree := runStatements_sabre_free (statements a.w1 a.w2 m)
    (statements_sabre_free a.w1 a.w2 m) S
  have key : Except.map (withSabreOf S) (runStatements (statements a.w1 a.w2 m) e a.blank)
      = Except.map (withSabreOf S) (runStatements (statements a.w1 a.w2 m) e' a.blank) :=
    (hfree e e a.blank (FirstHitsAgree_refl e)).symm.trans (hfree e e' a.blank h)
  rw [GetProcessedEvent_eq, GetProcessedEvent_eq]
  rcases h1 : runStatements (statements a.w1 a.w2 m) e a.blank with x | q <;>
    rcases h2 : runStatements (statements a.w1 a.w2 m) e' a.blank with x' | q' <;>
    rw [h1, h2] at key
  · simp only [Except.map, Except.error.injEq] at key
    subst key
    exact ⟨rfl, fun _ => Iff.rfl, fun r r' hr => by cases hr⟩
  · simp [Except.map] at key
  · simp [Except.map] at key
  · simp only [Except.map, Except.ok.injEq] at key
    have k1 := congrArg (fun p : ProcessedEvent K => p.x1) key
    have k2 := congrArg (fun p : ProcessedEvent K => p.x2) key
    have k3 := congrArg (fun p : ProcessedEvent K => p.xavg) key
    have k4 := congrArg (fun p : ProcessedEvent K => p.theta) key
    refine ⟨congrArg Except.ok key,
      fun x => ⟨fun hx => (by cases hx), fun hx => (by cases hx)⟩, ?_⟩
    intro r r' hr hr'
    simp only [Except.ok.injEq] at hr hr'
    subst hr hr'
    exact ⟨key, k1, k2, k3, k4⟩

end SFPAnalyzer

/-- C26 on two events with the same first hits on the focal-plane roles, of which one has
further hits and SABRE hits: their processed events agree outside the SABRE members. -/
theorem GetProcessedEvent_first_hits_witness :
    SFPAnalyzer.FirstHitsAgree eventTwoHits eventOneHit ∧
    ((SFPAnalyzer.construct 0).GetProcessedEvent ratLibm eventTwoHits).map
        (fun r => SFPAnalyzer.withSabreOf {} r.1)
      = ((SFPAnalyzer.construct 0).GetProcessedEvent ratLibm eventOneHit).map
        (fun r => SFPAnalyzer.withSabreOf {} r.1) :=
  ⟨⟨rfl, rfl, rfl, rfl, rfl, rfl, rfl, rfl, rfl, rfl⟩,
    (SFPAnalyzer.GetProcessedEvent_first_hits (SFPAnalyzer.construct 0) ratLibm eventTwoHits
      eventOneHit {} ⟨rfl, rfl, rfl, rfl, rfl, rfl, rfl, rfl, rfl, rfl⟩).1⟩

namespace SFPAnalyzer

theorem stX1_spec {K : Type} [LinearOrderedField K]
    {e : CoincEvent K} {p p' : ProcessedEvent K} (h : stX1 e p = .ok p') :
    (p'.x2, p'.xavg, p'.theta) = (p.x2, p.xavg, p.theta) ∧
    ((e.focalPlane.delayFL = [] ∨ e.focalPlane.delayFR = []) → p'.x1 = p.x1) ∧
    (∀ fl fr, e.focalPlane.delayFL.head? = some fl → e.focalPlane.delayFR.head? = some fr →
      p'.x1 = (fl.Time - fr.Time) * (1 / 2) * 1 / (21 / 10)) := by
  rcases ha : e.focalPlane.delayFL with _ | ⟨a, as⟩ <;>
    rcases hb : e.focalPlane.delayFR with _ | ⟨b, bs⟩ <;>
    rcases hs : e.focalPlane.scintL with _ | ⟨s, ss⟩ <;>
    simp [stX1, at0, ha, hb, hs, bind, Except.bind, pure, Except.pure] at h <;>
    subst h <;> simp

theorem stX2_spec {K : Type} [LinearOrderedField K]
    {e : CoincEvent K} {p p' : ProcessedEvent K} (h : stX2 e p = .ok p') :
    (p'.x1, p'.xavg, p'.theta) = (p.x1, p.xavg, p.theta) ∧
    ((e.focalPlane.delayBL = [] ∨ e.focalPlane.delayBR = []) → p'.x2 = p.x2) ∧
    (∀ bl br, e.focalPlane.delayBL.head? = some bl → e.focalPlane.delayBR.head? = some br →
      p'.x2 = (bl.Time - br.Time) * (1 / 2) * 1 / (198 / 100)) := by
  rcases ha : e.focalPlane.delayBL with _ | ⟨a, as⟩ <;>
    rcases hb : e.focalPlane.delayBR with _ | ⟨b, bs⟩ <;>
    rcases hs : e.focalPlane.scintL with _ | ⟨s, ss⟩ <;>
    simp [stX2, at0, ha, hb, hs, bind, Except.bind, pure, Except.pure] at h <;>
    subst h <;> simp

theorem stXavg_spec {K : Type} [LinearOrderedField K]
    {w1 w2 : K} {m : Libm K} {e : CoincEvent K} {p p' : ProcessedEvent K}
    (h : stXavg w1 w2 m e p = .ok p') :
    (p'.x1, p'.x2) = (p.x1, p.x2) ∧
    (p.x1 ≠ -1000000 → p.x2 ≠ -1000000 →
      p'.xavg = p.x1 * w1 + p.x2 * w2 ∧
      p'.theta =
        if p.x2 - p.x1 > 0 then m.atan ((p.x2 - p.x1) / 36)
        else if p.x2 - p.x1 < 0 then m.Pi + m.atan ((p.x2 - p.x1) / 36)
        else m.Pi / 2) ∧
    ((p.x1 = -1000000 ∨ p.x2 = -1000000) → (p'.xavg, p'.theta) = (p.xavg, p.theta)) := by
  simp only [stXavg, pure, Except.pure] at h
  by_cases hc : p.x1 ≠ -1000000 ∧ p.x2 ≠ -1000000
  · rw [if_pos hc] at h
    have hn : ¬(p.x1 = -1000000 ∨ p.x2 = -1000000) := fun hh => hh.elim hc.1 hc.2
    split at h
    · rename_i h1
      cases h
      exact ⟨rfl, fun _ _ => ⟨rfl, by rw [if_pos h1]⟩, fun hh => absurd hh hn⟩
    · rename_i h1
      split at h
      · rename_i h2
        cases h
        exact ⟨rfl, fun _ _ => ⟨rfl, by rw [if_neg h1, if_pos h2]⟩, fun hh => absurd hh hn⟩
      · rename_i h2
        cases h
        exact ⟨rfl, fun _ _ => ⟨rfl, by rw [if_neg h1, if_neg h2]⟩, fun hh => absurd hh hn⟩
  · rw [if_neg hc] at h
    cases h
    exact ⟨rfl, fun h1 h2 => absurd ⟨h1, h2⟩ hc, fun _ => rfl⟩

theorem runStatements_positions {K : Type} [LinearOrderedField K]
    {w1 w2 : K} {m : Libm K} {e : CoincEvent K}
    {p0 p : ProcessedEvent K} (h : runStatements (statements w1 w2 m) e p0 = .ok p) :
    ((e.focalPlane.delayFL = [] ∨ e.focalPlane.delayFR = []) → p.x1 = p0.x1) ∧
    (∀ fl fr, e.focalPlane.delayFL.head? = some fl → e.focalPlane.delayFR.head? = some fr →
      p.x1 = (fl.Time - fr.Time) * (1 / 2) * 1 / (21 / 10)) ∧
    ((e.focalPlane.delayBL = [] ∨ e.focalPlane.delayBR = []) → p.x2 = p0.x2) ∧
    (∀ bl br, e.focalPlane.delayBL.head? = some bl → e.focalPlane.delayBR.head? = some br →
      p.x2 = (bl.Time - br.Time) * (1 / 2) * 1 / (198 / 100)) ∧
    (p.x1 ≠ -1000000 → p.x2 ≠ -1000000 →
      p.xavg = p.x1 * w1 + p.x2 * w2 ∧
      p.theta =
        if p.x2 - p.x1 > 0 then m.atan ((p.x2 - p.x1) / 36)
        else if p.x2 - p.x1 < 0 then m.Pi + m.atan ((p.x2 - p.x1) / 36)
        else m.Pi / 2) ∧
    ((p.x1 = -1000000 ∨ p.x2 = -1000000) → p.xavg = p0.xavg ∧ p.theta = p0.theta) := by
  have keep := statements_keep_positions w1 w2 e
  have keepRole := runStatements_keeps (fun q => (q.x1, q.x2, q.xavg, q.theta)) roleStatements e
    (fun st hst => keep st (by simp only [List.mem_append]; exact Or.inl (Or.inl hst)))
  have keepSabre := runStatements_keeps (fun q => (q.x1, q.x2, q.xavg, q.theta)) sabreLoop e
    (fun st hst => keep st (by simp only [List.mem_append]; exact Or.inl (Or.inr hst)))
  have keepAnode := runStatements_keeps (fun q => (q.x1, q.x2, q.xavg, q.theta))
    (anodeStatements w1 w2) e
    (fun st hst => keep st (by simp only [List.mem_append]; exact Or.inr hst))
  unfold statements at h
  rw [runStatements_append] at h
  rcases h4 : runStatements (roleStatements ++ [stX1, stX2] ++ sabreLoop ++ [stXavg w1 w2 m])
    e p0 with x | p5
  · rw [h4] at h; cases h
  rw [h4] at h
  simp only [] at h
  rw [runStatements_append] at h4
  rcases h3 : runStatements (roleStatements ++ [stX1, stX2] ++ sabreLoop) e p0 with x | p4
  · rw [h3] at h4; cases h4
  rw [h3] at h4
  simp only [runStatements] at h4
  rcases hxavg : stXavg w1 w2 m e p4 with x | p5'
  · rw [hxavg] at h4; cases h4
  rw [hxavg] at h4
  simp only [Except.ok.injEq] at h4
  subst h4
  rw [runStatements_append] at h3
  rcases h2 : runStatements (roleStatements ++ [stX1, stX2]) e p0 with x | p3
  · rw [h2] at h3; cases h3
  rw [h2] at h3
  simp only [] at h3
  rw [runStatements_append] at h2
  rcases h1 : runStatements roleStatements e p0 with x | p1
  · rw [h1] at h2; cases h2
  rw [h1] at h2
  simp only [runStatements] at h2
  rcases hx1 : stX1 e p1 with x | p2
  · rw [hx1] at h2; cases h2
  rw [hx1] at h2
  simp only [] at h2
  rcases hx2 : stX2 e p2 with x | p3'
  · rw [hx2] at h2; cases h2
  rw [hx2] at h2
  simp only [Except.ok.injEq] at h2
  subst h2
  have k1 := keepRole p0 p1 h1
  obtain ⟨a1, a2, a3⟩ := stX1_spec hx1
  obtain ⟨b1, b2, b3⟩ := stX2_spec hx2
  have k3 := keepSabre _ _ h3
  obtain ⟨c1, c2, c3⟩ := stXavg_spec hxavg
  have k5 := keepAnode _ _ h
  simp only [Prod.mk.injEq] at k1 a1 b1 k3 c1 k5
  obtain ⟨k11, k12, k13, k14⟩ := k1
  obtain ⟨a11, a12, a13⟩ := a1
  obtain ⟨b11, b12, b13⟩ := b1
  obtain ⟨k31, k32, k33, k34⟩ := k3
  obtain ⟨c11, c12⟩ := c1
  obtain ⟨k51, k52, k53, k54⟩ := k5
  have ex1 : p.x1 = p4.x1 := by rw [k51, c11]
  have ex2 : p.x2 = p4.x2 := by rw [k52, c12]
  refine ⟨?_, ?_, ?_, ?_, ?_, ?_⟩
  · intro hh
    rw [ex1, k31, b11, a2 hh, k11]
  · intro fl fr hfl hfr
    rw [ex1, k31, b11, a3 fl fr hfl hfr]
  · intro hh
    rw [ex2, k32, b2 hh, a11, k12]
  · intro bl br hbl hbr
    rw [ex2, k32, b3 bl br hbl hbr]
  · intro hh1 hh2
    rw [ex1] at hh1
    rw [ex2] at hh2
    obtain ⟨d1, d2⟩ := c2 hh1 hh2
    rw [k53, k54, ex1, ex2]
    exact ⟨d1, d2⟩
  · intro hh
    rw [ex1, ex2] at hh
    have d := c3 hh
    simp only [Prod.mk.injEq] at d
    rw [k53, k54, d.1, d.2, k33, k34, b12, b13, a12, a13, k13, k14]
    exact ⟨rfl, rfl⟩

theorem AnalyzeEvent_ok {K : Type} [LinearOrderedField K]
    {a a' : SFPAnalyzer K} {m : Libm K} {e : CoincEvent K}
    (h : a.AnalyzeEvent m e = .ok a') :
    runStatements (statements a.w1 a.w2 m) e a.blank = .ok a'.pevent ∧
    a' = { a with pevent := a'.pevent } := by
  rw [AnalyzeEvent_eq] at h
  rcases hr : runStatements (statements a.w1 a.w2 m) e a.blank with x | p
  · rw [hr] at h; cases h
  · rw [hr] at h
    simp only [Except.ok.injEq] at h
    subst h
    exact ⟨rfl, rfl⟩

theorem AnalyzeEvent_total {K : Type} [LinearOrderedField K]
    (a : SFPAnalyzer K) (m : Libm K) (e : CoincEvent K)
    (hs : e.focalPlane.scintL ≠ []) : ∃ a', a.AnalyzeEvent m e = .ok a' := by
  obtain ⟨p, hp⟩ := (runStatements_faults_iff a.w1 a.w2 m e a.blank).1 (Or.inl hs)
  exact ⟨{ a with pevent := p }, by rw [AnalyzeEvent_eq, hp]⟩

theorem GetWeights_sum {K : Type} [LinearOrderedField K] (a : SFPAnalyzer K) :
    a.GetWeights.w1 + a.GetWeights.w2 = 1 ∧
    ∀ x1 x2 : K, x1 * a.GetWeights.w1 + x2 * a.GetWeights.w2
      = lineThrough (-(Wire_Dist / 2)) x1 (Wire_Dist / 2) x2 a.zfp := by
  have hd : (Wire_Dist : K) ≠ 0 := by
    unfold Wire_Dist
    norm_num
  refine ⟨by simp only [GetWeights]; ring, fun x1 x2 => ?_⟩
  simp only [GetWeights, lineThrough]
  field_simp
  ring

/-- C24: with the weights that `GetWeights` computes from the focal-plane shift `zfp`,
`w1 + w2 = 1`, and the weighted average `x1*w1 + x2*w2` is, for all positions `x1` and `x2`,
the x-coordinate at depth `zfp` of the straight line through `x1` at depth `-d/2` and `x2` at
depth `+d/2`, where `d = Wire_Dist() = 4.28625`; whenever `AnalyzeEvent` computes `xavg` (both
positions differ from -1e6), `xavg` is that coordinate for the members `x1` and `x2`. -/
theorem GetWeights_line {K : Type} [LinearOrderedField K]
    (a0 a' : SFPAnalyzer K) (m : Libm K) (e : CoincEvent K)
    (h : a0.GetWeights.AnalyzeEvent m e = .ok a')
    (h1 : a'.pevent.x1 ≠ -1000000) (h2 : a'.pevent.x2 ≠ -1000000) :
    (Wire_Dist : K) = 428625 / 100000 ∧
    a0.GetWeights.w1 + a0.GetWeights.w2 = 1 ∧
    (∀ x1 x2 : K, x1 * a0.GetWeights.w1 + x2 * a0.GetWeights.w2
      = lineThrough (-(Wire_Dist / 2)) x1 (Wire_Dist / 2) x2 a0.zfp) ∧
    a'.pevent.xavg
      = lineThrough (-(Wire_Dist / 2)) a'.pevent.x1 (Wire_Dist / 2) a'.pevent.x2 a0.zfp := by
  obtain ⟨s1, s2⟩ := GetWeights_sum a0
  refine ⟨rfl, s1, s2, ?_⟩
  obtain ⟨_, _, _, _, c5, _⟩ := runStatements_positions (AnalyzeEvent_ok h).1
  rw [(c5 h1 h2).1]
  exact s2 _ _

/-- C29 as amended: on an event on which `AnalyzeEvent` returns, the analyzer holding the blank
defaults, `xavg` and `theta` keep their defaults of -1e6 whenever one of the four delay-line
roles has no hit; when all four have a hit, `x1` and `x2` are the halved time differences of
their first hits over 2.10 and 1.98, and `xavg` and `theta` are computed, as `x1*w1 + x2*w2`
and the track angle, if and only if neither `x1` nor `x2` is equal to -1e6: when one of them is,
`xavg` and `theta` keep their defaults as well. -/
theorem AnalyzeEvent_xavg {K : Type} [LinearOrderedField K]
    (a a' : SFPAnalyzer K) (m : Libm K) (e : CoincEvent K)
    (hblank : a.blank = {}) (h : a.AnalyzeEvent m e = .ok a') :
    ((e.focalPlane.delayFL = [] ∨ e.focalPlane.delayFR = [] ∨
        e.focalPlane.delayBL = [] ∨ e.focalPlane.delayBR = []) →
      a'.pevent.xavg = -1000000 ∧ a'.pevent.theta = -1000000) ∧
    (∀ fl fr bl br, e.focalPlane.delayFL.head? = some fl →
      e.focalPlane.delayFR.head? = some fr → e.focalPlane.delayBL.head? = some bl →
      e.focalPlane.delayBR.head? = some br →
      a'.pevent.x1 = (fl.Time - fr.Time) * (1 / 2) * 1 / (21 / 10) ∧
      a'.pevent.x2 = (bl.Time - br.Time) * (1 / 2) * 1 / (198 / 100) ∧
      (a'.pevent.x1 ≠ -1000000 → a'.pevent.x2 ≠ -1000000 →
        a'.pevent.xavg = a'.pevent.x1 * a.w1 + a'.pevent.x2 * a.w2 ∧
        a'.pevent.theta =
          if a'.pevent.x2 - a'.pevent.x1 > 0 then
            m.atan ((a'.pevent.x2 - a'.pevent.x1) / 36)
          else if a'.pevent.x2 - a'.pevent.x1 < 0 then
            m.Pi + m.atan ((a'.pevent.x2 - a'.pevent.x1) / 36)
          else m.Pi / 2) ∧
      ((a'.pevent.x1 = -1000000 ∨ a'.pevent.x2 = -1000000) →
        a'.pevent.xavg = -1000000 ∧ a'.pevent.theta = -1000000)) := by
  obtain ⟨c1, c2, c3, c4, c5, c6⟩ := runStatements_positions (AnalyzeEvent_ok h).1
  rw [hblank] at c1 c3 c6
  refine ⟨?_, ?_⟩
  · intro hh
    apply c6
    rcases hh with hh | hh | hh | hh
    · exact Or.inl (c1 (Or.inl hh))
    · exact Or.inl (c1 (Or.inr hh))
    · exact Or.inr (c3 (Or.inl hh))
    · exact Or.inr (c3 (Or.inr hh))
  · intro fl fr bl br hfl hfr hbl hbr
    exact ⟨c2 fl fr hfl hfr, c4 bl br hbl hbr, c5, c6⟩

end SFPAnalyzer

/-- C24 on an event with a hit on each delay line, for a focal-plane shift of 1: `xavg` is the
x-coordinate at depth 1 of the line through `x1 = -10/21` and `x2 = 100/99`. -/
theorem GetWeights_line_witness :
    ∃ a', (SFPAnalyzer.GetWeights ({ zfp := 1 } : SFPAnalyzer ℚ)).AnalyzeEvent ratLibm eventFourLines = .ok a' ∧
      a'.pevent.x1 = -10 / 21 ∧ a'.pevent.x2 = 100 / 99 ∧
      a'.pevent.xavg = lineThrough (-(Wire_Dist / 2)) (-10 / 21) (Wire_Dist / 2) (100 / 99) 1 := by
  obtain ⟨a', h⟩ := SFPAnalyzer.AnalyzeEvent_total (SFPAnalyzer.GetWeights ({ zfp := 1 } : SFPAnalyzer ℚ))
    ratLibm eventFourLines (by simp [eventFourLines])
  obtain ⟨_, c2, _, c4, _, _⟩ := SFPAnalyzer.runStatements_positions
    (SFPAnalyzer.AnalyzeEvent_ok h).1
  have e1 : a'.pevent.x1 = -10 / 21 := by
    rw [c2 { Time := 10 } { Time := 12 } rfl rfl]
    norm_num
  have e2 : a'.pevent.x2 = 100 / 99 := by
    rw [c4 { Time := 20 } { Time := 16 } rfl rfl]
    norm_num
  have key := (SFPAnalyzer.GetWeights_line ({ zfp := 1 } : SFPAnalyzer ℚ) a' ratLibm eventFourLines h
    (by rw [e1]; norm_num) (by rw [e2]; norm_num)).2.2.2
  rw [e1, e2] at key
  exact ⟨a', h, e1, e2, key⟩

/-- C29 fails on `eventSentinel`, on which all four delay-line roles have a hit: the time
difference of -4200000 on the front wire gives `x1 = -1e6`, the value `AnalyzeEvent` takes for
"not computed", so that `xavg` and `theta` keep their defaults of -1e6 instead of becoming
`x1*w1 + x2*w2 = -500000` and the track angle. -/
theorem AnalyzeEvent_sentinel_collision :
    eventSentinel.focalPlane.delayFL ≠ [] ∧ eventSentinel.focalPlane.delayFR ≠ [] ∧
    eventSentinel.focalPlane.delayBL ≠ [] ∧ eventSentinel.focalPlane.delayBR ≠ [] ∧
    ∃ a', (SFPAnalyzer.construct 0).AnalyzeEvent ratLibm eventSentinel = .ok a' ∧
      a'.pevent.x1 = -1000000 ∧ a'.pevent.x2 = 0 ∧
      a'.pevent.xavg = -1000000 ∧ a'.pevent.theta = -1000000 ∧
      a'.pevent.x1 * (SFPAnalyzer.construct 0).w1 + a'.pevent.x2 * (SFPAnalyzer.construct 0).w2
        = -500000 := by
  obtain ⟨a', h⟩ := SFPAnalyzer.AnalyzeEvent_total (SFPAnalyzer.construct 0)
    ratLibm eventSentinel (by simp [eventSentinel])
  obtain ⟨_, c2, _, c4, _, c6⟩ := SFPAnalyzer.runStatements_positions
    (SFPAnalyzer.AnalyzeEvent_ok h).1
  have e1 : a'.pevent.x1 = -1000000 := by
    rw [c2 { Time := 0 } { Time := 4200000 } rfl rfl]
    norm_num
  have e2 : a'.pevent.x2 = 0 := by
    rw [c4 { Time := 0 } { Time := 0 } rfl rfl]
    norm_num
  have e3 := c6 (Or.inl e1)
  refine ⟨by simp [eventSentinel], by simp [eventSentinel], by simp [eventSentinel],
    by simp [eventSentinel], a', h, e1, e2, e3.1, e3.2, ?_⟩
  rw [e1, e2]
  norm_num [SFPAnalyzer.construct, SFPAnalyzer.GetWeights, Wire_Dist]

/-- C29 as amended on `eventFourLines`: `x1 = -10/21` and `x2 = 100/99` differ from -1e6, and
with a focal-plane shift of 0, which gives `w1 = w2 = 1/2`, `xavg` is their mean, 185/693;
on `eventOneHit`, which has no hit on the back delay lines, `xavg` keeps -1e6. -/
theorem AnalyzeEvent_xavg_witness :
    (∃ a', (SFPAnalyzer.construct 0).AnalyzeEvent ratLibm eventFourLines = .ok a' ∧
      a'.pevent.x1 = -10 / 21 ∧ a'.pevent.x2 = 100 / 99 ∧ a'.pevent.xavg = 185 / 693) ∧
    (∃ a', (SFPAnalyzer.construct 0).AnalyzeEvent ratLibm eventOneHit = .ok a' ∧
      a'.pevent.xavg = -1000000) := by
  obtain ⟨a', h⟩ := SFPAnalyzer.AnalyzeEvent_total (SFPAnalyzer.construct 0)
    ratLibm eventFourLines (by simp [eventFourLines])
  obtain ⟨a'', h'⟩ := SFPAnalyzer.AnalyzeEvent_total (SFPAnalyzer.construct 0)
    ratLibm eventOneHit (by simp [eventOneHit])
  obtain ⟨k1, k2, k3, -⟩ := (SFPAnalyzer.AnalyzeEvent_xavg (SFPAnalyzer.construct 0) a' ratLibm
    eventFourLines rfl h).2 { Time := 10 } { Time := 12 } { Time := 20 } { Time := 16 }
    rfl rfl rfl rfl
  have e1 : a'.pevent.x1 = -10 / 21 := by rw [k1]; norm_num
  have e2 : a'.pevent.x2 = 100 / 99 := by rw [k2]; norm_num
  have e3 := (k3 (by rw [e1]; norm_num) (by rw [e2]; norm_num)).1
  refine ⟨⟨a', h, e1, e2, ?_⟩, a'', h', ?_⟩
  · rw [e3, e1, e2]
    norm_num [SFPAnalyzer.construct, SFPAnalyzer.GetWeights, Wire_Dist]
  · exact ((SFPAnalyzer.AnalyzeEvent_xavg (SFPAnalyzer.construct 0) a'' ratLibm eventOneHit rfl
      h').1 (Or.inr (Or.inr (Or.inl rfl)))).1

namespace SFPAnalyzer

theorem statements_keep_sumA {K : Type} [LinearOrderedField K]
    (w1 w2 : K) (m : Libm K) (e : CoincEvent K)
    (hempty : e.focalPlane.delayFL = [] ∨ e.focalPlane.delayFR = [] ∨
      e.focalPlane.anodeF = []) :
    ∀ st ∈ statements w1 w2 m, ∀ p p', st e p = .ok p' → p'.x1_sumA = p.x1_sumA := by
  intro st hst
  simp only [statements, roleStatements, sabreLoop, anodeStatements, List.cons_append, List.nil_append, List.append_assoc,
    List.mem_cons, List.mem_singleton, List.not_mem_nil, or_false] at hst
  rcases hst with rfl | rfl | rfl | rfl | rfl | rfl | rfl | rfl | rfl | rfl | rfl | rfl | rfl |
      rfl | rfl | rfl | rfl | rfl | rfl | rfl | rfl | rfl | rfl | rfl | rfl | rfl | rfl | rfl |
      rfl | rfl | rfl | rfl | rfl | rfl
  all_goals
    intro p p' h
    simp only [stAnodeF, stAnodeB, stScintL, stScintR, stCathode, stMonitor, stDelayFR, stDelayFL,
    stDelayBR, stDelayBL, stX1, stX2, stSabre, stXavg, stX1FL, stX1FR, stTsumA, stX2BL, stX2BR,
    stTsumB, stTildeFL, stTildeFR, stTildeBL, stTildeBR, stXavgTildeFRBL, stXavgTildeFLBR,
    stXavgTildeFLBL, stXavgTildeFRBR, stFp1Y, stFp2Y, bind, Except.bind, pure, Except.pure] at h
    repeat' split at h
    all_goals first
      | (cases h; rfl)
      | (cases h; done)
      | (exfalso; rcases hempty with h0 | h0 | h0 <;> simp_all)

theorem statements_keep_sumB {K : Type} [LinearOrderedField K]
    (w1 w2 : K) (m : Libm K) (e : CoincEvent K)
    (hempty : e.focalPlane.delayBL = [] ∨ e.focalPlane.delayBR = [] ∨
      e.focalPlane.anodeB = []) :
    ∀ st ∈ statements w1 w2 m, ∀ p p', st e p = .ok p' → p'.x2_sumB = p.x2_sumB := by
  intro st hst
  simp only [statements, roleStatements, sabreLoop, anodeStatements, List.cons_append, List.nil_append, List.append_assoc,
    List.mem_cons, List.mem_singleton, List.not_mem_nil, or_false] at hst
  rcases hst with rfl | rfl | rfl | rfl | rfl | rfl | rfl | rfl | rfl | rfl | rfl | rfl | rfl |
      rfl | rfl | rfl | rfl | rfl | rfl | rfl | rfl | rfl | rfl | rfl | rfl | rfl | rfl | rfl |
      rfl | rfl | rfl | rfl | rfl | rfl
  all_goals
    intro p p' h
    simp only [stAnodeF, stAnodeB, stScintL, stScintR, stCathode, stMonitor, stDelayFR, stDelayFL,
    stDelayBR, stDelayBL, stX1, stX2, stSabre, stXavg, stX1FL, stX1FR, stTsumA, stX2BL, stX2BR,
    stTsumB, stTildeFL, stTildeFR, stTildeBL, stTildeBR, stXavgTildeFRBL, stXavgTildeFLBR,
    stXavgTildeFLBL, stXavgTildeFRBR, stFp1Y, stFp2Y, bind, Except.bind, pure, Except.pure] at h
    repeat' split at h
    all_goals first
      | (cases h; rfl)
      | (cases h; done)
      | (exfalso; rcases hempty with h0 | h0 | h0 <;> simp_all)

theorem GetProcessedEvent_ok {K : Type} [LinearOrderedField K]
    {a : SFPAnalyzer K} {m : Libm K} {e : CoincEvent K}
    {r : ProcessedEvent K × SFPAnalyzer K} (h : a.GetProcessedEvent m e = .ok r) :
    runStatements (statements a.w1 a.w2 m) e a.blank = .ok r.1 ∧
    r.2 = { a with pevent := r.1 } := by
  rw [GetProcessedEvent_eq] at h
  rcases hr : runStatements (statements a.w1 a.w2 m) e a.blank with x | p
  · rw [hr] at h; cases h
  · rw [hr] at h
    simp only [Except.ok.injEq] at h
    subst h
    exact ⟨rfl, rfl⟩

theorem analyzeAll_frame {K : Type} [LinearOrderedField K] (m : Libm K) (es : List (CoincEvent K)) :
    ∀ a a' : SFPAnalyzer K, analyzeAll a m es = .ok a' →
      a'.zfp = a.zfp ∧ a'.w1 = a.w1 ∧ a'.w2 = a.w2 ∧ a'.blank = a.blank := by
  induction es with
  | nil =>
    intro a a' h
    simp only [analyzeAll, Except.ok.injEq] at h
    subst h
    exact ⟨rfl, rfl, rfl, rfl⟩
  | cons e es ih =>
    intro a a' h
    simp only [analyzeAll] at h
    rcases hg : a.GetProcessedEvent m e with x | r
    · rw [hg] at h; cases h
    · rw [hg] at h
      simp only [] at h
      obtain ⟨i1, i2, i3, i4⟩ := ih r.2 a' h
      rw [(GetProcessedEvent_ok hg).2] at i1 i2 i3 i4
      exact ⟨i1, i2, i3, i4⟩

theorem GetProcessedEvent_total {K : Type} [LinearOrderedField K]
    (a : SFPAnalyzer K) (m : Libm K) (e : CoincEvent K)
    (hs : e.focalPlane.scintL ≠ []) : ∃ r, a.GetProcessedEvent m e = .ok r := by
  obtain ⟨p, hp⟩ := (runStatements_faults_iff a.w1 a.w2 m e a.blank).1 (Or.inl hs)
  exact ⟨(p, { a with pevent := p }), by rw [GetProcessedEvent_eq, hp]⟩

theorem analyzeAll_total {K : Type} [LinearOrderedField K] (m : Libm K) (es : List (CoincEvent K))
    (hs : ∀ e ∈ es, e.focalPlane.scintL ≠ []) :
    ∀ a : SFPAnalyzer K, ∃ a', analyzeAll a m es = .ok a' := by
  induction es with
  | nil => exact fun a => ⟨a, rfl⟩
  | cons e es ih =>
    intro a
    obtain ⟨r, hr⟩ := GetProcessedEvent_total a m e (hs e (List.mem_cons_self _ _))
    obtain ⟨a', ha'⟩ := ih (fun e he => hs e (List.mem_cons_of_mem _ he)) r.2
    exact ⟨a', by simp only [analyzeAll, hr, ha']⟩

/-- C30: the processed event that `GetProcessedEvent` returns does not depend on the events
analysed before: after any sequence of analyses the call gives what the first call of the
analyzer gives, the run of the statements of `AnalyzeEvent` on the blank event, a function of
the event, the weights and the blank event. The defaults it leaves are not all -1 or -1e6: with
the blank event as declared, `x1_sumA` is -1e-6 whenever the front left delay line, the front
right delay line or the front anode has no hit, and `x2_sumB` is -1e-6 whenever the back left
delay line, the back right delay line or the back anode has none. -/
theorem GetProcessedEvent_frame {K : Type} [LinearOrderedField K]
    (a a' : SFPAnalyzer K) (m : Libm K)
    (es : List (CoincEvent K)) (e : CoincEvent K) (h : analyzeAll a m es = .ok a') :
    (a'.GetProcessedEvent m e).map Prod.fst = (a.GetProcessedEvent m e).map Prod.fst ∧
    (a.GetProcessedEvent m e).map Prod.fst
      = runStatements (statements a.w1 a.w2 m) e a.blank ∧
    (a.blank = {} → ∀ r, a'.GetProcessedEvent m e = .ok r →
      ((e.focalPlane.delayFL = [] ∨ e.focalPlane.delayFR = [] ∨ e.focalPlane.anodeF = []) →
        r.1.x1_sumA = -(1 / 1000000)) ∧
      ((e.focalPlane.delayBL = [] ∨ e.focalPlane.delayBR = [] ∨ e.focalPlane.anodeB = []) →
        r.1.x2_sumB = -(1 / 1000000))) ∧
    (-(1 / 1000000) : K) ≠ -1 ∧ (-(1 / 1000000) : K) ≠ -1000000 := by
  obtain ⟨_, f2, f3, f4⟩ := analyzeAll_frame m es a a' h
  have hrun : ∀ b : SFPAnalyzer K, (b.GetProcessedEvent m e).map Prod.fst
      = runStatements (statements b.w1 b.w2 m) e b.blank := by
    intro b
    rw [GetProcessedEvent_eq]
    cases runStatements (statements b.w1 b.w2 m) e b.blank <;> rfl
  refine ⟨by rw [hrun, hrun, f2, f3, f4], hrun a, ?_, by norm_num, by norm_num⟩
  intro hblank r hr
  have hr1 := (GetProcessedEvent_ok hr).1
  rw [f2, f3, f4, hblank] at hr1
  refine ⟨fun hempty => ?_, fun hempty => ?_⟩
  · exact runStatements_keeps (fun q => q.x1_sumA) _ e
      (statements_keep_sumA a.w1 a.w2 m e hempty) _ _ hr1
  · exact runStatements_keeps (fun q => q.x2_sumB) _ e
      (statements_keep_sumB a.w1 a.w2 m e hempty) _ _ hr1

end SFPAnalyzer

/-- C30 on `eventOneHit`, which has no hit on the front anode, after the analyses of
`eventFourLines` and `eventTwoHits`: the processed event is the one a first call returns, and
its `x1_sumA` is -1e-6. -/
theorem GetProcessedEvent_frame_witness :
    ∃ a' r, SFPAnalyzer.analyzeAll (SFPAnalyzer.construct 0) ratLibm
        [eventFourLines, eventTwoHits] = .ok a' ∧
      a'.GetProcessedEvent ratLibm eventOneHit = .ok r ∧
      (a'.GetProcessedEvent ratLibm eventOneHit).map Prod.fst
        = ((SFPAnalyzer.construct 0).GetProcessedEvent ratLibm eventOneHit).map Prod.fst ∧
      r.1.x1_sumA = -(1 / 1000000) := by
  obtain ⟨a', h⟩ := SFPAnalyzer.analyzeAll_total ratLibm [eventFourLines, eventTwoHits]
    (by simp [eventFourLines, eventTwoHits]) (SFPAnalyzer.construct 0)
  obtain ⟨r, hr⟩ := SFPAnalyzer.GetProcessedEvent_total a' ratLibm eventOneHit
    (by simp [eventOneHit])
  have key := SFPAnalyzer.GetProcessedEvent_frame (SFPAnalyzer.construct 0) a' ratLibm
    [eventFourLines, eventTwoHits] eventOneHit h
  exact ⟨a', r, h, hr, key.1, (key.2.2.1 rfl r hr).1 (Or.inr (Or.inr rfl))⟩

end EventBuilder
